import Mathlib

/-! ACQ_Processor: the filter engine (`src/cpp/src/backend/DSPFilters.cpp`), the signal
analyser (`src/cpp/src/backend/DataAnalyzer.cpp`) and the signal processor
(`src/cpp/src/backend/SignalProcessor.cpp`)

A shallow embedding of `DSPFilters`, `DataAnalyzer` and `SignalProcessor` and the properties of
the filter pipeline and of the analysis routines.  The definitions of the three classes come
first, each in the namespace of its class; the theorems follow.

Modelling conventions.

* Samples and frequencies (`float` in the source) are elements of an arbitrary linearly
  ordered field `α`: arithmetic is exact, there is no rounding, no NaN and no infinity.
* The C library routines the source calls (`std::tan`, `std::sqrt`, the constant `M_PI`,
  `std::to_string`) are not part of the repository; they are the fields of `MathOps`, and
  every definition takes them as a parameter.
* `std::vector<float>` is `List α`.  The engine's only mutable member, `lastError`, is passed
  in and returned explicitly.  Text written to `std::cerr` is not modelled.
* `int order` is an `Int`; the only arithmetic on it, `(order + 1) / 2`, is the truncating
  division of C++, without the wrap-around of `order + 1` at `INT_MAX` (`applyFilter` reaches
  it only with an order from 1 to 8).
* A call that in C++ leaves defined behaviour (an out-of-bounds read, an allocation of
  `SIZE_MAX` elements) is `none`.
* Indices and sizes (`size_t`) are natural numbers, without wrap-around; `std::abs` is the
  absolute value of the ordered field.
-/

namespace DSPFilters

/-- The library routines used by the filter design: `std::tan`, `std::sqrt`, `M_PI` and
`std::to_string`. -/
structure MathOps (α : Type) where
  tan : α → α
  sqrt : α → α
  pi : α
  toStr : α → String

/-- The enumeration `DSPFilters::FilterType`. -/
inductive FilterType where
  | LOWPASS
  | HIGHPASS
  | BANDPASS
  | NOTCH
  deriving DecidableEq, Repr

/-- The structure `DSPFilters::ButterworthCoeffs`: numerator `b` and denominator `a`. -/
structure ButterworthCoeffs (α : Type) where
  b : List α
  a : List α
  deriving DecidableEq, Repr

variable {α : Type} [LinearOrderedField α]

/-- Model of `DSPFilters::validateParameters`: the verdict and the value of `lastError` afterwards. -/
def validateParameters (ops : MathOps α) (lastError : String) (sampleRate freq1 freq2 : α) :
    Bool × String :=
  if sampleRate ≤ 0 then
    (false, "Sample rate must be positive")
  else
    let nyquist := sampleRate / 2
    if freq1 ≤ 0 ∨ freq1 ≥ nyquist then
      (false, "Frequency must be between 0 and Nyquist frequency (" ++
                ops.toStr nyquist ++ " Hz)")
    else if freq2 > 0 ∧ (freq2 ≤ 0 ∨ freq2 ≥ nyquist) then
      (false, "Second frequency must be between 0 and Nyquist frequency")
    else if freq2 > 0 ∧ freq2 ≤ freq1 then
      (false, "High cutoff must be greater than low cutoff")
    else
      (true, lastError)

/-- Model of `DSPFilters::prewarpFrequency`. -/
def prewarpFrequency (ops : MathOps α) (freq sampleRate : α) : α :=
  ops.tan (ops.pi * freq / sampleRate)

/-- Model of `DSPFilters::designLowpass`; the argument `order` is not used by the source. -/
def designLowpass (ops : MathOps α) (sampleRate cutoffFreq : α) (_order : Int) :
    ButterworthCoeffs α :=
  let omega := prewarpFrequency ops cutoffFreq sampleRate
  let omega2 := omega * omega
  let sqrt2omega := ops.sqrt 2 * omega
  let a0 := 1 + sqrt2omega + omega2
  let a1 := 2 * (omega2 - 1)
  let a2 := 1 - sqrt2omega + omega2
  let b0 := omega2
  let b1 := 2 * omega2
  let b2 := omega2
  { b := [b0 / a0, b1 / a0, b2 / a0], a := [1, a1 / a0, a2 / a0] }

/-- Model of `DSPFilters::designHighpass`; the argument `order` is not used by the source. -/
def designHighpass (ops : MathOps α) (sampleRate cutoffFreq : α) (_order : Int) :
    ButterworthCoeffs α :=
  let omega := prewarpFrequency ops cutoffFreq sampleRate
  let omega2 := omega * omega
  let sqrt2omega := ops.sqrt 2 * omega
  let a0 := 1 + sqrt2omega + omega2
  let a1 := 2 * (omega2 - 1)
  let a2 := 1 - sqrt2omega + omega2
  let b0 : α := 1
  let b1 : α := -2
  let b2 : α := 1
  { b := [b0 / a0, b1 / a0, b2 / a0], a := [1, a1 / a0, a2 / a0] }

/-- The body of the loop of `designBiquadSections`: the section pushed in one iteration.  For a
type other than `LOWPASS` and `HIGHPASS` it is the default-constructed coefficient set. -/
def designSection (ops : MathOps α) (type : FilterType) (sampleRate freq1 : α) :
    ButterworthCoeffs α :=
  if type = FilterType.LOWPASS then designLowpass ops sampleRate freq1 2
  else if type = FilterType.HIGHPASS then designHighpass ops sampleRate freq1 2
  else { b := [], a := [] }

/-- Model of `DSPFilters::designBiquadSections`: `numSections` iterations, each pushing one section to
the back of `sections`. -/
def designBiquadSections (ops : MathOps α) (type : FilterType) (sampleRate freq1 _freq2 : α)
    (order : Int) : List (ButterworthCoeffs α) :=
  let numSections : Int := Int.tdiv (order + 1) 2
  (List.range numSections.toNat).foldl
    (fun sections _ => sections ++ [designSection ops type sampleRate freq1]) []

/-- The state update of one iteration of `applyIIR`: entries `0 .. size-2` are rewritten in
ascending order from their right neighbour, then the last entry. -/
def updateState (b a state : List α) (x y : α) : List α :=
  (List.range (state.length - 1)).map
      (fun i => state.getD (i + 1) 0 + b.getD (i + 1) 0 * x - a.getD (i + 1) 0 * y)
    ++ (if state.length > 0 then
          [b.getD (state.length - 1 + 1) 0 * x - a.getD (state.length - 1 + 1) 0 * y]
        else [])

/-- The sample loop of `applyIIR`, from a given state: the outputs for the remaining samples. -/
def iirLoop (b a : List α) : List α → List α → List α
  | _, [] => []
  | state, x :: rest =>
    let y0 := b.getD 0 0 * x
    let y := if state.length > 0 then y0 + state.getD 0 0 else y0
    y :: iirLoop b a (updateState b a state x y) rest

/-- Model of `DSPFilters::applyIIR`.  On a non-empty input the source needs `a.size() >= 2` (with fewer
entries `a.size() - 1` or `state.size() - 1` wraps around `size_t`) and `b.size() >= a.size()`
(it reads `b[1 .. a.size()-1]`); otherwise the call is `none`. -/
def applyIIR (data : List α) (coeffs : ButterworthCoeffs α) : Option (List α) :=
  if data.isEmpty then some data
  else if coeffs.a.length < 2 ∨ coeffs.b.length < coeffs.a.length then none
  else some (iirLoop coeffs.b coeffs.a (List.replicate (coeffs.a.length - 1) 0) data)

/-- The range-for loop of `applyCascadedBiquads`. -/
def cascadeLoop : List α → List (ButterworthCoeffs α) → Option (List α)
  | result, [] => some result
  | result, sec :: rest => (applyIIR result sec).bind (fun r => cascadeLoop r rest)

/-- Model of `DSPFilters::applyCascadedBiquads`. -/
def applyCascadedBiquads (data : List α) (sections : List (ButterworthCoeffs α)) :
    Option (List α) :=
  if sections.isEmpty then some data
  else cascadeLoop data sections

/-- The position of a filter type in the call chain notch, bandpass, highpass or lowpass. -/
def FilterType.depth : FilterType → Nat
  | .LOWPASS => 0
  | .HIGHPASS => 0
  | .BANDPASS => 1
  | .NOTCH => 2

mutual

/-- Model of `DSPFilters::applyFilter`: the returned sequence and the value of `lastError` afterwards. -/
def applyFilter (ops : MathOps α) (lastError : String) (data : List α) (sampleRate : α)
    (type : FilterType) (freq1 freq2 : α) (order : Int) : Option (List α × String) :=
  if data.isEmpty then
    some (data, "Input data is empty")
  else if order ≤ 0 ∨ order > 8 then
    some (data, "Filter order must be between 1 and 8")
  else if (validateParameters ops lastError sampleRate freq1 freq2).1 = false then
    some (data, (validateParameters ops lastError sampleRate freq1 freq2).2)
  else if _h : type = FilterType.BANDPASS then
    (highpass ops (validateParameters ops lastError sampleRate freq1 freq2).2
        data sampleRate freq1 order).bind
      (fun temp => lowpass ops temp.2 temp.1 sampleRate freq2 order)
  else if _h : type = FilterType.NOTCH then
    (bandpass ops (validateParameters ops lastError sampleRate freq1 freq2).2
        data sampleRate freq1 freq2 order).bind
      (fun bandpassed =>
        if bandpassed.1.length < data.length then none
        else some (List.zipWith (fun d p => d - p) data bandpassed.1, bandpassed.2))
  else
    (applyCascadedBiquads data
        (designBiquadSections ops type sampleRate freq1 freq2 order)).map
      (fun result => (result, (validateParameters ops lastError sampleRate freq1 freq2).2))
termination_by 2 * type.depth
decreasing_by
  all_goals simp_wf
  all_goals simp [_h, FilterType.depth]

/-- Model of `DSPFilters::lowpass`. -/
def lowpass (ops : MathOps α) (lastError : String) (data : List α) (sampleRate cutoffFreq : α)
    (order : Int) : Option (List α × String) :=
  applyFilter ops lastError data sampleRate FilterType.LOWPASS cutoffFreq 0 order
termination_by 1
decreasing_by
  all_goals simp_wf
  all_goals simp [FilterType.depth]

/-- Model of `DSPFilters::highpass`. -/
def highpass (ops : MathOps α) (lastError : String) (data : List α) (sampleRate cutoffFreq : α)
    (order : Int) : Option (List α × String) :=
  applyFilter ops lastError data sampleRate FilterType.HIGHPASS cutoffFreq 0 order
termination_by 1
decreasing_by
  all_goals simp_wf
  all_goals simp [FilterType.depth]

/-- Model of `DSPFilters::bandpass`. -/
def bandpass (ops : MathOps α) (lastError : String) (data : List α) (sampleRate : α)
    (lowCutoff highCutoff : α) (order : Int) : Option (List α × String) :=
  applyFilter ops lastError data sampleRate FilterType.BANDPASS lowCutoff highCutoff order
termination_by 3
decreasing_by
  all_goals simp_wf
  all_goals simp [FilterType.depth]

end

/-- Model of `DSPFilters::notch`. -/
def notch (ops : MathOps α) (lastError : String) (data : List α) (sampleRate : α)
    (lowCutoff highCutoff : α) (order : Int) : Option (List α × String) :=
  applyFilter ops lastError data sampleRate FilterType.NOTCH lowCutoff highCutoff order

/-- The calls of `applyIIR` made by the loop of `applyCascadedBiquads` from the intermediate
result `result` on: the loop calls `applyIIR` with each section in turn, for as long as the
calls return. -/
def cascadeCalls : List α → List (ButterworthCoeffs α) → List (ButterworthCoeffs α)
  | _, [] => []
  | result, sec :: rest =>
    sec :: (match applyIIR result sec with
      | none => []
      | some r => cascadeCalls r rest)

/-- The coefficient sets with which one call of `applyFilter` calls `applyIIR`, in the order of
the calls.  The branches are those of `applyFilter`: no call on the three error returns; for
`BANDPASS` the calls of the nested `highpass`, then those of the nested `lowpass` on its
result; for `NOTCH` the calls of the nested `bandpass`; otherwise the calls of
`applyCascadedBiquads` on the designed sections. -/
def iirCalls (ops : MathOps α) (lastError : String) (data : List α) (sampleRate : α)
    (type : FilterType) (freq1 freq2 : α) (order : Int) : List (ButterworthCoeffs α) :=
  if data.isEmpty then []
  else if order ≤ 0 ∨ order > 8 then []
  else if (validateParameters ops lastError sampleRate freq1 freq2).1 = false then []
  else if _h : type = FilterType.BANDPASS then
    iirCalls ops (validateParameters ops lastError sampleRate freq1 freq2).2
        data sampleRate FilterType.HIGHPASS freq1 0 order ++
      (match highpass ops (validateParameters ops lastError sampleRate freq1 freq2).2
          data sampleRate freq1 order with
        | none => []
        | some temp => iirCalls ops temp.2 temp.1 sampleRate FilterType.LOWPASS freq2 0 order)
  else if _h : type = FilterType.NOTCH then
    iirCalls ops (validateParameters ops lastError sampleRate freq1 freq2).2
      data sampleRate FilterType.BANDPASS freq1 freq2 order
  else
    cascadeCalls data (designBiquadSections ops type sampleRate freq1 freq2 order)
termination_by type.depth
decreasing_by
  all_goals simp_wf
  all_goals simp [_h, FilterType.depth]

/-- The recursion the specification gives for one biquad `(b0, b1, b2; 1, a1, a2)`, from the
state `(s0, s1)`: `y[n] = b0*x[n] + s0`, then `s0 := s1 + b1*x[n] - a1*y[n]` and
`s1 := b2*x[n] - a2*y[n]`.  It is written from the specification, to be compared with
`applyIIR`. -/
def transposedRecursion (b0 b1 b2 a1 a2 : α) : α → α → List α → List α
  | _, _, [] => []
  | s0, s1, x :: rest =>
    let y := b0 * x + s0
    y :: transposedRecursion b0 b1 b2 a1 a2 (s1 + b1 * x - a1 * y) (b2 * x - a2 * y) rest

end DSPFilters

/-! ## Standard algorithms used by the analysis code

`std::minmax_element` and `std::accumulate` are fixed by the C++ standard and are written out
here.  `std::sqrt` and `std::nth_element` stay parameters of the definitions that call them;
what the standard guarantees about `std::nth_element` is `NthElementSpec`. -/

namespace Cpp

variable {α : Type} [LinearOrderedField α]

/-- The values found by `std::minmax_element`: the first smallest and the last largest element
of the range.  On the empty range, where the source never calls it, the pair is `(0, 0)`. -/
def minmaxElement : List α → α × α
  | [] => (0, 0)
  | first :: rest =>
    rest.foldl (fun m v => (if v < m.1 then v else m.1, if v < m.2 then m.2 else v))
      (first, first)

/-- The standard algorithm `std::accumulate` with the default operation `+`. -/
def accumulate (data : List α) (init : α) : α :=
  data.foldl (fun acc v => acc + v) init

/-- The guarantee of the C++ standard for `std::nth_element(first, first + nth, last)`: the
range is rearranged, and the element at position `nth` is the one that would be there if the
range were sorted. -/
def NthElementSpec (nthElement : List α → Nat → List α) : Prop :=
  ∀ (data : List α) (nth : Nat), nth < data.length →
    (nthElement data nth).Perm data ∧
    ∀ s : List α, s.Perm data → s.Sorted (· ≤ ·) →
      (nthElement data nth).getD nth 0 = s.getD nth 0

/-- An executable `std::nth_element`: it sorts the whole range, which is one of the
rearrangements the standard allows. -/
def sortingNthElement (data : List α) (_nth : Nat) : List α :=
  data.insertionSort (· ≤ ·)

end Cpp

/-! ## The signal analyser (`src/cpp/src/backend/DataAnalyzer.cpp`)

Indices (`size_t`) are natural numbers; `data.size()` converted to `float` is the cast of the
length into `α`. -/

namespace DataAnalyzer

variable {α : Type} [LinearOrderedField α]

/-- The structure `DataAnalyzer::Statistics`. -/
structure Statistics (α : Type) where
  min : α
  max : α
  mean : α
  std : α
  rms : α
  median : α
  deriving DecidableEq, Repr

/-- Model of `DataAnalyzer::median`; it works on its own copy of the data. -/
def median (nthElement : List α → Nat → List α) (data : List α) : α :=
  if data.isEmpty then 0
  else
    let n := data.length
    let data1 := nthElement data (n / 2)
    if n % 2 = 0 then
      let m1 := data1.getD (n / 2) 0
      let data2 := nthElement data1 (n / 2 - 1)
      let m2 := data2.getD (n / 2 - 1) 0
      (m1 + m2) / 2
    else
      data1.getD (n / 2) 0

/-- Model of `DataAnalyzer::calculateStatistics`. -/
def calculateStatistics (sqrt : α → α) (nthElement : List α → Nat → List α) (data : List α) :
    Statistics α :=
  if data.isEmpty then
    { min := 0, max := 0, mean := 0, std := 0, rms := 0, median := 0 }
  else
    let minmax := Cpp.minmaxElement data
    let sum := Cpp.accumulate data 0
    let mean := sum / (data.length : α)
    let variance :=
      data.foldl (fun variance value => variance + (value - mean) * (value - mean)) 0
    let sumSquares := data.foldl (fun sumSquares value => sumSquares + value * value) 0
    { min := minmax.1, max := minmax.2, mean := mean,
      std := sqrt (variance / (data.length : α)),
      rms := sqrt (sumSquares / (data.length : α)),
      median := median nthElement data }

/-- The loop of `detectActivity` over the samples not yet seen, the first of them at index `i`:
the values of `active`, `start` and `periods` when the loop ends. -/
def activityLoop (threshold : α) :
    List α → Nat → Bool → Nat → List (Nat × Nat) → Bool × Nat × List (Nat × Nat)
  | [], _, active, start, periods => (active, start, periods)
  | v :: rest, i, active, start, periods =>
    if active = false ∧ |v| > threshold then
      activityLoop threshold rest (i + 1) true i periods
    else if active = true ∧ |v| ≤ threshold then
      activityLoop threshold rest (i + 1) false start (periods ++ [(start, i)])
    else
      activityLoop threshold rest (i + 1) active start periods

/-- Model of `DataAnalyzer::detectActivity`. -/
def detectActivity (data : List α) (threshold : α) : List (Nat × Nat) :=
  if data.isEmpty then []
  else
    let final := activityLoop threshold data 0 false 0 []
    if final.1 = true then final.2.2 ++ [(final.2.1, data.length - 1)]
    else final.2.2

/-- Model of `DataAnalyzer::calculatePSD`: the vector `psd` is never written. -/
def calculatePSD (data : List α) (_sampleRate : α) : List α :=
  let psd : List α := []
  if data.isEmpty then psd
  else psd

/-- For an activity predicate `P` on indices: `[s, e)` is a maximal run of active indices that
stops at the inactive index `e`, and `e` lies below `i`. -/
def RunBefore (P : Nat → Prop) (i s e : Nat) : Prop :=
  s < e ∧ e < i ∧ (∀ j, s ≤ j → j < e → P j) ∧ ¬ P e ∧ (s = 0 ∨ ¬ P (s - 1))

/-- The invariant of the loop of `detectActivity` when the indices below `i` have been seen:
`active` tells whether index `i - 1` is active, `start` is then the first index of the run in
progress, and `periods` lists the runs that stopped below `i`, in order. -/
def LoopInv (P : Nat → Prop) (i : Nat) (st : Bool × Nat × List (Nat × Nat)) : Prop :=
  (st.1 = true ↔ 0 < i ∧ P (i - 1)) ∧
  (st.1 = true →
    st.2.1 < i ∧ (∀ j, st.2.1 ≤ j → j < i → P j) ∧ (st.2.1 = 0 ∨ ¬ P (st.2.1 - 1))) ∧
  (∀ s e, (s, e) ∈ st.2.2 ↔ RunBefore P i s e) ∧
  st.2.2.Pairwise (fun p q => p.2 < q.1)

end DataAnalyzer

/-! ## The signal processor (`src/cpp/src/backend/SignalProcessor.cpp`)

The `int` arguments `windowSize` and `factor` are integers; once known to be positive they are
used as natural numbers, as the source does when it mixes them with `size_t`. -/

namespace SignalProcessor

variable {α : Type} [LinearOrderedField α]

/-- Model of `SignalProcessor::movingAverage`. -/
def movingAverage (data : List α) (windowSize : Int) : List α :=
  if data.isEmpty ∨ windowSize ≤ 0 then data
  else
    (List.range data.length).foldl
      (fun result i =>
        let half := (Int.tdiv windowSize 2).toNat
        let start := if i ≥ half then i - half else 0
        let stop := min (i + half + 1) data.length
        let sum := (List.range' start (stop - start)).foldl
          (fun sum j => sum + data.getD j 0) 0
        result ++ [sum / ((stop - start : Nat) : α)])
      []

/-- The loop of `downsample` from index `i` on, for a positive stride. -/
def downsampleLoop (data : List α) (factor : Nat) (hf : 0 < factor) (i : Nat)
    (result : List α) : List α :=
  if h : i < data.length then
    downsampleLoop data factor hf (i + factor) (result ++ [data.get ⟨i, h⟩])
  else result
termination_by data.length - i
decreasing_by omega

/-- Model of `SignalProcessor::downsample`. -/
def downsample (data : List α) (factor : Int) : List α :=
  if h : data.isEmpty ∨ factor ≤ 0 then data
  else downsampleLoop data factor.toNat (by omega) 0 []

/-- Model of `SignalProcessor::findPeaks`. -/
def findPeaks (data : List α) (threshold : α) : List Nat :=
  if data.length < 3 then []
  else
    (List.range' 1 (data.length - 1 - 1)).foldl
      (fun peaks i =>
        if data.getD i 0 > threshold ∧ data.getD i 0 > data.getD (i - 1) 0 ∧
            data.getD i 0 > data.getD (i + 1) 0 then peaks ++ [i]
        else peaks)
      []

/-- Model of `SignalProcessor::normalize`. -/
def normalize (data : List α) : List α :=
  if data.isEmpty then data
  else
    let minmax := Cpp.minmaxElement data
    let min := minmax.1
    let max := minmax.2
    let range := max - min
    if range = 0 then List.replicate data.length (1 / 2)
    else data.foldl (fun result value => result ++ [(value - min) / range]) []

end SignalProcessor

namespace DSPFilters

variable {α : Type} [LinearOrderedField α]

/-! ## Parameter validation -/

/-- The verdict of `validateParameters`, as a condition on its arguments. -/
theorem validateParameters_eq_true_iff (ops : MathOps α) (e : String) (sampleRate freq1 freq2 : α) :
    (validateParameters ops e sampleRate freq1 freq2).1 = true ↔
      0 < sampleRate ∧ 0 < freq1 ∧ freq1 < sampleRate / 2 ∧
        (freq2 ≤ 0 ∨ (freq2 < sampleRate / 2 ∧ freq1 < freq2)) := by
  unfold validateParameters
  by_cases h1 : sampleRate ≤ 0
  · simp [h1, not_lt.mpr h1]
  · by_cases h2 : freq1 ≤ 0 ∨ freq1 ≥ sampleRate / 2
    · have : ¬ (0 < freq1 ∧ freq1 < sampleRate / 2 ∧
          (freq2 ≤ 0 ∨ (freq2 < sampleRate / 2 ∧ freq1 < freq2))) := by
        rintro ⟨ha, hb, -⟩
        rcases h2 with h2 | h2
        · exact absurd ha (not_lt.mpr h2)
        · exact absurd hb (not_lt.mpr h2)
      simp [h1, h2, this]
    · have h2a : 0 < freq1 := by
        by_contra hc; exact h2 (Or.inl (not_lt.mp hc))
      have h2b : freq1 < sampleRate / 2 := by
        by_contra hc; exact h2 (Or.inr (not_lt.mp hc))
      by_cases h3 : freq2 > 0 ∧ (freq2 ≤ 0 ∨ freq2 ≥ sampleRate / 2)
      · have : ¬ (freq2 ≤ 0 ∨ (freq2 < sampleRate / 2 ∧ freq1 < freq2)) := by
          rintro (hc | ⟨hc, -⟩)
          · exact absurd h3.1 (not_lt.mpr hc)
          · rcases h3.2 with h | h
            · exact absurd h3.1 (not_lt.mpr h)
            · exact absurd hc (not_lt.mpr h)
        simp only [if_neg h1, if_neg h2, if_pos h3]
        simp [this]
      · by_cases h4 : freq2 > 0 ∧ freq2 ≤ freq1
        · have : ¬ (freq2 ≤ 0 ∨ (freq2 < sampleRate / 2 ∧ freq1 < freq2)) := by
            rintro (hc | ⟨-, hc⟩)
            · exact absurd h4.1 (not_lt.mpr hc)
            · exact absurd hc (not_lt.mpr h4.2)
          simp only [if_neg h1, if_neg h2, if_neg h3, if_pos h4]
          simp [this]
        · simp only [if_neg h1, if_neg h2, if_neg h3, if_neg h4]
          refine ⟨fun _ => ⟨not_le.mp h1, h2a, h2b, ?_⟩, fun _ => trivial⟩
          by_cases h5 : freq2 ≤ 0
          · exact Or.inl h5
          · right
            have h5p : freq2 > 0 := not_le.mp h5
            constructor
            · by_contra hc
              exact h3 ⟨h5p, Or.inr (not_lt.mp hc)⟩
            · by_contra hc
              exact h4 ⟨h5p, not_lt.mp hc⟩

/-- An accepting `validateParameters` leaves `lastError` as it found it. -/
theorem validateParameters_snd_of_true (ops : MathOps α) (e : String)
    (sampleRate freq1 freq2 : α)
    (h : (validateParameters ops e sampleRate freq1 freq2).1 = true) :
    (validateParameters ops e sampleRate freq1 freq2).2 = e := by
  unfold validateParameters at h ⊢
  by_cases h1 : sampleRate ≤ 0
  · simp [h1] at h
  · by_cases h2 : freq1 ≤ 0 ∨ freq1 ≥ sampleRate / 2
    · simp only [if_neg h1, if_pos h2] at h
      simp at h
    · by_cases h3 : freq2 > 0 ∧ (freq2 ≤ 0 ∨ freq2 ≥ sampleRate / 2)
      · simp only [if_neg h1, if_neg h2, if_pos h3] at h
        simp at h
      · by_cases h4 : freq2 > 0 ∧ freq2 ≤ freq1
        · simp only [if_neg h1, if_neg h2, if_neg h3, if_pos h4] at h
          simp at h
        · simp only [if_neg h1, if_neg h2, if_neg h3, if_neg h4]

/-- Appending to a non-empty text gives a non-empty text. -/
theorem append_ne_empty (s t u : String) (hs : s ≠ "") : s ++ t ++ u ≠ "" := by
  intro h
  have hl := congrArg String.length h
  simp only [String.length_append] at hl
  have : s.length = 0 := by
    have h0 : ("" : String).length = 0 := rfl
    omega
  exact hs (by
    cases s with
    | mk d =>
      cases d with
      | nil => rfl
      | cons c cs => simp [String.length] at this)

/-- A rejecting `validateParameters` leaves a non-empty message in `lastError`. -/
theorem validateParameters_snd_of_false (ops : MathOps α) (e : String)
    (sampleRate freq1 freq2 : α)
    (h : (validateParameters ops e sampleRate freq1 freq2).1 = false) :
    (validateParameters ops e sampleRate freq1 freq2).2 ≠ "" := by
  unfold validateParameters at h ⊢
  by_cases h1 : sampleRate ≤ 0
  · simp only [if_pos h1]
    decide
  · by_cases h2 : freq1 ≤ 0 ∨ freq1 ≥ sampleRate / 2
    · simp only [if_neg h1, if_pos h2]
      exact append_ne_empty _ _ _ (by decide)
    · by_cases h3 : freq2 > 0 ∧ (freq2 ≤ 0 ∨ freq2 ≥ sampleRate / 2)
      · simp only [if_neg h1, if_neg h2, if_pos h3]
        decide
      · by_cases h4 : freq2 > 0 ∧ freq2 ≤ freq1
        · simp only [if_neg h1, if_neg h2, if_neg h3, if_pos h4]
          decide
        · simp only [if_neg h1, if_neg h2, if_neg h3, if_neg h4] at h
          simp at h

/-! ## The branches of `applyFilter` -/

/-- The empty-input branch. -/
theorem applyFilter_of_empty (ops : MathOps α) (e : String) (sampleRate : α)
    (type : FilterType) (freq1 freq2 : α) (order : Int) :
    applyFilter ops e [] sampleRate type freq1 freq2 order =
      some ([], "Input data is empty") := by
  rw [applyFilter]
  simp

/-- The order branch. -/
theorem applyFilter_of_bad_order (ops : MathOps α) (e : String) (data : List α)
    (sampleRate : α) (type : FilterType) (freq1 freq2 : α) (order : Int)
    (hd : data ≠ []) (ho : order ≤ 0 ∨ order > 8) :
    applyFilter ops e data sampleRate type freq1 freq2 order =
      some (data, "Filter order must be between 1 and 8") := by
  rw [applyFilter]
  simp only [List.isEmpty_iff, if_neg hd, if_pos ho]

/-- The validation branch. -/
theorem applyFilter_of_invalid (ops : MathOps α) (e : String) (data : List α)
    (sampleRate : α) (type : FilterType) (freq1 freq2 : α) (order : Int)
    (hd : data ≠ []) (ho : ¬ (order ≤ 0 ∨ order > 8))
    (hv : (validateParameters ops e sampleRate freq1 freq2).1 = false) :
    applyFilter ops e data sampleRate type freq1 freq2 order =
      some (data, (validateParameters ops e sampleRate freq1 freq2).2) := by
  rw [applyFilter]
  simp only [List.isEmpty_iff, if_neg hd, if_neg ho, if_pos hv]

/-- The bandpass branch: highpass at `freq1`, then lowpass at `freq2` on its result. -/
theorem applyFilter_bandpass_of_valid (ops : MathOps α) (e : String) (data : List α)
    (sampleRate freq1 freq2 : α) (order : Int)
    (hd : data ≠ []) (ho : ¬ (order ≤ 0 ∨ order > 8))
    (hv : (validateParameters ops e sampleRate freq1 freq2).1 = true) :
    applyFilter ops e data sampleRate FilterType.BANDPASS freq1 freq2 order =
      (highpass ops e data sampleRate freq1 order).bind
        (fun temp => lowpass ops temp.2 temp.1 sampleRate freq2 order) := by
  have hv2 := validateParameters_snd_of_true ops e sampleRate freq1 freq2 hv
  have hvf : ¬ (validateParameters ops e sampleRate freq1 freq2).1 = false := by
    rw [hv]; decide
  rw [applyFilter]
  simp only [List.isEmpty_iff, if_neg hd, if_neg ho, if_neg hvf, dif_pos, hv2]

/-- The notch branch: the input minus its bandpassed copy, sample by sample. -/
theorem applyFilter_notch_of_valid (ops : MathOps α) (e : String) (data : List α)
    (sampleRate freq1 freq2 : α) (order : Int)
    (hd : data ≠ []) (ho : ¬ (order ≤ 0 ∨ order > 8))
    (hv : (validateParameters ops e sampleRate freq1 freq2).1 = true) :
    applyFilter ops e data sampleRate FilterType.NOTCH freq1 freq2 order =
      (bandpass ops e data sampleRate freq1 freq2 order).bind
        (fun bandpassed =>
          if bandpassed.1.length < data.length then none
          else some (List.zipWith (fun d p => d - p) data bandpassed.1, bandpassed.2)) := by
  have hv2 := validateParameters_snd_of_true ops e sampleRate freq1 freq2 hv
  have hvf : ¬ (validateParameters ops e sampleRate freq1 freq2).1 = false := by
    rw [hv]; decide
  have hne : ¬ (FilterType.NOTCH = FilterType.BANDPASS) := by decide
  rw [applyFilter]
  simp only [List.isEmpty_iff, if_neg hd, if_neg ho, if_neg hvf, dif_neg hne, dif_pos, hv2]

/-- The lowpass and highpass branch: design the sections, run the cascade. -/
theorem applyFilter_primitive_of_valid (ops : MathOps α) (e : String) (data : List α)
    (sampleRate : α) (type : FilterType) (freq1 freq2 : α) (order : Int)
    (hd : data ≠ []) (ho : ¬ (order ≤ 0 ∨ order > 8))
    (hv : (validateParameters ops e sampleRate freq1 freq2).1 = true)
    (ht : type = FilterType.LOWPASS ∨ type = FilterType.HIGHPASS) :
    applyFilter ops e data sampleRate type freq1 freq2 order =
      (applyCascadedBiquads data
          (designBiquadSections ops type sampleRate freq1 freq2 order)).map
        (fun result => (result, e)) := by
  have hv2 := validateParameters_snd_of_true ops e sampleRate freq1 freq2 hv
  have hvf : ¬ (validateParameters ops e sampleRate freq1 freq2).1 = false := by
    rw [hv]; decide
  have hb : ¬ (type = FilterType.BANDPASS) := by
    rcases ht with h | h <;> rw [h] <;> decide
  have hn : ¬ (type = FilterType.NOTCH) := by
    rcases ht with h | h <;> rw [h] <;> decide
  rw [applyFilter]
  simp only [List.isEmpty_iff, if_neg hd, if_neg ho, if_neg hvf, dif_neg hb, dif_neg hn, hv2]

/-! ## Section design -/

/-- Pushing the same element once per list entry appends that many copies. -/
theorem foldl_push_eq_replicate {β ι : Type} (c : β) (l : List ι) (acc : List β) :
    l.foldl (fun sections _ => sections ++ [c]) acc = acc ++ List.replicate l.length c := by
  induction l generalizing acc with
  | nil => simp
  | cons i rest ih =>
    rw [List.foldl_cons, ih, List.length_cons, List.replicate_succ, List.append_assoc]
    rfl

/-- The sections of `designBiquadSections` are `numSections` copies of one section. -/
theorem designBiquadSections_eq_replicate (ops : MathOps α) (type : FilterType)
    (sampleRate freq1 freq2 : α) (order : Int) :
    designBiquadSections ops type sampleRate freq1 freq2 order =
      List.replicate (Int.tdiv (order + 1) 2).toNat
        (designSection ops type sampleRate freq1) := by
  unfold designBiquadSections
  simp only [foldl_push_eq_replicate, List.length_range, List.nil_append]

/-- For an order the engine accepts, `(order + 1) / 2` is the ceiling of `order / 2`, and at
least one. -/
theorem numSections_eq_ceil (order : Int) (h1 : 1 ≤ order) (h8 : order ≤ 8) :
    Int.tdiv (order + 1) 2 = ⌈(order : ℚ) / 2⌉ ∧ 1 ≤ Int.tdiv (order + 1) 2 := by
  have hdiv : Int.tdiv (order + 1) 2 = (order + 1) / 2 :=
    Int.tdiv_eq_ediv (by omega) (by decide)
  rw [hdiv]
  interval_cases order <;> refine ⟨?_, by decide⟩ <;> symm <;> rw [Int.ceil_eq_iff] <;>
    norm_num

/-- A designed lowpass or highpass section has three numerator and three denominator
coefficients. -/
theorem designSection_lengths (ops : MathOps α) (type : FilterType) (sampleRate freq1 : α)
    (ht : type = FilterType.LOWPASS ∨ type = FilterType.HIGHPASS) :
    (designSection ops type sampleRate freq1).a.length = 3 ∧
      (designSection ops type sampleRate freq1).b.length = 3 := by
  rcases ht with h | h <;> subst h <;> simp [designSection, designLowpass, designHighpass]

/-! ## The recursion of `applyIIR` and the cascade -/

/-- The sample loop emits one output per input sample. -/
theorem iirLoop_length (b a : List α) (state data : List α) :
    (iirLoop b a state data).length = data.length := by
  induction data generalizing state with
  | nil => simp [iirLoop]
  | cons x rest ih => simp [iirLoop, ih]

/-- With at least two denominator coefficients and no fewer numerator coefficients,
`applyIIR` returns, and its result is as long as its input. -/
theorem applyIIR_some_of_wellformed (data : List α) (coeffs : ButterworthCoeffs α)
    (ha : 2 ≤ coeffs.a.length) (hb : coeffs.a.length ≤ coeffs.b.length) :
    ∃ out, applyIIR data coeffs = some out ∧ out.length = data.length := by
  unfold applyIIR
  by_cases hd : data.isEmpty = true
  · exact ⟨data, by simp [hd], rfl⟩
  · have hc : ¬ (coeffs.a.length < 2 ∨ coeffs.b.length < coeffs.a.length) := by omega
    exact ⟨iirLoop coeffs.b coeffs.a (List.replicate (coeffs.a.length - 1) 0) data,
      by simp only [if_neg hd, if_neg hc], iirLoop_length _ _ _ _⟩

/-- A cascade of well-formed sections returns a result as long as its input. -/
theorem cascadeLoop_some_of_wellformed (sections : List (ButterworthCoeffs α))
    (h : ∀ c ∈ sections, 2 ≤ c.a.length ∧ c.a.length ≤ c.b.length) (data : List α) :
    ∃ out, cascadeLoop data sections = some out ∧ out.length = data.length := by
  induction sections generalizing data with
  | nil => exact ⟨data, rfl, rfl⟩
  | cons c rest ih =>
    obtain ⟨mid, hmid, hlen⟩ :=
      applyIIR_some_of_wellformed data c (h c (List.mem_cons_self _ _)).1
        (h c (List.mem_cons_self _ _)).2
    obtain ⟨out, hout, hlen2⟩ := ih (fun d hd => h d (List.mem_cons_of_mem _ hd)) mid
    exact ⟨out, by simp [cascadeLoop, hmid, hout], by rw [hlen2, hlen]⟩

/-- On well-formed sections `applyCascadedBiquads` returns a result as long as its input. -/
theorem applyCascadedBiquads_some_of_wellformed (sections : List (ButterworthCoeffs α))
    (h : ∀ c ∈ sections, 2 ≤ c.a.length ∧ c.a.length ≤ c.b.length) (data : List α) :
    ∃ out, applyCascadedBiquads data sections = some out ∧ out.length = data.length := by
  unfold applyCascadedBiquads
  by_cases hs : sections.isEmpty = true
  · exact ⟨data, by simp [hs], rfl⟩
  · simp only [if_neg hs]
    exact cascadeLoop_some_of_wellformed sections h data

/-- The sections designed for a lowpass or a highpass are all well-formed. -/
theorem designBiquadSections_wellformed (ops : MathOps α) (type : FilterType)
    (sampleRate freq1 freq2 : α) (order : Int)
    (ht : type = FilterType.LOWPASS ∨ type = FilterType.HIGHPASS) :
    ∀ c ∈ designBiquadSections ops type sampleRate freq1 freq2 order,
      2 ≤ c.a.length ∧ c.a.length ≤ c.b.length := by
  intro c hc
  rw [designBiquadSections_eq_replicate] at hc
  have hc2 := List.eq_of_mem_replicate hc
  have hl := designSection_lengths ops type sampleRate freq1 ht
  rw [hc2]
  omega

/-! ## Every call of `applyFilter` returns a sequence of the input's length -/

/-- A call that passed the order check has an order between 1 and 8. -/
theorem order_ok_iff (order : Int) : ¬ (order ≤ 0 ∨ order > 8) ↔ 1 ≤ order ∧ order ≤ 8 := by
  omega

/-- Lowpass and highpass requests return a sequence of the input's length. -/
theorem applyFilter_primitive_some_length (ops : MathOps α) (e : String) (data : List α)
    (sampleRate : α) (type : FilterType) (freq1 freq2 : α) (order : Int)
    (ht : type = FilterType.LOWPASS ∨ type = FilterType.HIGHPASS) :
    ∃ out msg, applyFilter ops e data sampleRate type freq1 freq2 order = some (out, msg) ∧
      out.length = data.length := by
  by_cases hd : data = []
  · subst hd
    exact ⟨[], _, applyFilter_of_empty ops e sampleRate type freq1 freq2 order, rfl⟩
  by_cases ho : order ≤ 0 ∨ order > 8
  · exact ⟨data, _, applyFilter_of_bad_order ops e data sampleRate type freq1 freq2 order hd ho,
      rfl⟩
  cases hv : (validateParameters ops e sampleRate freq1 freq2).1 with
  | false =>
    exact ⟨data, _,
      applyFilter_of_invalid ops e data sampleRate type freq1 freq2 order hd ho hv, rfl⟩
  | true =>
    obtain ⟨out, hout, hlen⟩ :=
      applyCascadedBiquads_some_of_wellformed
        (designBiquadSections ops type sampleRate freq1 freq2 order)
        (designBiquadSections_wellformed ops type sampleRate freq1 freq2 order ht) data
    refine ⟨out, e, ?_, hlen⟩
    rw [applyFilter_primitive_of_valid ops e data sampleRate type freq1 freq2 order hd ho hv ht,
      hout]
    rfl

/-- The wrapper `lowpass` is `applyFilter` with type `LOWPASS` and `freq2 = 0`. -/
theorem lowpass_eq (ops : MathOps α) (e : String) (data : List α) (sampleRate cutoffFreq : α)
    (order : Int) :
    lowpass ops e data sampleRate cutoffFreq order =
      applyFilter ops e data sampleRate FilterType.LOWPASS cutoffFreq 0 order := by
  rw [lowpass]

/-- The wrapper `highpass` is `applyFilter` with type `HIGHPASS` and `freq2 = 0`. -/
theorem highpass_eq (ops : MathOps α) (e : String) (data : List α) (sampleRate cutoffFreq : α)
    (order : Int) :
    highpass ops e data sampleRate cutoffFreq order =
      applyFilter ops e data sampleRate FilterType.HIGHPASS cutoffFreq 0 order := by
  rw [highpass]

/-- The wrapper `bandpass` is `applyFilter` with type `BANDPASS`. -/
theorem bandpass_eq (ops : MathOps α) (e : String) (data : List α) (sampleRate : α)
    (lowCutoff highCutoff : α) (order : Int) :
    bandpass ops e data sampleRate lowCutoff highCutoff order =
      applyFilter ops e data sampleRate FilterType.BANDPASS lowCutoff highCutoff order := by
  rw [bandpass]

/-- Bandpass requests return a sequence of the input's length. -/
theorem applyFilter_bandpass_some_length (ops : MathOps α) (e : String) (data : List α)
    (sampleRate freq1 freq2 : α) (order : Int) :
    ∃ out msg, applyFilter ops e data sampleRate FilterType.BANDPASS freq1 freq2 order =
        some (out, msg) ∧ out.length = data.length := by
  by_cases hd : data = []
  · subst hd
    exact ⟨[], _, applyFilter_of_empty ops e sampleRate _ freq1 freq2 order, rfl⟩
  by_cases ho : order ≤ 0 ∨ order > 8
  · exact ⟨data, _, applyFilter_of_bad_order ops e data sampleRate _ freq1 freq2 order hd ho,
      rfl⟩
  cases hv : (validateParameters ops e sampleRate freq1 freq2).1 with
  | false =>
    exact ⟨data, _,
      applyFilter_of_invalid ops e data sampleRate _ freq1 freq2 order hd ho hv, rfl⟩
  | true =>
    obtain ⟨temp, e1, htemp, hlen1⟩ :=
      applyFilter_primitive_some_length ops e data sampleRate FilterType.HIGHPASS freq1 0 order
        (Or.inr rfl)
    obtain ⟨out, e2, hout, hlen2⟩ :=
      applyFilter_primitive_some_length ops e1 temp sampleRate FilterType.LOWPASS freq2 0 order
        (Or.inl rfl)
    refine ⟨out, e2, ?_, by rw [hlen2, hlen1]⟩
    rw [applyFilter_bandpass_of_valid ops e data sampleRate freq1 freq2 order hd ho hv,
      highpass_eq, htemp]
    simp only [Option.some_bind, lowpass_eq, hout]

/-- Notch requests return a sequence of the input's length. -/
theorem applyFilter_notch_some_length (ops : MathOps α) (e : String) (data : List α)
    (sampleRate freq1 freq2 : α) (order : Int) :
    ∃ out msg, applyFilter ops e data sampleRate FilterType.NOTCH freq1 freq2 order =
        some (out, msg) ∧ out.length = data.length := by
  by_cases hd : data = []
  · subst hd
    exact ⟨[], _, applyFilter_of_empty ops e sampleRate _ freq1 freq2 order, rfl⟩
  by_cases ho : order ≤ 0 ∨ order > 8
  · exact ⟨data, _, applyFilter_of_bad_order ops e data sampleRate _ freq1 freq2 order hd ho,
      rfl⟩
  cases hv : (validateParameters ops e sampleRate freq1 freq2).1 with
  | false =>
    exact ⟨data, _,
      applyFilter_of_invalid ops e data sampleRate _ freq1 freq2 order hd ho hv, rfl⟩
  | true =>
    obtain ⟨bp, e1, hbp, hlen1⟩ :=
      applyFilter_bandpass_some_length ops e data sampleRate freq1 freq2 order
    have hlt : ¬ (bp.length < data.length) := by omega
    refine ⟨List.zipWith (fun d p => d - p) data bp, e1, ?_, by simp [hlen1]⟩
    rw [applyFilter_notch_of_valid ops e data sampleRate freq1 freq2 order hd ho hv,
      bandpass_eq, hbp]
    simp only [Option.some_bind, if_neg hlt]

/-- Every request returns a sequence of the input's length. -/
theorem applyFilter_some_length (ops : MathOps α) (e : String) (data : List α)
    (sampleRate : α) (type : FilterType) (freq1 freq2 : α) (order : Int) :
    ∃ out msg, applyFilter ops e data sampleRate type freq1 freq2 order = some (out, msg) ∧
      out.length = data.length := by
  cases type with
  | LOWPASS =>
    exact applyFilter_primitive_some_length ops e data sampleRate _ freq1 freq2 order
      (Or.inl rfl)
  | HIGHPASS =>
    exact applyFilter_primitive_some_length ops e data sampleRate _ freq1 freq2 order
      (Or.inr rfl)
  | BANDPASS => exact applyFilter_bandpass_some_length ops e data sampleRate freq1 freq2 order
  | NOTCH => exact applyFilter_notch_some_length ops e data sampleRate freq1 freq2 order

/-- Adding back what was subtracted sample by sample restores the first sequence. -/
theorem zipWith_sub_getD_add (x p : List α) (i : Nat) :
    (List.zipWith (fun d q => d - q) x p).getD i 0 + (p.take x.length).getD i 0 =
      (x.take p.length).getD i 0 := by
  induction x generalizing p i with
  | nil => simp
  | cons a rest ih =>
    cases p with
    | nil => simp
    | cons c restp =>
      cases i with
      | zero => simp
      | succ j =>
        simpa using ih restp j

/-- A first frequency at or below zero, or at or above half the sample rate, is rejected. -/
theorem validateParameters_of_freq1_out (ops : MathOps α) (e : String)
    (sampleRate freq1 freq2 : α) (h : freq1 ≤ 0 ∨ sampleRate / 2 ≤ freq1) :
    (validateParameters ops e sampleRate freq1 freq2).1 = false := by
  cases hv : (validateParameters ops e sampleRate freq1 freq2).1 with
  | false => rfl
  | true =>
    obtain ⟨-, h1, h2, -⟩ := (validateParameters_eq_true_iff ops e sampleRate freq1 freq2).mp hv
    rcases h with h | h
    · exact absurd h1 (not_lt.mpr h)
    · exact absurd h2 (not_lt.mpr h)

/-! ## The claims on validation and on the error paths of `applyFilter` -/

/-- C1: whenever the input is empty, or the order is below 1 or above 8, or
`validateParameters` rejects the frequencies, `applyFilter` returns exactly its input sequence
and leaves a non-empty message in `lastError`. -/
theorem applyFilter_error_returns_input (ops : MathOps α) (e : String) (data : List α)
    (sampleRate : α) (type : FilterType) (freq1 freq2 : α) (order : Int)
    (h : data = [] ∨ order < 1 ∨ order > 8 ∨
      (validateParameters ops e sampleRate freq1 freq2).1 = false) :
    ∃ msg, applyFilter ops e data sampleRate type freq1 freq2 order = some (data, msg) ∧
      msg ≠ "" := by
  by_cases hd : data = []
  · subst hd
    exact ⟨_, applyFilter_of_empty ops e sampleRate type freq1 freq2 order, by decide⟩
  by_cases ho : order ≤ 0 ∨ order > 8
  · exact ⟨_, applyFilter_of_bad_order ops e data sampleRate type freq1 freq2 order hd ho,
      by decide⟩
  have hv : (validateParameters ops e sampleRate freq1 freq2).1 = false := by
    rcases h with h | h | h | h
    · exact absurd h hd
    · exact absurd (Or.inl (by omega)) ho
    · exact absurd (Or.inr h) ho
    · exact h
  exact ⟨_, applyFilter_of_invalid ops e data sampleRate type freq1 freq2 order hd ho hv,
    validateParameters_snd_of_false ops e sampleRate freq1 freq2 hv⟩

/-- Witness for C1: a two-sample input, a cutoff of 500 Hz at a sample rate of 1000 Hz
(the Nyquist frequency), with the real tangent, square root and pi. -/
theorem applyFilter_error_returns_input_witness :
    ∃ msg, applyFilter (MathOps.mk Real.tan Real.sqrt Real.pi (fun _ => "")) ""
        [1, 2] 1000 FilterType.LOWPASS 500 0 4 = some ([1, 2], msg) ∧ msg ≠ "" :=
  applyFilter_error_returns_input _ "" [1, 2] 1000 FilterType.LOWPASS 500 0 4
    (Or.inr (Or.inr (Or.inr
      (validateParameters_of_freq1_out _ "" 1000 500 0 (Or.inr (by norm_num))))))

/-- C2, evaluated on the code: a negative second frequency is accepted.  With a sample rate of
1000, a first frequency of 100 and a second frequency of -5, `validateParameters` returns true
and leaves `lastError` untouched, although -5 is non-zero and outside `(0, 500)`. -/
theorem validateParameters_accepts_negative_freq2 (ops : MathOps α) (e : String) :
    validateParameters ops e 1000 100 (-5) = (true, e) := by
  have h1 : ¬ ((1000 : α) ≤ 0) := by norm_num
  have h2 : ¬ ((100 : α) ≤ 0 ∨ (100 : α) ≥ 1000 / 2) := by norm_num
  have h3 : ¬ ((-5 : α) > 0 ∧ ((-5 : α) ≤ 0 ∨ (-5 : α) ≥ 1000 / 2)) := by norm_num
  have h4 : ¬ ((-5 : α) > 0 ∧ (-5 : α) ≤ 100) := by norm_num
  unfold validateParameters
  simp only [if_neg h1, if_neg h2, if_neg h3, if_neg h4]

/-- C4: the Nyquist bound is exclusive.  `validateParameters` rejects `freq1 = sampleRate / 2`
for every sample rate, and it rejects every `freq1 >= sampleRate / 2` and every `freq1 <= 0`,
whatever the second frequency. -/
theorem validateParameters_nyquist_exclusive (ops : MathOps α) (e : String) :
    (∀ sampleRate : α, (validateParameters ops e sampleRate (sampleRate / 2) 0).1 = false) ∧
    (∀ sampleRate freq1 freq2 : α, freq1 ≥ sampleRate / 2 →
      (validateParameters ops e sampleRate freq1 freq2).1 = false) ∧
    (∀ sampleRate freq1 freq2 : α, freq1 ≤ 0 →
      (validateParameters ops e sampleRate freq1 freq2).1 = false) :=
  ⟨fun sampleRate => validateParameters_of_freq1_out ops e sampleRate _ 0 (Or.inr le_rfl),
   fun sampleRate freq1 freq2 h =>
    validateParameters_of_freq1_out ops e sampleRate freq1 freq2 (Or.inr h),
   fun sampleRate freq1 freq2 h =>
    validateParameters_of_freq1_out ops e sampleRate freq1 freq2 (Or.inl h)⟩

/-- Witness for C4: at a sample rate of 2000 the first frequency 1500 lies above the Nyquist
frequency 1000 and is rejected. -/
theorem validateParameters_nyquist_exclusive_witness :
    (1500 : ℝ) ≥ 2000 / 2 ∧
      (validateParameters (MathOps.mk Real.tan Real.sqrt Real.pi (fun _ => "")) ""
        (2000 : ℝ) 1500 0).1 = false :=
  ⟨by norm_num,
   (validateParameters_nyquist_exclusive (MathOps.mk Real.tan Real.sqrt Real.pi (fun _ => ""))
      "").2.1 2000 1500 0 (by norm_num)⟩

/-- C5: on the empty sequence `applyFilter` returns the empty sequence and sets `lastError` to
"Input data is empty", for every filter type, sample rate, pair of frequencies and order: the
empty-input check comes before the order check and the frequency validation. -/
theorem applyFilter_empty_input (ops : MathOps α) (e : String) (sampleRate : α)
    (type : FilterType) (freq1 freq2 : α) (order : Int) :
    applyFilter ops e [] sampleRate type freq1 freq2 order =
      some ([], "Input data is empty") :=
  applyFilter_of_empty ops e sampleRate type freq1 freq2 order

/-- C6: for every input, filter type, sample rate, pair of frequencies and order,
`applyFilter` returns (the model is total and the result is never `none`), and the returned
sequence has exactly the length of the input. -/
theorem applyFilter_returns_same_length (ops : MathOps α) (e : String) (data : List α)
    (sampleRate : α) (type : FilterType) (freq1 freq2 : α) (order : Int) :
    ∃ out msg, applyFilter ops e data sampleRate type freq1 freq2 order = some (out, msg) ∧
      out.length = data.length :=
  applyFilter_some_length ops e data sampleRate type freq1 freq2 order

/-! ## A band request without a usable second frequency -/

/-- With a sample rate of 1000, a low cutoff of 100 and a second frequency at or below zero,
a bandpass request of order 1 on the one-sample input `[1]` passes validation, runs the
highpass section, and only then fails in the nested lowpass call: the result is the highpass
output, with the message of the nested validation. -/
theorem applyFilter_bandpass_nonpositive_freq2 (ops : MathOps α) (e : String) (freq2 : α)
    (h2 : freq2 ≤ 0) :
    applyFilter ops e [1] 1000 FilterType.BANDPASS 100 freq2 1 =
      some ([(designHighpass ops 1000 100 2).b.getD 0 0 * 1 + 0],
        "Frequency must be between 0 and Nyquist frequency (" ++
          ops.toStr (1000 / 2) ++ " Hz)") := by
  have ho : ¬ ((1 : Int) ≤ 0 ∨ (1 : Int) > 8) := by decide
  have hv : (validateParameters ops e 1000 100 freq2).1 = true :=
    (validateParameters_eq_true_iff ops e 1000 100 freq2).mpr
      ⟨by norm_num, by norm_num, by norm_num, Or.inl h2⟩
  have hv0 : (validateParameters ops e 1000 100 (0 : α)).1 = true :=
    (validateParameters_eq_true_iff ops e 1000 100 0).mpr
      ⟨by norm_num, by norm_num, by norm_num, Or.inl le_rfl⟩
  have hsec : designBiquadSections ops FilterType.HIGHPASS (1000 : α) 100 0 1 =
      [designHighpass ops 1000 100 2] := by
    rw [designBiquadSections_eq_replicate]
    rfl
  have hhp : highpass ops e [1] 1000 100 1 =
      some ([(designHighpass ops 1000 100 2).b.getD 0 0 * 1 + 0], e) := by
    rw [highpass_eq, applyFilter_primitive_of_valid ops e [1] 1000 _ 100 0 1 (by simp) ho hv0
      (Or.inr rfl), hsec]
    simp [applyCascadedBiquads, cascadeLoop, applyIIR, designHighpass, iirLoop]
  have hlow : ∀ y : α, lowpass ops e [y] 1000 freq2 1 =
      some ([y], "Frequency must be between 0 and Nyquist frequency (" ++
          ops.toStr (1000 / 2) ++ " Hz)") := by
    intro y
    have hinv : (validateParameters ops e 1000 freq2 0).1 = false :=
      validateParameters_of_freq1_out ops e 1000 freq2 0 (Or.inl h2)
    rw [lowpass_eq, applyFilter_of_invalid ops e [y] 1000 _ freq2 0 1 (by simp) ho hinv]
    have h1 : ¬ ((1000 : α) ≤ 0) := by norm_num
    have h2' : freq2 ≤ 0 ∨ freq2 ≥ (1000 : α) / 2 := Or.inl h2
    unfold validateParameters
    simp only [if_neg h1, if_pos h2']
  rw [applyFilter_bandpass_of_valid ops e [1] 1000 100 freq2 1 (by simp) ho hv, hhp]
  simp only [Option.some_bind]
  exact hlow _

/-- With the real tangent, square root and pi, the highpass section for a cutoff of 100 Hz at
a sample rate of 1000 Hz does not map the sample 1 to itself. -/
theorem highpass_first_sample_ne_one :
    (designHighpass (MathOps.mk Real.tan Real.sqrt Real.pi (fun _ => "")) 1000 100 2).b.getD
      0 0 * 1 + 0 ≠ (1 : ℝ) := by
  have hw : 0 < Real.tan (Real.pi * 100 / 1000) := by
    apply Real.tan_pos_of_pos_of_lt_pi_div_two
    · have := Real.pi_pos
      positivity
    · have := Real.pi_pos
      linarith
  have hs : 0 < Real.sqrt 2 := Real.sqrt_pos.mpr (by norm_num)
  simp only [designHighpass, prewarpFrequency, List.getD_cons_zero, mul_one, add_zero]
  have ha : 1 < 1 + Real.sqrt 2 * Real.tan (Real.pi * 100 / 1000) +
      Real.tan (Real.pi * 100 / 1000) * Real.tan (Real.pi * 100 / 1000) := by
    have := mul_pos hs hw
    have := mul_pos hw hw
    linarith
  intro h
  rw [div_eq_iff (by linarith)] at h
  linarith

/-- C3, evaluated on the code: a bandpass request whose second frequency is 0, or -5, is not
rejected up front.  On the input `[1]` at 1000 Hz with low cutoff 100 and order 1 the call
returns a sequence different from its input (the highpass output) together with a non-empty
error message. -/
theorem applyFilter_bandpass_bad_freq2_modifies_input :
    (∃ out msg, applyFilter (MathOps.mk Real.tan Real.sqrt Real.pi (fun _ => "")) ""
        [1] 1000 FilterType.BANDPASS 100 0 1 = some (out, msg) ∧ out ≠ [1] ∧ msg ≠ "") ∧
    (∃ out msg, applyFilter (MathOps.mk Real.tan Real.sqrt Real.pi (fun _ => "")) ""
        [1] 1000 FilterType.BANDPASS 100 (-5) 1 = some (out, msg) ∧ out ≠ [1] ∧ msg ≠ "") := by
  constructor
  · refine ⟨_, _, applyFilter_bandpass_nonpositive_freq2 _ "" 0 le_rfl, ?_, ?_⟩
    · intro h
      exact highpass_first_sample_ne_one (List.cons.inj h).1
    · exact append_ne_empty _ _ _ (by decide)
  · refine ⟨_, _, applyFilter_bandpass_nonpositive_freq2 _ "" (-5) (by norm_num), ?_, ?_⟩
    · intro h
      exact highpass_first_sample_ne_one (List.cons.inj h).1
    · exact append_ne_empty _ _ _ (by decide)

/-! ## Composite filters, section design and the recursion: the claims -/

/-- Frequencies in the valid band configuration pass `validateParameters`. -/
theorem validateParameters_of_band (ops : MathOps α) (e : String) (sampleRate low high : α)
    (hl : 0 < low) (hlh : low < high) (hh : high < sampleRate / 2) :
    (validateParameters ops e sampleRate low high).1 = true :=
  (validateParameters_eq_true_iff ops e sampleRate low high).mpr
    ⟨by linarith, hl, lt_trans hlh hh, Or.inr ⟨hh, hlh⟩⟩

/-- C7: bandpass/notch complementarity.  For a non-empty input `x`, a positive sample rate,
cutoffs `0 < low < high < sampleRate / 2` and an order from 1 to 8, `notch` and `bandpass` both
return a sequence of the length of `x`, and at every index the notch sample plus the bandpass
sample is the input sample. -/
theorem notch_add_bandpass_eq_input (ops : MathOps α) (e : String) (x : List α)
    (sampleRate low high : α) (order : Int)
    (hx : x ≠ []) (_hsr : 0 < sampleRate) (hl : 0 < low) (hlh : low < high)
    (hh : high < sampleRate / 2) (ho1 : 1 ≤ order) (ho8 : order ≤ 8) :
    ∃ n bp e1 e2,
      notch ops e x sampleRate low high order = some (n, e1) ∧
      bandpass ops e x sampleRate low high order = some (bp, e2) ∧
      n.length = x.length ∧ bp.length = x.length ∧
      ∀ i, i < x.length → n.getD i 0 + bp.getD i 0 = x.getD i 0 := by
  have ho : ¬ (order ≤ 0 ∨ order > 8) := by omega
  have hv := validateParameters_of_band ops e sampleRate low high hl hlh hh
  obtain ⟨bp, e2, hbp, hlen⟩ :=
    applyFilter_bandpass_some_length ops e x sampleRate low high order
  have hlt : ¬ (bp.length < x.length) := by omega
  refine ⟨List.zipWith (fun d p => d - p) x bp, bp, e2, e2, ?_, ?_, by simp [hlen], hlen, ?_⟩
  · unfold notch
    rw [applyFilter_notch_of_valid ops e x sampleRate low high order hx ho hv, bandpass_eq, hbp]
    simp only [Option.some_bind, if_neg hlt]
  · rw [bandpass_eq, hbp]
  · intro i _
    have h := zipWith_sub_getD_add x bp i
    rwa [← hlen, List.take_length, hlen, List.take_length] at h

/-- Witness for C7: the input `[1, 2, 3]` at 1000 Hz, band from 100 Hz to 200 Hz, order 4,
with the real tangent, square root and pi. -/
theorem notch_add_bandpass_eq_input_witness :
    ∃ n bp e1 e2,
      notch (MathOps.mk Real.tan Real.sqrt Real.pi (fun _ => "")) "" [1, 2, 3] 1000 100 200 4 =
        some (n, e1) ∧
      bandpass (MathOps.mk Real.tan Real.sqrt Real.pi (fun _ => "")) "" [1, 2, 3] 1000 100 200 4 =
        some (bp, e2) ∧
      n.length = [(1 : ℝ), 2, 3].length ∧ bp.length = [(1 : ℝ), 2, 3].length ∧
      ∀ i, i < [(1 : ℝ), 2, 3].length → n.getD i 0 + bp.getD i 0 = [(1 : ℝ), 2, 3].getD i 0 :=
  notch_add_bandpass_eq_input _ "" [1, 2, 3] 1000 100 200 4 (by simp) (by norm_num)
    (by norm_num) (by norm_num) (by norm_num) (by decide) (by decide)

/-- C8: for a non-empty input, a positive sample rate, cutoffs `0 < low < high < sampleRate / 2`
and an order from 1 to 8, `bandpass` is the highpass at the low cutoff followed by the lowpass
at the high cutoff applied to the highpass result, both with the same order; all three calls
return. -/
theorem bandpass_eq_lowpass_of_highpass (ops : MathOps α) (e : String) (x : List α)
    (sampleRate low high : α) (order : Int)
    (hx : x ≠ []) (_hsr : 0 < sampleRate) (hl : 0 < low) (hlh : low < high)
    (hh : high < sampleRate / 2) (ho1 : 1 ≤ order) (ho8 : order ≤ 8) :
    ∃ temp e1 out e2,
      highpass ops e x sampleRate low order = some (temp, e1) ∧
      lowpass ops e1 temp sampleRate high order = some (out, e2) ∧
      bandpass ops e x sampleRate low high order = some (out, e2) := by
  have ho : ¬ (order ≤ 0 ∨ order > 8) := by omega
  have hv := validateParameters_of_band ops e sampleRate low high hl hlh hh
  obtain ⟨temp, e1, htemp, -⟩ :=
    applyFilter_primitive_some_length ops e x sampleRate FilterType.HIGHPASS low 0 order
      (Or.inr rfl)
  obtain ⟨out, e2, hout, -⟩ :=
    applyFilter_primitive_some_length ops e1 temp sampleRate FilterType.LOWPASS high 0 order
      (Or.inl rfl)
  refine ⟨temp, e1, out, e2, by rw [highpass_eq, htemp], by rw [lowpass_eq, hout], ?_⟩
  rw [bandpass_eq, applyFilter_bandpass_of_valid ops e x sampleRate low high order hx ho hv,
    highpass_eq, htemp]
  simp only [Option.some_bind, lowpass_eq, hout]

/-- Witness for C8: the input `[1, 2, 3]` at 1000 Hz, band from 100 Hz to 200 Hz, order 4,
with the real tangent, square root and pi. -/
theorem bandpass_eq_lowpass_of_highpass_witness :
    ∃ temp e1 out e2,
      highpass (MathOps.mk Real.tan Real.sqrt Real.pi (fun _ => "")) "" [1, 2, 3] 1000 100 4 =
        some (temp, e1) ∧
      lowpass (MathOps.mk Real.tan Real.sqrt Real.pi (fun _ => "")) e1 temp 1000 200 4 =
        some (out, e2) ∧
      bandpass (MathOps.mk Real.tan Real.sqrt Real.pi (fun _ => "")) "" [1, 2, 3] 1000 100 200 4 =
        some (out, e2) :=
  bandpass_eq_lowpass_of_highpass _ "" [1, 2, 3] 1000 100 200 4 (by simp) (by norm_num)
    (by norm_num) (by norm_num) (by norm_num) (by decide) (by decide)

/-- C9: for an order from 1 to 8, `designBiquadSections` returns exactly `ceil(order / 2)`
sections; for `LOWPASS` each is the section of `designLowpass` for the cutoff, for `HIGHPASS`
each is the section of `designHighpass`. -/
theorem designBiquadSections_ceil_identical (ops : MathOps α) (sampleRate freq1 freq2 : α)
    (order : Int) (ho1 : 1 ≤ order) (ho8 : order ≤ 8) :
    designBiquadSections ops FilterType.LOWPASS sampleRate freq1 freq2 order =
        List.replicate ⌈(order : ℚ) / 2⌉.toNat (designLowpass ops sampleRate freq1 2) ∧
    designBiquadSections ops FilterType.HIGHPASS sampleRate freq1 freq2 order =
        List.replicate ⌈(order : ℚ) / 2⌉.toNat (designHighpass ops sampleRate freq1 2) := by
  rw [designBiquadSections_eq_replicate, designBiquadSections_eq_replicate,
    (numSections_eq_ceil order ho1 ho8).1]
  exact ⟨rfl, rfl⟩

/-- Witness for C9: order 5 for a lowpass gives exactly three identical sections. -/
theorem designBiquadSections_ceil_identical_witness :
    designBiquadSections (MathOps.mk Real.tan Real.sqrt Real.pi (fun _ => ""))
        FilterType.LOWPASS 1000 100 0 5 =
      List.replicate 3
        (designLowpass (MathOps.mk Real.tan Real.sqrt Real.pi (fun _ => "")) 1000 100 2) := by
  have h := (designBiquadSections_ceil_identical
    (MathOps.mk Real.tan Real.sqrt Real.pi (fun _ => "")) 1000 100 0 5
    (by decide) (by decide)).1
  have hc : ⌈((5 : Int) : ℚ) / 2⌉.toNat = 3 := by
    have : ⌈((5 : Int) : ℚ) / 2⌉ = 3 := by
      rw [Int.ceil_eq_iff]
      norm_num
    rw [this]
    rfl
  rwa [hc] at h

/-- C10: for a coefficient set with three numerator and three denominator coefficients,
`applyIIR` returns a sequence of the length of its input; on the empty sequence it returns the
empty sequence.  `applyIIR` has no access to `lastError`: it reports no error. -/
theorem applyIIR_biquad_same_length (x : List α) (coeffs : ButterworthCoeffs α)
    (hb : coeffs.b.length = 3) (ha : coeffs.a.length = 3) :
    (∃ out, applyIIR x coeffs = some out ∧ out.length = x.length) ∧
      applyIIR ([] : List α) coeffs = some [] :=
  ⟨applyIIR_some_of_wellformed x coeffs (by omega) (by omega), rfl⟩

/-- Witness for C10: three samples through the coefficient set `b = (1, 2, 3)`,
`a = (1, 1/2, 1/3)`. -/
theorem applyIIR_biquad_same_length_witness :
    (∃ out, applyIIR [(1 : ℚ), 2, 3] ⟨[1, 2, 3], [1, 1 / 2, 1 / 3]⟩ = some out ∧
        out.length = [(1 : ℚ), 2, 3].length) ∧
      applyIIR ([] : List ℚ) ⟨[1, 2, 3], [1, 1 / 2, 1 / 3]⟩ = some [] :=
  applyIIR_biquad_same_length [1, 2, 3] ⟨[1, 2, 3], [1, 1 / 2, 1 / 3]⟩ rfl rfl

end DSPFilters

/-! ## Facts about the standard algorithms -/

namespace Cpp

variable {α : Type} [LinearOrderedField α]

/-- The fold of `minmaxElement` keeps a lower and an upper bound of everything it has seen, and
both are either the initial value or one of the elements seen. -/
theorem foldl_minmax (rest : List α) (m : α × α) :
    ((rest.foldl (fun m v => (if v < m.1 then v else m.1, if v < m.2 then m.2 else v)) m).1
        = m.1 ∨
      (rest.foldl (fun m v => (if v < m.1 then v else m.1, if v < m.2 then m.2 else v)) m).1
        ∈ rest) ∧
    (rest.foldl (fun m v => (if v < m.1 then v else m.1, if v < m.2 then m.2 else v)) m).1
        ≤ m.1 ∧
    (∀ y ∈ rest,
      (rest.foldl (fun m v => (if v < m.1 then v else m.1, if v < m.2 then m.2 else v)) m).1
        ≤ y) ∧
    ((rest.foldl (fun m v => (if v < m.1 then v else m.1, if v < m.2 then m.2 else v)) m).2
        = m.2 ∨
      (rest.foldl (fun m v => (if v < m.1 then v else m.1, if v < m.2 then m.2 else v)) m).2
        ∈ rest) ∧
    m.2 ≤
      (rest.foldl (fun m v => (if v < m.1 then v else m.1, if v < m.2 then m.2 else v)) m).2 ∧
    (∀ y ∈ rest, y ≤
      (rest.foldl (fun m v => (if v < m.1 then v else m.1, if v < m.2 then m.2 else v)) m).2)
    := by
  induction rest generalizing m with
  | nil => simp
  | cons v rest ih =>
    simp only [List.foldl_cons]
    obtain ⟨h1, h2, h3, h4, h5, h6⟩ :=
      ih (if v < m.1 then v else m.1, if v < m.2 then m.2 else v)
    simp only at h1 h2 h4 h5
    have hmin : (if v < m.1 then v else m.1) ≤ m.1 ∧ (if v < m.1 then v else m.1) ≤ v := by
      split_ifs with h
      · exact ⟨le_of_lt h, le_rfl⟩
      · exact ⟨le_rfl, not_lt.mp h⟩
    have hmax : m.2 ≤ (if v < m.2 then m.2 else v) ∧ v ≤ (if v < m.2 then m.2 else v) := by
      split_ifs with h
      · exact ⟨le_rfl, le_of_lt h⟩
      · exact ⟨not_lt.mp h, le_rfl⟩
    refine ⟨?_, le_trans h2 hmin.1, ?_, ?_, le_trans hmax.1 h5, ?_⟩
    · rcases h1 with h1 | h1
      · rw [h1]
        split_ifs
        · exact Or.inr (List.mem_cons_self _ _)
        · exact Or.inl rfl
      · exact Or.inr (List.mem_cons_of_mem _ h1)
    · intro y hy
      rcases List.mem_cons.mp hy with rfl | hy
      · exact le_trans h2 hmin.2
      · exact h3 y hy
    · rcases h4 with h4 | h4
      · rw [h4]
        split_ifs
        · exact Or.inl rfl
        · exact Or.inr (List.mem_cons_self _ _)
      · exact Or.inr (List.mem_cons_of_mem _ h4)
    · intro y hy
      rcases List.mem_cons.mp hy with rfl | hy
      · exact le_trans hmax.2 h5
      · exact h6 y hy

/-- On a non-empty range `minmaxElement` returns a least and a greatest element of it. -/
theorem minmaxElement_spec (data : List α) (hd : data ≠ []) :
    ((minmaxElement data).1 ∈ data ∧ ∀ y ∈ data, (minmaxElement data).1 ≤ y) ∧
    ((minmaxElement data).2 ∈ data ∧ ∀ y ∈ data, y ≤ (minmaxElement data).2) := by
  cases data with
  | nil => exact absurd rfl hd
  | cons first rest =>
    obtain ⟨h1, h2, h3, h4, h5, h6⟩ := foldl_minmax rest (first, first)
    simp only at h1 h2 h4 h5
    refine ⟨⟨?_, ?_⟩, ⟨?_, ?_⟩⟩
    · rcases h1 with h | h
      · exact List.mem_cons.mpr (Or.inl h)
      · exact List.mem_cons_of_mem _ h
    · intro y hy
      rcases List.mem_cons.mp hy with rfl | hy
      · exact h2
      · exact h3 y hy
    · rcases h4 with h | h
      · exact List.mem_cons.mpr (Or.inl h)
      · exact List.mem_cons_of_mem _ h
    · intro y hy
      rcases List.mem_cons.mp hy with rfl | hy
      · exact h5
      · exact h6 y hy

/-- A loop that adds `g value` for every element computes the initial value plus the sum. -/
theorem foldl_add_eq_sum {β : Type} (g : β → α) (l : List β) (init : α) :
    l.foldl (fun acc v => acc + g v) init = init + (l.map g).sum := by
  induction l generalizing init with
  | nil => simp
  | cons v rest ih => simp [ih, add_assoc]

/-- A loop that pushes `g value` for every element appends the mapped list. -/
theorem foldl_push_eq_map {β γ : Type} (g : β → γ) (l : List β) (init : List γ) :
    l.foldl (fun result v => result ++ [g v]) init = init ++ l.map g := by
  induction l generalizing init with
  | nil => simp
  | cons v rest ih => simp [ih]

/-- The standard algorithm `std::accumulate` from 0 is the sum. -/
theorem accumulate_zero (data : List α) : accumulate data 0 = data.sum := by
  unfold accumulate
  have h := foldl_add_eq_sum (fun v : α => v) data 0
  simpa using h

/-- Sorting the whole range meets the guarantee of `std::nth_element`. -/
theorem sortingNthElement_spec : NthElementSpec (sortingNthElement : List α → Nat → List α) := by
  intro data nth _
  refine ⟨List.perm_insertionSort _ data, ?_⟩
  intro s hp hs
  have h : data.insertionSort (· ≤ ·) = s :=
    List.eq_of_perm_of_sorted ((List.perm_insertionSort _ data).trans hp.symm)
      (List.sorted_insertionSort _ data) hs
  unfold sortingNthElement
  rw [h]

end Cpp


/-! ## Statistics -/

namespace DataAnalyzer

variable {α : Type} [LinearOrderedField α]

/-- The unfolding of `calculateStatistics` on a non-empty sequence, with the loops written as
sums. -/
theorem calculateStatistics_of_ne_nil (sqrt : α → α) (nthElement : List α → Nat → List α)
    (x : List α) (hx : x ≠ []) :
    calculateStatistics sqrt nthElement x =
      { min := (Cpp.minmaxElement x).1, max := (Cpp.minmaxElement x).2,
        mean := x.sum / (x.length : α),
        std := sqrt ((x.map (fun v => (v - x.sum / (x.length : α)) ^ 2)).sum / (x.length : α)),
        rms := sqrt ((x.map (fun v => v ^ 2)).sum / (x.length : α)),
        median := median nthElement x } := by
  have he : ¬ (x.isEmpty = true) := by simpa using hx
  unfold calculateStatistics
  simp only [if_neg he, Cpp.accumulate_zero]
  have h1 := Cpp.foldl_add_eq_sum
    (fun v : α => (v - x.sum / (x.length : α)) * (v - x.sum / (x.length : α))) x 0
  have h2 := Cpp.foldl_add_eq_sum (fun v : α => v * v) x 0
  rw [h1, h2]
  simp only [zero_add, pow_two]

/-- The median in terms of any ascending rearrangement `s` of the data. -/
theorem median_eq_of_sorted (nthElement : List α → Nat → List α)
    (hnth : Cpp.NthElementSpec nthElement) (x s : List α) (hx : x ≠ [])
    (hs : s.Sorted (· ≤ ·)) (hp : s.Perm x) :
    median nthElement x =
      if x.length % 2 = 0 then (s.getD (x.length / 2 - 1) 0 + s.getD (x.length / 2) 0) / 2
      else s.getD (x.length / 2) 0 := by
  have he : ¬ (x.isEmpty = true) := by simpa using hx
  have hpos : 0 < x.length := List.length_pos.mpr hx
  have hhalf : x.length / 2 < x.length := Nat.div_lt_self hpos (by decide)
  obtain ⟨hperm1, hval1⟩ := hnth x (x.length / 2) hhalf
  have hlen1 : (nthElement x (x.length / 2)).length = x.length := hperm1.length_eq
  have hhalf2 : x.length / 2 - 1 < (nthElement x (x.length / 2)).length := by
    rw [hlen1]; omega
  obtain ⟨-, hval2⟩ := hnth (nthElement x (x.length / 2)) (x.length / 2 - 1) hhalf2
  unfold median
  simp only [if_neg he]
  rw [hval1 s hp hs, hval2 s (hp.trans hperm1.symm) hs]
  split_ifs
  · rw [add_comm]
  · rfl

/-- C11: on a non-empty sequence `calculateStatistics` returns a least element as `min`, a
greatest element as `max`, the sum divided by the length as `mean`, the square root of the mean
squared deviation (divisor: the length) as `std`, and the square root of the mean square as
`rms`.  For a one-element sequence `[v]`, with a square root that maps 0 to 0 and an
`nth_element` that meets the standard, `std` is 0 and `min`, `max`, `mean` and `median` are
all `v`. -/
theorem calculateStatistics_values (sqrt : α → α) (nthElement : List α → Nat → List α) :
    (∀ x : List α, x ≠ [] →
      ((calculateStatistics sqrt nthElement x).min ∈ x ∧
        ∀ y ∈ x, (calculateStatistics sqrt nthElement x).min ≤ y) ∧
      ((calculateStatistics sqrt nthElement x).max ∈ x ∧
        ∀ y ∈ x, y ≤ (calculateStatistics sqrt nthElement x).max) ∧
      (calculateStatistics sqrt nthElement x).mean = x.sum / (x.length : α) ∧
      (calculateStatistics sqrt nthElement x).std =
        sqrt ((x.map (fun v => (v - x.sum / (x.length : α)) ^ 2)).sum / (x.length : α)) ∧
      (calculateStatistics sqrt nthElement x).rms =
        sqrt ((x.map (fun v => v ^ 2)).sum / (x.length : α))) ∧
    (sqrt 0 = 0 → Cpp.NthElementSpec nthElement → ∀ v : α,
      (calculateStatistics sqrt nthElement [v]).std = 0 ∧
      (calculateStatistics sqrt nthElement [v]).min = v ∧
      (calculateStatistics sqrt nthElement [v]).max = v ∧
      (calculateStatistics sqrt nthElement [v]).mean = v ∧
      (calculateStatistics sqrt nthElement [v]).median = v) := by
  constructor
  · intro x hx
    rw [calculateStatistics_of_ne_nil sqrt nthElement x hx]
    obtain ⟨hmin, hmax⟩ := Cpp.minmaxElement_spec x hx
    exact ⟨hmin, hmax, rfl, rfl, rfl⟩
  · intro hsqrt hnth v
    rw [calculateStatistics_of_ne_nil sqrt nthElement [v] (by simp)]
    have hmed := median_eq_of_sorted nthElement hnth [v] [v] (by simp)
      (List.sorted_singleton v) (List.Perm.refl _)
    refine ⟨?_, rfl, rfl, ?_, ?_⟩
    · simp [hsqrt]
    · simp
    · rw [hmed]
      simp

/-- Witness for C11: the sequence `[3, 1, 2]` and the one-element sequence `[7]`, with the real
square root and the sorting `nth_element`. -/
theorem calculateStatistics_values_witness :
    ((calculateStatistics Real.sqrt Cpp.sortingNthElement [3, 1, 2]).mean =
        ([3, 1, 2] : List ℝ).sum / (([3, 1, 2] : List ℝ).length : ℝ) ∧
      (calculateStatistics Real.sqrt Cpp.sortingNthElement [3, 1, 2]).rms =
        Real.sqrt ((([3, 1, 2] : List ℝ).map (fun v => v ^ 2)).sum /
          (([3, 1, 2] : List ℝ).length : ℝ))) ∧
    ((calculateStatistics Real.sqrt Cpp.sortingNthElement [(7 : ℝ)]).std = 0 ∧
      (calculateStatistics Real.sqrt Cpp.sortingNthElement [(7 : ℝ)]).median = 7) :=
  ⟨⟨((calculateStatistics_values Real.sqrt Cpp.sortingNthElement).1 [3, 1, 2]
        (by simp)).2.2.1,
    ((calculateStatistics_values Real.sqrt Cpp.sortingNthElement).1 [3, 1, 2]
        (by simp)).2.2.2.2⟩,
   ⟨((calculateStatistics_values Real.sqrt Cpp.sortingNthElement).2 Real.sqrt_zero
        Cpp.sortingNthElement_spec 7).1,
    ((calculateStatistics_values Real.sqrt Cpp.sortingNthElement).2 Real.sqrt_zero
        Cpp.sortingNthElement_spec 7).2.2.2.2⟩⟩

/-- C12: for a non-empty sequence `x` of length `n` and any ascending rearrangement `s` of it,
the median reported by `calculateStatistics` is `s[n/2]` when `n` is odd and
`(s[n/2 - 1] + s[n/2]) / 2` when `n` is even; rearranging `x` does not change it. -/
theorem calculateStatistics_median (sqrt : α → α) (nthElement : List α → Nat → List α)
    (hnth : Cpp.NthElementSpec nthElement) (x s : List α) (hx : x ≠ [])
    (hs : s.Sorted (· ≤ ·)) (hp : s.Perm x) :
    ((x.length % 2 = 1 →
        (calculateStatistics sqrt nthElement x).median = s.getD (x.length / 2) 0) ∧
      (x.length % 2 = 0 →
        (calculateStatistics sqrt nthElement x).median =
          (s.getD (x.length / 2 - 1) 0 + s.getD (x.length / 2) 0) / 2)) ∧
    ∀ x2 : List α, x2.Perm x →
      (calculateStatistics sqrt nthElement x2).median =
        (calculateStatistics sqrt nthElement x).median := by
  have hmed := median_eq_of_sorted nthElement hnth x s hx hs hp
  have hst : (calculateStatistics sqrt nthElement x).median = median nthElement x := by
    rw [calculateStatistics_of_ne_nil sqrt nthElement x hx]
  refine ⟨⟨?_, ?_⟩, ?_⟩
  · intro hodd
    rw [hst, hmed, if_neg (by omega)]
  · intro heven
    rw [hst, hmed, if_pos heven]
  · intro x2 hp2
    have hx2 : x2 ≠ [] := by
      intro h
      rw [h] at hp2
      exact hx (List.Perm.nil_eq hp2).symm
    have hmed2 := median_eq_of_sorted nthElement hnth x2 s hx2 hs (hp.trans hp2.symm)
    rw [hst, calculateStatistics_of_ne_nil sqrt nthElement x2 hx2, hmed2, hmed,
      hp2.length_eq]

/-- Witness for C12: the median of `[1, 2, 3, 4]` is `5/2` and the median of `[3, 1, 2]` is 2,
with the sorting `nth_element`. -/
theorem calculateStatistics_median_witness :
    (calculateStatistics (fun v : ℚ => v) Cpp.sortingNthElement [1, 2, 3, 4]).median = 5 / 2 ∧
    (calculateStatistics (fun v : ℚ => v) Cpp.sortingNthElement [3, 1, 2]).median = 2 := by
  have h4 := ((calculateStatistics_median (fun v : ℚ => v) Cpp.sortingNthElement
    Cpp.sortingNthElement_spec [1, 2, 3, 4] [1, 2, 3, 4] (by simp) (by simp; norm_num)
    (List.Perm.refl _)).1.2 rfl)
  have h3 := ((calculateStatistics_median (fun v : ℚ => v) Cpp.sortingNthElement
    Cpp.sortingNthElement_spec [3, 1, 2] [1, 2, 3] (by simp) (by simp; norm_num)
    (by decide)).1.1 rfl)
  constructor
  · rw [h4]
    norm_num
  · rw [h3]
    norm_num

/-- C13: on the empty sequence `calculateStatistics` returns the value whose six fields are all
0.  The function has no error channel. -/
theorem calculateStatistics_empty (sqrt : α → α) (nthElement : List α → Nat → List α) :
    calculateStatistics sqrt nthElement ([] : List α) =
      { min := 0, max := 0, mean := 0, std := 0, rms := 0, median := 0 } := by
  rfl

end DataAnalyzer

/-! ## Activity detection -/

namespace DataAnalyzer

variable {α : Type} [LinearOrderedField α]

/-- The invariant holds before the first sample. -/
theorem loopInv_init (P : Nat → Prop) : LoopInv P 0 (false, 0, []) := by
  refine ⟨by simp, by simp, ?_, List.Pairwise.nil⟩
  intro s e
  simp only [List.not_mem_nil, false_iff]
  rintro ⟨-, h, -⟩
  omega

/-- A run that stopped below `i` also stopped below `i + 1`. -/
theorem runBefore_succ_of (P : Nat → Prop) (i s e : Nat) (h : RunBefore P i s e) :
    RunBefore P (i + 1) s e :=
  ⟨h.1, Nat.lt_succ_of_lt h.2.1, h.2.2⟩

/-- The invariant is kept when activity starts at index `i`. -/
theorem loopInv_start (P : Nat → Prop) (i start : Nat) (periods : List (Nat × Nat))
    (h : LoopInv P i (false, start, periods)) (hi : P i) :
    LoopInv P (i + 1) (true, i, periods) := by
  obtain ⟨h1, -, h3, h4⟩ := h
  simp only at h1 h3 h4
  refine ⟨?_, ?_, ?_, h4⟩
  · simp only [true_iff]
    exact ⟨Nat.succ_pos i, by simpa using hi⟩
  · intro _
    show i < i + 1 ∧ (∀ j, i ≤ j → j < i + 1 → P j) ∧ (i = 0 ∨ ¬ P (i - 1))
    refine ⟨Nat.lt_succ_self i, ?_, ?_⟩
    · intro j hj1 hj2
      have : j = i := by omega
      rw [this]; exact hi
    · by_cases h0 : i = 0
      · exact Or.inl h0
      · right
        intro hp
        have := h1.mpr ⟨Nat.pos_of_ne_zero h0, hp⟩
        simp at this
  · intro s e
    rw [h3 s e]
    constructor
    · exact runBefore_succ_of P i s e
    · rintro ⟨hs, he, hrun, hne, hprev⟩
      have hlt : e < i := by
        rcases Nat.lt_or_ge e i with hl | hg
        · exact hl
        · have : e = i := by omega
          rw [this] at hne
          exact absurd hi hne
      exact ⟨hs, hlt, hrun, hne, hprev⟩

/-- The invariant is kept when activity ends at index `i`: the run in progress is recorded. -/
theorem loopInv_stop (P : Nat → Prop) (i start : Nat) (periods : List (Nat × Nat))
    (h : LoopInv P i (true, start, periods)) (hi : ¬ P i) :
    LoopInv P (i + 1) (false, start, periods ++ [(start, i)]) := by
  obtain ⟨-, h2, h3, h4⟩ := h
  simp only at h2 h3 h4
  obtain ⟨hs1, hs2, hs3⟩ := h2 trivial
  refine ⟨?_, by simp, ?_, ?_⟩
  · simp only [Bool.false_eq_true, false_iff, not_and]
    intro _
    simpa using hi
  · intro s e
    simp only [List.mem_append, List.mem_singleton, Prod.mk.injEq]
    constructor
    · rintro (hmem | ⟨rfl, rfl⟩)
      · exact runBefore_succ_of P i s e ((h3 s e).mp hmem)
      · exact ⟨hs1, Nat.lt_succ_self _, hs2, hi, hs3⟩
    · rintro ⟨hs, he, hrun, hne, hprev⟩
      rcases Nat.lt_or_ge e i with hl | hg
      · exact Or.inl ((h3 s e).mpr ⟨hs, hl, hrun, hne, hprev⟩)
      · have hei : e = i := by omega
        right
        refine ⟨?_, hei⟩
        subst hei
        rcases Nat.lt_trichotomy s start with hlt | heq | hgt
        · exfalso
          rcases hs3 with h0 | hn
          · omega
          · exact hn (hrun (start - 1) (by omega) (by omega))
        · exact heq
        · exfalso
          rcases hprev with h0 | hn
          · omega
          · exact hn (hs2 (s - 1) (by omega) (by omega))
  · rw [List.pairwise_append]
    refine ⟨h4, List.pairwise_singleton _ _, ?_⟩
    intro p hp q hq
    rw [List.mem_singleton] at hq
    subst hq
    obtain ⟨-, he, -, hne, -⟩ := (h3 p.1 p.2).mp hp
    show p.2 < start
    by_contra hcon
    exact hne (hs2 p.2 (by omega) he)

/-- The invariant is kept when index `i` neither starts nor ends a run. -/
theorem loopInv_keep (P : Nat → Prop) (i start : Nat) (active : Bool)
    (periods : List (Nat × Nat)) (h : LoopInv P i (active, start, periods))
    (hi : active = true ↔ P i) : LoopInv P (i + 1) (active, start, periods) := by
  obtain ⟨h1, h2, h3, h4⟩ := h
  simp only at h1 h2 h3 h4
  refine ⟨?_, ?_, ?_, h4⟩
  · simp only [Nat.add_sub_cancel]
    rw [hi]
    exact ⟨fun hp => ⟨Nat.succ_pos i, hp⟩, fun hp => hp.2⟩
  · intro ha
    obtain ⟨hs1, hs2, hs3⟩ := h2 ha
    show start < i + 1 ∧ (∀ j, start ≤ j → j < i + 1 → P j) ∧ (start = 0 ∨ ¬ P (start - 1))
    refine ⟨Nat.lt_succ_of_lt hs1, ?_, hs3⟩
    intro j hj1 hj2
    rcases Nat.lt_or_ge j i with hl | hg
    · exact hs2 j hj1 hl
    · have : j = i := by omega
      rw [this]
      exact hi.mp ha
  · intro s e
    rw [h3 s e]
    constructor
    · exact runBefore_succ_of P i s e
    · rintro ⟨hs, he, hrun, hne, hprev⟩
      rcases Nat.lt_or_ge e i with hl | hg
      · exact ⟨hs, hl, hrun, hne, hprev⟩
      · exfalso
        have hei : e = i := by omega
        subst hei
        have hact : active = true := h1.mpr ⟨by omega, hrun (e - 1) (by omega) (by omega)⟩
        exact hne (hi.mp hact)

/-- The loop of `detectActivity` establishes the invariant for the whole sequence. -/
theorem activityLoop_inv (x : List α) (threshold : α) (rest pre : List α) (active : Bool)
    (start : Nat) (periods : List (Nat × Nat)) (hx : pre ++ rest = x)
    (h : LoopInv (fun j => threshold < |x.getD j 0|) pre.length (active, start, periods)) :
    LoopInv (fun j => threshold < |x.getD j 0|) x.length
      (activityLoop threshold rest pre.length active start periods) := by
  induction rest generalizing pre active start periods with
  | nil =>
    simp only [List.append_nil] at hx
    subst hx
    exact h
  | cons v rest ih =>
    have hx2 : (pre ++ [v]) ++ rest = x := by simpa using hx
    have hv : x.getD pre.length 0 = v := by
      rw [← hx, List.getD_eq_getElem?_getD, List.getElem?_append_right (le_refl _)]
      simp
    have hlen : (pre ++ [v]).length = pre.length + 1 := by simp
    unfold activityLoop
    by_cases hc1 : active = false ∧ |v| > threshold
    · rw [if_pos hc1]
      obtain ⟨ha, hgt⟩ := hc1
      subst ha
      have := loopInv_start _ pre.length start periods h (by show threshold < _; rw [hv]; exact hgt)
      rw [← hlen] at this ⊢
      exact ih (pre ++ [v]) true _ periods hx2 (by rw [hlen]; rw [hlen] at this; exact this)
    · rw [if_neg hc1]
      by_cases hc2 : active = true ∧ |v| ≤ threshold
      · rw [if_pos hc2]
        obtain ⟨ha, hle⟩ := hc2
        subst ha
        have := loopInv_stop _ pre.length start periods h
          (by show ¬ threshold < _; rw [hv]; exact not_lt.mpr hle)
        rw [← hlen] at this ⊢
        exact ih (pre ++ [v]) false start _ hx2 (by rw [hlen]; rw [hlen] at this; exact this)
      · rw [if_neg hc2]
        have hiff : active = true ↔ threshold < |x.getD pre.length 0| := by
          rw [hv]
          cases active with
          | false =>
            simp only [Bool.false_eq_true, false_iff]
            intro hgt
            exact hc1 ⟨rfl, hgt⟩
          | true =>
            simp only [true_iff]
            by_contra hcon
            exact hc2 ⟨rfl, not_lt.mp hcon⟩
        have := loopInv_keep _ pre.length start active periods h hiff
        rw [← hlen] at this ⊢
        exact ih (pre ++ [v]) active start periods hx2
          (by rw [hlen]; rw [hlen] at this; exact this)

end DataAnalyzer

namespace DataAnalyzer

variable {α : Type} [LinearOrderedField α]

/-- On a non-empty sequence `detectActivity` returns the recorded runs, followed by the run in
progress (with the last index as its end) when the loop ends active; the loop state satisfies
the invariant for the whole sequence. -/
theorem detectActivity_eq (x : List α) (threshold : α) (hx : x ≠ []) :
    ∃ (active : Bool) (start : Nat) (periods : List (Nat × Nat)),
      LoopInv (fun j => threshold < |x.getD j 0|) x.length (active, start, periods) ∧
      detectActivity x threshold =
        if active = true then periods ++ [(start, x.length - 1)] else periods := by
  have he : ¬ (x.isEmpty = true) := by simpa using hx
  have hinv := activityLoop_inv x threshold x [] false 0 [] (by simp)
    (loopInv_init (fun j => threshold < |x.getD j 0|))
  simp only [List.length_nil] at hinv
  refine ⟨(activityLoop threshold x 0 false 0 []).1, (activityLoop threshold x 0 false 0 []).2.1,
    (activityLoop threshold x 0 false 0 []).2.2, hinv, ?_⟩
  unfold detectActivity
  simp only [if_neg he]

/-- The periods of `detectActivity` without the trailing one are the recorded runs of the
loop. -/
theorem detectActivity_complete_eq (x : List α) (threshold : α) (hx : x ≠ []) :
    ∃ (active : Bool) (start : Nat) (periods : List (Nat × Nat)),
      LoopInv (fun j => threshold < |x.getD j 0|) x.length (active, start, periods) ∧
      (if threshold < |x.getD (x.length - 1) 0| then (detectActivity x threshold).dropLast
        else detectActivity x threshold) = periods := by
  obtain ⟨active, start, periods, hinv, heq⟩ := detectActivity_eq x threshold hx
  refine ⟨active, start, periods, hinv, ?_⟩
  have hpos : 0 < x.length := List.length_pos.mpr hx
  have h1 := hinv.1
  simp only at h1
  by_cases hlast : threshold < |x.getD (x.length - 1) 0|
  · have ha : active = true := h1.mpr ⟨hpos, hlast⟩
    rw [if_pos hlast, heq, if_pos ha, List.dropLast_concat]
  · have ha : ¬ (active = true) := fun h => hlast (h1.mp h).2
    rw [if_neg hlast, heq, if_neg ha]

/-- A list whose consecutive pairs are separated has no repeated entry. -/
theorem nodup_of_pairwise_separated (periods : List (Nat × Nat))
    (hmem : ∀ p ∈ periods, p.1 < p.2) (h : periods.Pairwise (fun p q => p.2 < q.1)) :
    periods.Nodup := by
  induction periods with
  | nil => exact List.nodup_nil
  | cons p rest ih =>
    rw [List.pairwise_cons] at h
    rw [List.nodup_cons]
    refine ⟨?_, ih (fun q hq => hmem q (List.mem_cons_of_mem _ hq)) h.2⟩
    intro hp
    have h1 := h.1 p hp
    have h2 := hmem p (List.mem_cons_self _ _)
    omega

/-- C14: leave aside the final period that `detectActivity` records when the last sample is
still active.  A pair `(s, e)` is among the remaining periods exactly when `s < e <= n - 1`,
every sample from `s` up to `e - 1` exceeds the threshold in magnitude, sample `e` does not, and
`s` is 0 or sample `s - 1` does not; no such period is listed twice; the empty sequence gives
the empty list; and `[0, 2, 2, 0]` with threshold 1 gives `[(1, 3)]`. -/
theorem detectActivity_complete_runs (x : List α) (threshold : α) :
    (∀ s e : Nat,
      (s, e) ∈ (if threshold < |x.getD (x.length - 1) 0| then (detectActivity x threshold).dropLast
        else detectActivity x threshold) ↔
      (s < e ∧ e ≤ x.length - 1 ∧ (∀ i, s ≤ i → i < e → threshold < |x.getD i 0|) ∧
        |x.getD e 0| ≤ threshold ∧ (s = 0 ∨ |x.getD (s - 1) 0| ≤ threshold))) ∧
    (if threshold < |x.getD (x.length - 1) 0| then (detectActivity x threshold).dropLast
        else detectActivity x threshold).Nodup ∧
    detectActivity ([] : List α) threshold = [] ∧
    detectActivity ([0, 2, 2, 0] : List α) 1 = [(1, 3)] := by
  refine ⟨?_, ?_, rfl, ?_⟩
  · intro s e
    by_cases hx : x = []
    · subst hx
      have hd : detectActivity ([] : List α) threshold = [] := rfl
      simp only [hd, List.dropLast_nil, ite_self, List.not_mem_nil, false_iff, List.length_nil]
      rintro ⟨h1, h2, -⟩
      omega
    · obtain ⟨active, start, periods, hinv, heq⟩ := detectActivity_complete_eq x threshold hx
      have hpos : 0 < x.length := List.length_pos.mpr hx
      rw [heq, hinv.2.2.1 s e]
      unfold RunBefore
      simp only [not_lt]
      constructor
      · rintro ⟨h1, h2, h3, h4, h5⟩
        exact ⟨h1, by omega, h3, h4, h5⟩
      · rintro ⟨h1, h2, h3, h4, h5⟩
        exact ⟨h1, by omega, h3, h4, h5⟩
  · by_cases hx : x = []
    · subst hx
      have hd : detectActivity ([] : List α) threshold = [] := rfl
      simp [hd]
    · obtain ⟨active, start, periods, hinv, heq⟩ := detectActivity_complete_eq x threshold hx
      rw [heq]
      refine nodup_of_pairwise_separated periods ?_ hinv.2.2.2
      intro p hp
      exact ((hinv.2.2.1 p.1 p.2).mp hp).1
  · have h2 : |(2 : α)| = 2 := abs_of_pos two_pos
    have h0 : |(0 : α)| = 0 := abs_zero
    have h10 : ¬ ((1 : α) < 0) := by norm_num
    simp [detectActivity, activityLoop, h2, h0, h10]

/-- Witness for C14: on `[0, 2, 2, 0]` with threshold 1 the last sample is inactive, the pair
`(1, 3)` meets the description of a complete run, and it is the only period returned. -/
theorem detectActivity_complete_runs_witness :
    (1, 3) ∈ (if (1 : ℚ) < |([0, 2, 2, 0] : List ℚ).getD (([0, 2, 2, 0] : List ℚ).length - 1) 0|
        then (detectActivity ([0, 2, 2, 0] : List ℚ) 1).dropLast
        else detectActivity ([0, 2, 2, 0] : List ℚ) 1) ∧
    detectActivity ([0, 2, 2, 0] : List ℚ) 1 = [(1, 3)] := by
  have h2 : |(2 : ℚ)| = 2 := abs_of_pos two_pos
  have h0 : |(0 : ℚ)| = 0 := abs_zero
  refine ⟨((detectActivity_complete_runs ([0, 2, 2, 0] : List ℚ) 1).1 1 3).mpr
    ⟨by decide, by decide, ?_, ?_, ?_⟩,
    (detectActivity_complete_runs ([0, 2, 2, 0] : List ℚ) 1).2.2.2⟩
  · intro i hi1 hi2
    have hi : i = 1 ∨ i = 2 := by omega
    rcases hi with rfl | rfl <;> simp [h2]
  · simp [h0]
  · right
    simp [h0]

/-- C15: on a non-empty sequence whose last sample exceeds the threshold in magnitude, the last
period returned by `detectActivity` is `(s, n - 1)`: its end is the last index itself, and `s`
is the first index of the run of active samples that reaches the last index.  When the last
sample does not exceed the threshold, the end of every returned period is an inactive index, so
no period with an inclusive end is added. -/
theorem detectActivity_trailing_run (x : List α) (threshold : α) (hx : x ≠ []) :
    (threshold < |x.getD (x.length - 1) 0| →
      ∃ s : Nat, (detectActivity x threshold).getLast? = some (s, x.length - 1) ∧
        s ≤ x.length - 1 ∧ (∀ i, s ≤ i → i ≤ x.length - 1 → threshold < |x.getD i 0|) ∧
        (s = 0 ∨ |x.getD (s - 1) 0| ≤ threshold)) ∧
    (|x.getD (x.length - 1) 0| ≤ threshold →
      ∀ p ∈ detectActivity x threshold, p.2 ≤ x.length - 1 ∧ |x.getD p.2 0| ≤ threshold) := by
  obtain ⟨active, start, periods, hinv, heq⟩ := detectActivity_eq x threshold hx
  have hpos : 0 < x.length := List.length_pos.mpr hx
  obtain ⟨h1, h2, h3, -⟩ := hinv
  simp only at h1 h2 h3
  constructor
  · intro hlast
    have ha : active = true := h1.mpr ⟨hpos, hlast⟩
    obtain ⟨hs1, hs2, hs3⟩ := h2 ha
    refine ⟨start, ?_, by omega, fun i hi1 hi2 => hs2 i hi1 (by omega), ?_⟩
    · rw [heq, if_pos ha]
      simp
    · rcases hs3 with h0 | hn
      · exact Or.inl h0
      · exact Or.inr (not_lt.mp hn)
  · intro hlast
    have ha : ¬ (active = true) := fun h => (not_lt.mpr hlast) (h1.mp h).2
    intro p hp
    rw [heq, if_neg ha] at hp
    obtain ⟨-, he, -, hne, -⟩ := (h3 p.1 p.2).mp hp
    exact ⟨by omega, not_lt.mp hne⟩

/-- Witness for C15: `[0, 2, 2]` with threshold 1 gives `[(1, 2)]`, the trailing run with the
last index 2 as its end. -/
theorem detectActivity_trailing_run_witness :
    (∃ s : Nat, (detectActivity ([0, 2, 2] : List ℚ) 1).getLast? =
        some (s, ([0, 2, 2] : List ℚ).length - 1) ∧
      s ≤ ([0, 2, 2] : List ℚ).length - 1 ∧
      (∀ i, s ≤ i → i ≤ ([0, 2, 2] : List ℚ).length - 1 →
        (1 : ℚ) < |([0, 2, 2] : List ℚ).getD i 0|) ∧
      (s = 0 ∨ |([0, 2, 2] : List ℚ).getD (s - 1) 0| ≤ 1)) ∧
    detectActivity ([0, 2, 2] : List ℚ) 1 = [(1, 2)] := by
  refine ⟨(detectActivity_trailing_run ([0, 2, 2] : List ℚ) 1 (by simp)).1 ?_, ?_⟩
  · have h2 : |(2 : ℚ)| = 2 := abs_of_pos two_pos
    simp [h2]
  · have h2 : |(2 : ℚ)| = 2 := abs_of_pos two_pos
    have h0 : |(0 : ℚ)| = 0 := abs_zero
    have h10 : ¬ ((1 : ℚ) < 0) := by norm_num
    simp [detectActivity, activityLoop, h2, h0, h10]

end DataAnalyzer

/-! ## Peaks and normalisation -/

namespace SignalProcessor

variable {α : Type} [LinearOrderedField α]

/-- A loop that pushes the indices meeting a condition computes the filtered list. -/
theorem foldl_push_if_eq_filter (p : Nat → Prop) [DecidablePred p] (l : List Nat)
    (init : List Nat) :
    l.foldl (fun peaks i => if p i then peaks ++ [i] else peaks) init =
      init ++ l.filter (fun i => decide (p i)) := by
  induction l generalizing init with
  | nil => simp
  | cons i rest ih =>
    simp only [List.foldl_cons, List.filter_cons]
    by_cases h : p i
    · simp [h, ih]
    · simp [h, ih]

/-- The result of `findPeaks` as a filter of the interior indices. -/
theorem findPeaks_eq_filter (x : List α) (threshold : α) (h3 : ¬ x.length < 3) :
    findPeaks x threshold =
      (List.range' 1 (x.length - 1 - 1)).filter
        (fun i => decide (x.getD i 0 > threshold ∧ x.getD i 0 > x.getD (i - 1) 0 ∧
          x.getD i 0 > x.getD (i + 1) 0)) := by
  unfold findPeaks
  rw [if_neg h3, foldl_push_if_eq_filter]
  simp

/-- C16: `findPeaks` returns exactly the indices `i` with `1 <= i <= n - 2` whose sample exceeds
the threshold and both neighbours, in increasing order; index 0 and index `n - 1` are never
returned; for fewer than three samples the result is empty; `findPeaks([5,1,1], 0)` and
`findPeaks([1,1,5], 0)` are empty. -/
theorem findPeaks_spec (x : List α) (threshold : α) :
    (∀ i : Nat, i ∈ findPeaks x threshold ↔
      (1 ≤ i ∧ i ≤ x.length - 2 ∧ x.getD i 0 > threshold ∧
        x.getD i 0 > x.getD (i - 1) 0 ∧ x.getD i 0 > x.getD (i + 1) 0)) ∧
    (findPeaks x threshold).Sorted (· < ·) ∧
    0 ∉ findPeaks x threshold ∧
    (x.length - 1) ∉ findPeaks x threshold ∧
    (x.length < 3 → findPeaks x threshold = []) ∧
    findPeaks ([5, 1, 1] : List α) 0 = [] ∧
    findPeaks ([1, 1, 5] : List α) 0 = [] := by
  have hmem : ∀ i : Nat, i ∈ findPeaks x threshold ↔
      (1 ≤ i ∧ i ≤ x.length - 2 ∧ x.getD i 0 > threshold ∧
        x.getD i 0 > x.getD (i - 1) 0 ∧ x.getD i 0 > x.getD (i + 1) 0) := by
    intro i
    by_cases h3 : x.length < 3
    · have : findPeaks x threshold = [] := by
        unfold findPeaks
        rw [if_pos h3]
      rw [this]
      simp only [List.not_mem_nil, false_iff]
      rintro ⟨h1, h2, -⟩
      omega
    · rw [findPeaks_eq_filter x threshold h3, List.mem_filter, List.mem_range'_1]
      simp only [decide_eq_true_eq]
      constructor
      · rintro ⟨⟨h1, h2⟩, h⟩
        exact ⟨h1, by omega, h⟩
      · rintro ⟨h1, h2, h⟩
        exact ⟨⟨h1, by omega⟩, h⟩
  refine ⟨hmem, ?_, ?_, ?_, ?_, ?_, ?_⟩
  · by_cases h3 : x.length < 3
    · have : findPeaks x threshold = [] := by
        unfold findPeaks
        rw [if_pos h3]
      rw [this]
      exact List.sorted_nil
    · rw [findPeaks_eq_filter x threshold h3]
      exact List.Pairwise.filter _ (List.pairwise_lt_range' 1 _)
  · intro h
    have := (hmem 0).mp h
    omega
  · intro h
    have := (hmem (x.length - 1)).mp h
    omega
  · intro h3
    unfold findPeaks
    rw [if_pos h3]
  · have h1 : ¬ ((1 : α) > 0 ∧ (1 : α) > 5 ∧ (1 : α) > 1) := by norm_num
    simp [findPeaks, List.range', h1]
  · have h1 : ¬ ((1 : α) > 0 ∧ (1 : α) > 1 ∧ (1 : α) > 5) := by norm_num
    simp [findPeaks, List.range', h1]

/-- Witness for C16: a two-sample sequence has no peak. -/
theorem findPeaks_spec_witness : findPeaks ([5, 1] : List ℚ) 0 = [] :=
  (findPeaks_spec ([5, 1] : List ℚ) 0).2.2.2.2.1 (by decide)

/-- On a non-empty sequence with distinct extremes `normalize` maps every sample `v` to
`(v - min) / (max - min)`. -/
theorem normalize_eq_map (x : List α) (hx : x ≠ [])
    (hr : (Cpp.minmaxElement x).2 - (Cpp.minmaxElement x).1 ≠ 0) :
    normalize x =
      x.map (fun v => (v - (Cpp.minmaxElement x).1) /
        ((Cpp.minmaxElement x).2 - (Cpp.minmaxElement x).1)) := by
  have he : ¬ (x.isEmpty = true) := by simpa using hx
  unfold normalize
  simp only [if_neg he, if_neg hr]
  rw [Cpp.foldl_push_eq_map]
  simp

/-- A least element of a list is unique, and so is a greatest element. -/
theorem least_unique (x : List α) (a b : α) (ha : a ∈ x ∧ ∀ y ∈ x, a ≤ y)
    (hb : b ∈ x ∧ ∀ y ∈ x, b ≤ y) : a = b :=
  le_antisymm (ha.2 b hb.1) (hb.2 a ha.1)

/-- C17: let `mn` be the least and `mx` the greatest element of `x`, with `mn` different from
`mx`.  Then `normalize x` has the length of `x`, its entry `i` is `(x[i] - mn) / (mx - mn)`,
every entry lies between 0 and 1, every position holding `mn` maps to 0 and every position
holding `mx` maps to 1. -/
theorem normalize_rescales (x : List α) (mn mx : α)
    (hmn : mn ∈ x ∧ ∀ y ∈ x, mn ≤ y) (hmx : mx ∈ x ∧ ∀ y ∈ x, y ≤ mx) (hne : mx ≠ mn) :
    (normalize x).length = x.length ∧
    (∀ i, i < x.length → (normalize x).getD i 0 = (x.getD i 0 - mn) / (mx - mn)) ∧
    (∀ y ∈ normalize x, 0 ≤ y ∧ y ≤ 1) ∧
    (∀ i, i < x.length → x.getD i 0 = mn → (normalize x).getD i 0 = 0) ∧
    (∀ i, i < x.length → x.getD i 0 = mx → (normalize x).getD i 0 = 1) := by
  have hx : x ≠ [] := List.ne_nil_of_mem hmn.1
  obtain ⟨hmin, hmax⟩ := Cpp.minmaxElement_spec x hx
  have e1 : (Cpp.minmaxElement x).1 = mn := least_unique x _ _ hmin hmn
  have e2 : (Cpp.minmaxElement x).2 = mx :=
    le_antisymm (hmx.2 _ hmax.1) (hmax.2 _ hmx.1)
  have hlt : mn < mx := lt_of_le_of_ne (hmn.2 mx hmx.1) (Ne.symm hne)
  have hpos : 0 < mx - mn := sub_pos.mpr hlt
  have hnorm : normalize x = x.map (fun v => (v - mn) / (mx - mn)) := by
    rw [normalize_eq_map x hx (by rw [e1, e2]; exact ne_of_gt hpos), e1, e2]
  have hget : ∀ i, i < x.length →
      (normalize x).getD i 0 = (x.getD i 0 - mn) / (mx - mn) := by
    intro i hi
    rw [hnorm, List.getD_eq_getElem?_getD, List.getD_eq_getElem?_getD,
      List.getElem?_map, List.getElem?_eq_getElem hi]
    simp
  refine ⟨by rw [hnorm, List.length_map], hget, ?_, ?_, ?_⟩
  · intro y hy
    rw [hnorm, List.mem_map] at hy
    obtain ⟨v, hv, rfl⟩ := hy
    constructor
    · exact div_nonneg (sub_nonneg.mpr (hmn.2 v hv)) (le_of_lt hpos)
    · rw [div_le_one hpos]
      exact sub_le_sub_right (hmx.2 v hv) mn
  · intro i hi hv
    rw [hget i hi, hv, sub_self, zero_div]
  · intro i hi hv
    rw [hget i hi, hv, div_self (ne_of_gt hpos)]

/-- Witness for C17: `[5, 1, 3, 5]` has least element 1 and greatest element 5. -/
theorem normalize_rescales_witness :
    (normalize ([5, 1, 3, 5] : List ℚ)).length = ([5, 1, 3, 5] : List ℚ).length ∧
    (∀ i, i < ([5, 1, 3, 5] : List ℚ).length →
      (normalize ([5, 1, 3, 5] : List ℚ)).getD i 0 =
        (([5, 1, 3, 5] : List ℚ).getD i 0 - 1) / (5 - 1)) ∧
    (∀ y ∈ normalize ([5, 1, 3, 5] : List ℚ), 0 ≤ y ∧ y ≤ 1) ∧
    (∀ i, i < ([5, 1, 3, 5] : List ℚ).length → ([5, 1, 3, 5] : List ℚ).getD i 0 = 1 →
      (normalize ([5, 1, 3, 5] : List ℚ)).getD i 0 = 0) ∧
    (∀ i, i < ([5, 1, 3, 5] : List ℚ).length → ([5, 1, 3, 5] : List ℚ).getD i 0 = 5 →
      (normalize ([5, 1, 3, 5] : List ℚ)).getD i 0 = 1) :=
  normalize_rescales ([5, 1, 3, 5] : List ℚ) 1 5
    ⟨by simp, by intro y hy; simp at hy; rcases hy with h | h | h | h <;> rw [h] <;> norm_num⟩
    ⟨by simp, by intro y hy; simp at hy; rcases hy with h | h | h | h <;> rw [h] <;> norm_num⟩
    (by norm_num)

/-- C18: on a non-empty sequence whose elements are all equal `normalize` returns a sequence of
the same length whose elements are all `1/2`; on the empty sequence it returns the empty
sequence. -/
theorem normalize_constant (x : List α) (c : α) (hx : x ≠ []) (hc : ∀ y ∈ x, y = c) :
    normalize x = List.replicate x.length (1 / 2) ∧ normalize ([] : List α) = [] := by
  refine ⟨?_, rfl⟩
  have he : ¬ (x.isEmpty = true) := by simpa using hx
  obtain ⟨hmin, hmax⟩ := Cpp.minmaxElement_spec x hx
  have hr : (Cpp.minmaxElement x).2 - (Cpp.minmaxElement x).1 = 0 := by
    rw [hc _ hmin.1, hc _ hmax.1, sub_self]
  unfold normalize
  simp only [if_neg he, if_pos hr]

/-- Witness for C18: `normalize([5, 5, 5, 5])` is `[1/2, 1/2, 1/2, 1/2]`. -/
theorem normalize_constant_witness :
    normalize ([5, 5, 5, 5] : List ℚ) = [1 / 2, 1 / 2, 1 / 2, 1 / 2] ∧
      normalize ([] : List ℚ) = [] :=
  normalize_constant ([5, 5, 5, 5] : List ℚ) 5 (by simp) (by simp)

end SignalProcessor

/-! ## Downsampling -/

namespace SignalProcessor

variable {α : Type} [LinearOrderedField α]

/-- The number of strides of width `f` that start below `n`, counted from `i`: one more than
from `i + f`. -/
theorem stride_count_succ (n i f : Nat) (hf : 0 < f) (hi : i < n) :
    (n - i + f - 1) / f = (n - (i + f) + f - 1) / f + 1 := by
  rcases Nat.lt_or_ge (i + f) n with hlt | hge
  · have h : n - i + f - 1 = (n - (i + f) + f - 1) + f := by omega
    rw [h, Nat.add_div_right _ hf]
  · have h0 : n - (i + f) + f - 1 = f - 1 := by omega
    rw [h0, Nat.div_eq_of_lt (by omega : f - 1 < f)]
    exact Nat.div_eq_of_lt_le (by omega) (by omega)

/-- The loop of `downsample` from index `i` appends the samples at `i`, `i + f`, `i + 2f`, ...
below the length. -/
theorem downsampleLoop_eq (data : List α) (f : Nat) (hf : 0 < f) (m : Nat) :
    ∀ (i : Nat) (result : List α), data.length - i = m →
      downsampleLoop data f hf i result =
        result ++ (List.range ((data.length - i + f - 1) / f)).map
          (fun k => data.getD (i + k * f) 0) := by
  induction m using Nat.strong_induction_on with
  | _ m ih =>
    intro i result hm
    rw [downsampleLoop]
    by_cases hi : i < data.length
    · rw [dif_pos hi, ih (data.length - (i + f)) (by omega) (i + f) _ rfl,
        stride_count_succ data.length i f hf hi, List.range_succ_eq_map, List.map_cons,
        List.map_map, List.append_assoc]
      congr 1
      simp only [List.singleton_append, zero_mul, add_zero]
      congr 1
      · rw [List.getD_eq_getElem?_getD, List.getElem?_eq_getElem hi]
        rfl
      · apply List.map_congr_left
        intro k _
        simp only [Function.comp_apply, Nat.succ_eq_add_one]
        congr 1
        rw [Nat.add_mul, Nat.one_mul]
        omega
    · rw [dif_neg hi]
      have h0 : (data.length - i + f - 1) / f = 0 := Nat.div_eq_of_lt (by omega)
      rw [h0]
      simp

/-- For a positive factor `downsample` lists the samples at the multiples of the factor. -/
theorem downsample_eq_map (x : List α) (factor : Int) (hf : 1 ≤ factor) :
    downsample x factor =
      (List.range ((x.length + factor.toNat - 1) / factor.toNat)).map
        (fun k => x.getD (k * factor.toNat) 0) := by
  have hpos : 0 < factor.toNat := by omega
  unfold downsample
  by_cases h : x.isEmpty ∨ factor ≤ 0
  · rw [dif_pos h]
    rcases h with h | h
    · have hx : x = [] := by simpa using h
      subst hx
      have h0 : (([] : List α).length + factor.toNat - 1) / factor.toNat = 0 :=
        Nat.div_eq_of_lt (by simp; omega)
      rw [h0]
      rfl
    · omega
  · rw [dif_neg h, downsampleLoop_eq x factor.toNat hpos x.length 0 [] rfl]
    simp

/-- The stride count `(n + f - 1) / f` is the ceiling of `n / f`. -/
theorem stride_count_eq_ceil (n f : Nat) (hf : 0 < f) :
    (n + f - 1) / f = ⌈(n : ℚ) / (f : ℚ)⌉₊ := by
  have hfq : (0 : ℚ) < (f : ℚ) := by exact_mod_cast hf
  rcases Nat.eq_zero_or_pos n with hn | hn
  · subst hn
    have h0 : (0 + f - 1) / f = 0 := Nat.div_eq_of_lt (by omega)
    rw [h0]
    simp
  · have hmod := Nat.div_add_mod (n + f - 1) f
    have hlt := Nat.mod_lt (n + f - 1) hf
    have hc : (n + f - 1) / f ≠ 0 := by
      intro h
      rw [Nat.div_eq_zero_iff hf] at h
      omega
    symm
    rw [Nat.ceil_eq_iff hc]
    have hsub : ((n + f - 1) / f - 1) * f + f = f * ((n + f - 1) / f) := by
      have : 1 ≤ (n + f - 1) / f := Nat.one_le_iff_ne_zero.mpr hc
      rw [Nat.sub_mul, Nat.one_mul, Nat.mul_comm f]
      have hle : f ≤ (n + f - 1) / f * f := by
        calc f = 1 * f := (Nat.one_mul f).symm
          _ ≤ (n + f - 1) / f * f := Nat.mul_le_mul_right f this
      omega
    constructor
    · rw [lt_div_iff₀ hfq]
      have : ((n + f - 1) / f - 1) * f < n := by omega
      exact_mod_cast this
    · rw [div_le_iff₀ hfq]
      have : n ≤ (n + f - 1) / f * f := by
        rw [Nat.mul_comm]
        omega
      exact_mod_cast this

/-- C19: for a factor of at least 1, `downsample` returns a sequence of length
`ceil(n / factor)` whose `k`-th element is `x[k * factor]`, an index below `n`; for a factor of
0 or less it returns `x` unchanged. -/
theorem downsample_spec (x : List α) (factor : Int) :
    (1 ≤ factor →
      (downsample x factor).length = ⌈(x.length : ℚ) / (factor : ℚ)⌉₊ ∧
      ∀ k, k < (downsample x factor).length →
        k * factor.toNat < x.length ∧
        (downsample x factor).getD k 0 = x.getD (k * factor.toNat) 0) ∧
    (factor ≤ 0 → downsample x factor = x) := by
  constructor
  · intro hf
    have hpos : 0 < factor.toNat := by omega
    have hcast : (factor : ℚ) = ((factor.toNat : ℕ) : ℚ) := by
      have : (factor.toNat : ℤ) = factor := Int.toNat_of_nonneg (by omega)
      rw [← Int.cast_natCast, this]
    have hlen : (downsample x factor).length =
        (x.length + factor.toNat - 1) / factor.toNat := by
      rw [downsample_eq_map x factor hf]
      simp
    refine ⟨by rw [hlen, hcast, stride_count_eq_ceil _ _ hpos], ?_⟩
    intro k hk
    rw [hlen] at hk
    constructor
    · have hmod := Nat.div_add_mod (x.length + factor.toNat - 1) factor.toNat
      have hlt := Nat.mod_lt (x.length + factor.toNat - 1) hpos
      have h1 : (k + 1) * factor.toNat ≤
          (x.length + factor.toNat - 1) / factor.toNat * factor.toNat :=
        Nat.mul_le_mul_right _ hk
      rw [Nat.add_mul, Nat.one_mul] at h1
      rw [Nat.mul_comm ((x.length + factor.toNat - 1) / factor.toNat)] at h1
      omega
    · rw [downsample_eq_map x factor hf, List.getD_eq_getElem?_getD, List.getElem?_map,
        List.getElem?_range hk]
      rfl
  · intro hf
    unfold downsample
    rw [dif_pos (Or.inr hf)]

/-- Witness for C19: `[5, 1, 3, 5, 7]` with factor 2 gives the three samples at the indices 0,
2 and 4; with factor 0 the sequence comes back unchanged. -/
theorem downsample_spec_witness :
    ((downsample ([5, 1, 3, 5, 7] : List ℚ) 2).length =
        ⌈(([5, 1, 3, 5, 7] : List ℚ).length : ℚ) / ((2 : Int) : ℚ)⌉₊ ∧
      ∀ k, k < (downsample ([5, 1, 3, 5, 7] : List ℚ) 2).length →
        k * (2 : Int).toNat < ([5, 1, 3, 5, 7] : List ℚ).length ∧
        (downsample ([5, 1, 3, 5, 7] : List ℚ) 2).getD k 0 =
          ([5, 1, 3, 5, 7] : List ℚ).getD (k * (2 : Int).toNat) 0) ∧
    downsample ([5, 1, 3, 5, 7] : List ℚ) 0 = [5, 1, 3, 5, 7] :=
  ⟨(downsample_spec ([5, 1, 3, 5, 7] : List ℚ) 2).1 (by decide),
   (downsample_spec ([5, 1, 3, 5, 7] : List ℚ) 0).2 (by decide)⟩

end SignalProcessor

/-! ## Moving average -/

namespace SignalProcessor

variable {α : Type} [LinearOrderedField α]

/-- The sum over a list of consecutive indices is the sum over the interval. -/
theorem sum_map_range' (g : Nat → α) (s len : Nat) :
    ((List.range' s len).map g).sum = ∑ j in Finset.Ico s (s + len), g j := by
  induction len with
  | zero => simp
  | succ len ih =>
    rw [List.range'_concat, List.map_append, List.sum_append, ih, ← Nat.add_assoc,
      Finset.sum_Ico_succ_top (Nat.le_add_right s len)]
    simp

/-- For a positive window `movingAverage` maps every index to the mean over its window. -/
theorem movingAverage_eq_map (x : List α) (windowSize : Int) (hw : 1 ≤ windowSize) :
    movingAverage x windowSize =
      (List.range x.length).map (fun i =>
        (∑ j in Finset.Ico (i - (Int.tdiv windowSize 2).toNat)
            (min (i + (Int.tdiv windowSize 2).toNat + 1) x.length), x.getD j 0) /
          ((min (i + (Int.tdiv windowSize 2).toNat + 1) x.length -
            (i - (Int.tdiv windowSize 2).toNat) : Nat) : α)) := by
  unfold movingAverage
  by_cases h : x.isEmpty ∨ windowSize ≤ 0
  · rw [if_pos h]
    rcases h with h | h
    · have hx : x = [] := by simpa using h
      subst hx
      rfl
    · omega
  · rw [if_neg h]
    have hstart : ∀ i half : Nat, (if i ≥ half then i - half else 0) = i - half := by
      intro i half
      split_ifs with hc
      · rfl
      · omega
    simp only [hstart, Cpp.foldl_add_eq_sum (fun j => x.getD j 0), zero_add]
    rw [Cpp.foldl_push_eq_map]
    simp only [List.nil_append]
    apply List.map_congr_left
    intro i hmem
    have hi : i < x.length := List.mem_range.mp hmem
    rw [sum_map_range']
    generalize (Int.tdiv windowSize 2).toNat = half
    have hadd : i - half + (min (i + half + 1) x.length - (i - half)) =
        min (i + half + 1) x.length := by omega
    rw [hadd]

/-- C20: for a window size of at least 1, `movingAverage` returns a sequence of the length of
`x` whose entry `i` is the sum of `x[j]` over `max(0, i - w/2) <= j < min(n, i + w/2 + 1)`,
a non-empty range, divided by the number of indices in it (`w/2` is the integer quotient); for
a window size of 0 or less it returns `x` unchanged. -/
theorem movingAverage_spec (x : List α) (windowSize : Int) :
    (1 ≤ windowSize →
      (movingAverage x windowSize).length = x.length ∧
      ∀ i : Nat, i < x.length →
        max 0 ((i : Int) - windowSize / 2) < min (x.length : Int) (i + windowSize / 2 + 1) ∧
        (movingAverage x windowSize).getD i 0 =
          (∑ j in Finset.Ico (max 0 ((i : Int) - windowSize / 2)).toNat
              (min (x.length : Int) (i + windowSize / 2 + 1)).toNat, x.getD j 0) /
            ((min (x.length : Int) (i + windowSize / 2 + 1) -
              max 0 ((i : Int) - windowSize / 2) : Int) : α)) ∧
    (windowSize ≤ 0 → movingAverage x windowSize = x) := by
  constructor
  · intro hw
    have hdiv : Int.tdiv windowSize 2 = windowSize / 2 :=
      Int.tdiv_eq_ediv (by omega) (by decide)
    refine ⟨by rw [movingAverage_eq_map x windowSize hw]; simp, ?_⟩
    intro i hi
    have hlo : (max 0 ((i : Int) - windowSize / 2)).toNat = i - (windowSize / 2).toNat := by
      omega
    have hhi : (min (x.length : Int) (i + windowSize / 2 + 1)).toNat =
        min (i + (windowSize / 2).toNat + 1) x.length := by
      omega
    have hcnt : (min (x.length : Int) (i + windowSize / 2 + 1) -
        max 0 ((i : Int) - windowSize / 2) : Int) =
        ((min (i + (windowSize / 2).toNat + 1) x.length - (i - (windowSize / 2).toNat) : Nat)
          : Int) := by
      omega
    refine ⟨by omega, ?_⟩
    rw [movingAverage_eq_map x windowSize hw, List.getD_eq_getElem?_getD, List.getElem?_map,
      List.getElem?_range hi, hdiv, hlo, hhi, hcnt, Int.cast_natCast]
    rfl
  · intro hw
    unfold movingAverage
    rw [if_pos (Or.inr hw)]

/-- Witness for C20: `[5, 1, 3, 5, 7, 8]` with window size 3, and with window size 0. -/
theorem movingAverage_spec_witness :
    ((movingAverage ([5, 1, 3, 5, 7, 8] : List ℚ) 3).length =
        ([5, 1, 3, 5, 7, 8] : List ℚ).length ∧
      ∀ i : Nat, i < ([5, 1, 3, 5, 7, 8] : List ℚ).length →
        max 0 ((i : Int) - 3 / 2) <
          min (([5, 1, 3, 5, 7, 8] : List ℚ).length : Int) (i + 3 / 2 + 1) ∧
        (movingAverage ([5, 1, 3, 5, 7, 8] : List ℚ) 3).getD i 0 =
          (∑ j in Finset.Ico (max 0 ((i : Int) - 3 / 2)).toNat
              (min (([5, 1, 3, 5, 7, 8] : List ℚ).length : Int) (i + 3 / 2 + 1)).toNat,
              ([5, 1, 3, 5, 7, 8] : List ℚ).getD j 0) /
            ((min (([5, 1, 3, 5, 7, 8] : List ℚ).length : Int) (i + 3 / 2 + 1) -
              max 0 ((i : Int) - 3 / 2) : Int) : ℚ)) ∧
    movingAverage ([5, 1, 3, 5, 7, 8] : List ℚ) 0 = [5, 1, 3, 5, 7, 8] :=
  ⟨(movingAverage_spec ([5, 1, 3, 5, 7, 8] : List ℚ) 3).1 (by decide),
   (movingAverage_spec ([5, 1, 3, 5, 7, 8] : List ℚ) 0).2 (by decide)⟩

end SignalProcessor

/-! ## The power-spectrum stub -/

namespace DataAnalyzer

/-- C21: for every input sequence and every sample rate `calculatePSD` returns the empty
sequence. -/
theorem calculatePSD_empty {β : Type} (data : List β) (sampleRate : β) :
    calculatePSD data sampleRate = [] := by
  unfold calculatePSD
  split_ifs <;> rfl

end DataAnalyzer

/-! ## The designed coefficients and the recursion of `applyIIR` -/

namespace DSPFilters

variable {α : Type} [LinearOrderedField α]

/-- C22: with `w = tan(pi * cutoff / sampleRate)` and `a0 = 1 + sqrt(2) * w + w^2`,
`designLowpass` returns the numerator `(w^2/a0, 2*w^2/a0, w^2/a0)` and the denominator
`(1, 2*(w^2 - 1)/a0, (1 - sqrt(2)*w + w^2)/a0)`, `designHighpass` returns the numerator
`(1/a0, -2/a0, 1/a0)` with the same denominator, and the order passed to either function does
not influence the result. -/
theorem design_coefficients (ops : MathOps α) (sampleRate cutoff : α) (order : Int) (w a0 : α)
    (hw : w = ops.tan (ops.pi * cutoff / sampleRate))
    (ha0 : a0 = 1 + ops.sqrt 2 * w + w ^ 2) :
    designLowpass ops sampleRate cutoff order =
      { b := [w ^ 2 / a0, 2 * w ^ 2 / a0, w ^ 2 / a0],
        a := [1, 2 * (w ^ 2 - 1) / a0, (1 - ops.sqrt 2 * w + w ^ 2) / a0] } ∧
    designHighpass ops sampleRate cutoff order =
      { b := [1 / a0, -2 / a0, 1 / a0],
        a := [1, 2 * (w ^ 2 - 1) / a0, (1 - ops.sqrt 2 * w + w ^ 2) / a0] } ∧
    (∀ order2 : Int,
      designLowpass ops sampleRate cutoff order2 = designLowpass ops sampleRate cutoff order ∧
      designHighpass ops sampleRate cutoff order2 = designHighpass ops sampleRate cutoff order)
    := by
  subst hw
  subst ha0
  refine ⟨?_, ?_, fun _ => ⟨rfl, rfl⟩⟩
  · simp only [designLowpass, prewarpFrequency, pow_two]
  · simp only [designHighpass, prewarpFrequency, pow_two]

/-- Witness for C22: sample rate 2000 and cutoff 100, with the real tangent, square root and
pi. -/
theorem design_coefficients_witness :
    designLowpass (MathOps.mk Real.tan Real.sqrt Real.pi (fun _ => "")) 2000 100 4 =
      { b := [Real.tan (Real.pi * 100 / 2000) ^ 2 /
                (1 + Real.sqrt 2 * Real.tan (Real.pi * 100 / 2000) +
                  Real.tan (Real.pi * 100 / 2000) ^ 2),
              2 * Real.tan (Real.pi * 100 / 2000) ^ 2 /
                (1 + Real.sqrt 2 * Real.tan (Real.pi * 100 / 2000) +
                  Real.tan (Real.pi * 100 / 2000) ^ 2),
              Real.tan (Real.pi * 100 / 2000) ^ 2 /
                (1 + Real.sqrt 2 * Real.tan (Real.pi * 100 / 2000) +
                  Real.tan (Real.pi * 100 / 2000) ^ 2)],
        a := [1,
              2 * (Real.tan (Real.pi * 100 / 2000) ^ 2 - 1) /
                (1 + Real.sqrt 2 * Real.tan (Real.pi * 100 / 2000) +
                  Real.tan (Real.pi * 100 / 2000) ^ 2),
              (1 - Real.sqrt 2 * Real.tan (Real.pi * 100 / 2000) +
                  Real.tan (Real.pi * 100 / 2000) ^ 2) /
                (1 + Real.sqrt 2 * Real.tan (Real.pi * 100 / 2000) +
                  Real.tan (Real.pi * 100 / 2000) ^ 2)] } :=
  (design_coefficients (MathOps.mk Real.tan Real.sqrt Real.pi (fun _ => "")) 2000 100 4
    (Real.tan (Real.pi * 100 / 2000))
    (1 + Real.sqrt 2 * Real.tan (Real.pi * 100 / 2000) + Real.tan (Real.pi * 100 / 2000) ^ 2)
    rfl rfl).1

/-- The sample loop of `applyIIR` on three numerator and three denominator coefficients, from a
two-entry state, is the recursion of the specification. -/
theorem iirLoop_eq_transposedRecursion (b0 b1 b2 a0 a1 a2 : α) (x : List α) (s0 s1 : α) :
    iirLoop [b0, b1, b2] [a0, a1, a2] [s0, s1] x =
      transposedRecursion b0 b1 b2 a1 a2 s0 s1 x := by
  induction x generalizing s0 s1 with
  | nil => rfl
  | cons v rest ih =>
    simp only [iirLoop, transposedRecursion, updateState, List.length_cons, List.length_nil,
      List.range_succ, List.range_zero]
    simp [ih]

/-- On three numerator and three denominator coefficients `applyIIR` returns the recursion of
the specification started from the zero state. -/
theorem applyIIR_eq_transposedRecursion (b0 b1 b2 a0 a1 a2 : α) (x : List α) :
    applyIIR x { b := [b0, b1, b2], a := [a0, a1, a2] } =
      some (transposedRecursion b0 b1 b2 a1 a2 0 0 x) := by
  unfold applyIIR
  cases x with
  | nil => rfl
  | cons v rest =>
    simp only [List.isEmpty_cons, Bool.false_eq_true, if_false, List.length_cons,
      List.length_nil]
    have hc : ¬ (0 + 1 + 1 + 1 < 2 ∨ 0 + 1 + 1 + 1 < 0 + 1 + 1 + 1) := by omega
    rw [if_neg hc]
    have hst : List.replicate (0 + 1 + 1 + 1 - 1) (0 : α) = [0, 0] := rfl
    rw [hst, iirLoop_eq_transposedRecursion]

/-- C23: for every biquad coefficient set `(b0, b1, b2; 1, a1, a2)` and every input `x`,
`applyIIR` returns the output of the recursion `y[n] = b0*x[n] + s0`,
`s0 := s1 + b1*x[n] - a1*y[n]`, `s1 := b2*x[n] - a2*y[n]` started from `(s0, s1) = (0, 0)`.
The result is a function of the input and the coefficients alone: no state survives a call. -/
theorem applyIIR_transposed (b0 b1 b2 a1 a2 : α) (x : List α) :
    applyIIR x { b := [b0, b1, b2], a := [1, a1, a2] } =
      some (transposedRecursion b0 b1 b2 a1 a2 0 0 x) :=
  applyIIR_eq_transposedRecursion b0 b1 b2 1 a1 a2 x

end DSPFilters

/-! ## The direct form, the cascade and linearity -/

namespace DSPFilters

variable {α : Type} [LinearOrderedField α]

/-- The recursion of the specification emits one output per input sample. -/
theorem transposedRecursion_length (b0 b1 b2 a1 a2 : α) (x : List α) (s0 s1 : α) :
    (transposedRecursion b0 b1 b2 a1 a2 s0 s1 x).length = x.length := by
  induction x generalizing s0 s1 with
  | nil => rfl
  | cons v rest ih => simp [transposedRecursion, ih]

/-- The transposed recursion satisfies the difference equation of the direct form, when its
state holds `s0 = b1*x1 + b2*x2 - a1*y1 - a2*y2` and `s1 = b2*x1 - a2*y1` for the two previous
inputs `x1`, `x2` and outputs `y1`, `y2`.  Inputs and outputs are written with their two
predecessors in front, so that index `n + 2` is sample `n`. -/
theorem transposedRecursion_direct (b0 b1 b2 a1 a2 : α) (xs : List α) :
    ∀ (x1 x2 y1 y2 s0 s1 : α), s0 = b1 * x1 + b2 * x2 - a1 * y1 - a2 * y2 →
      s1 = b2 * x1 - a2 * y1 → ∀ n, n < xs.length →
      (y2 :: y1 :: transposedRecursion b0 b1 b2 a1 a2 s0 s1 xs).getD (n + 2) 0 =
        b0 * (x2 :: x1 :: xs).getD (n + 2) 0 + b1 * (x2 :: x1 :: xs).getD (n + 1) 0 +
          b2 * (x2 :: x1 :: xs).getD n 0 -
          a1 * (y2 :: y1 :: transposedRecursion b0 b1 b2 a1 a2 s0 s1 xs).getD (n + 1) 0 -
          a2 * (y2 :: y1 :: transposedRecursion b0 b1 b2 a1 a2 s0 s1 xs).getD n 0 := by
  induction xs with
  | nil =>
    intro x1 x2 y1 y2 s0 s1 _ _ n hn
    simp at hn
  | cons x rest ih =>
    intro x1 x2 y1 y2 s0 s1 h0 h1 n hn
    cases n with
    | zero =>
      simp only [transposedRecursion, List.getD_cons_succ, List.getD_cons_zero, zero_add]
      rw [h0]
      ring
    | succ m =>
      have hm : m < rest.length := by simpa using hn
      have hstep := ih x x1 (b0 * x + s0) y1
        (s1 + b1 * x - a1 * (b0 * x + s0)) (b2 * x - a2 * (b0 * x + s0))
        (by rw [h1]; ring) rfl m hm
      simp only [transposedRecursion, List.getD_cons_succ] at hstep ⊢
      exact hstep

/-- With two zeros in front, index `n + 1` is sample `n - 1`, or 0 when there is none. -/
theorem getD_padded_one (l : List α) (n : Nat) :
    ((0 : α) :: 0 :: l).getD (n + 1) 0 = if 1 ≤ n then l.getD (n - 1) 0 else 0 := by
  cases n with
  | zero => simp
  | succ m => simp

/-- With two zeros in front, index `n` is sample `n - 2`, or 0 when there is none. -/
theorem getD_padded_two (l : List α) (n : Nat) :
    ((0 : α) :: 0 :: l).getD n 0 = if 2 ≤ n then l.getD (n - 2) 0 else 0 := by
  cases n with
  | zero => simp
  | succ m =>
    cases m with
    | zero => simp
    | succ k => simp

/-- C24: for every biquad coefficient set and every input `x`, the output `y` of `applyIIR`
satisfies at every index `n` the direct-form difference equation
`y[n] = b0*x[n] + b1*x[n-1] + b2*x[n-2] - a1*y[n-1] - a2*y[n-2]`, where a term with a negative
index is 0. -/
theorem applyIIR_direct_form (b0 b1 b2 a1 a2 : α) (x : List α) :
    ∃ y, applyIIR x { b := [b0, b1, b2], a := [1, a1, a2] } = some y ∧
      y.length = x.length ∧
      ∀ n, n < x.length →
        y.getD n 0 =
          b0 * x.getD n 0 +
            b1 * (if 1 ≤ n then x.getD (n - 1) 0 else 0) +
            b2 * (if 2 ≤ n then x.getD (n - 2) 0 else 0) -
            a1 * (if 1 ≤ n then y.getD (n - 1) 0 else 0) -
            a2 * (if 2 ≤ n then y.getD (n - 2) 0 else 0) := by
  refine ⟨transposedRecursion b0 b1 b2 a1 a2 0 0 x,
    applyIIR_eq_transposedRecursion b0 b1 b2 1 a1 a2 x,
    transposedRecursion_length b0 b1 b2 a1 a2 x 0 0, ?_⟩
  intro n hn
  have h := transposedRecursion_direct b0 b1 b2 a1 a2 x 0 0 0 0 0 0 (by ring) (by ring) n hn
  rw [getD_padded_one x n, getD_padded_two x n,
    getD_padded_one (transposedRecursion b0 b1 b2 a1 a2 0 0 x) n,
    getD_padded_two (transposedRecursion b0 b1 b2 a1 a2 0 0 x) n] at h
  simpa only [List.getD_cons_succ] using h

/-- Witness for C24: the input `[1, 2, 3]` through `b = (1, 2, 3)`, `a = (1, 1/2, 1/3)`. -/
theorem applyIIR_direct_form_witness :
    ∃ y, applyIIR ([1, 2, 3] : List ℚ) { b := [1, 2, 3], a := [1, 1 / 2, 1 / 3] } = some y ∧
      y.length = ([1, 2, 3] : List ℚ).length ∧
      ∀ n, n < ([1, 2, 3] : List ℚ).length →
        y.getD n 0 =
          1 * ([1, 2, 3] : List ℚ).getD n 0 +
            2 * (if 1 ≤ n then ([1, 2, 3] : List ℚ).getD (n - 1) 0 else 0) +
            3 * (if 2 ≤ n then ([1, 2, 3] : List ℚ).getD (n - 2) 0 else 0) -
            1 / 2 * (if 1 ≤ n then y.getD (n - 1) 0 else 0) -
            1 / 3 * (if 2 ≤ n then y.getD (n - 2) 0 else 0) :=
  applyIIR_direct_form 1 2 3 (1 / 2) (1 / 3) [1, 2, 3]

/-- Once a section has failed, the remaining sections leave the failure in place. -/
theorem foldl_bind_none (sections : List (ButterworthCoeffs α)) :
    sections.foldl (fun acc c => acc.bind (fun r => applyIIR r c)) (none : Option (List α)) =
      none := by
  induction sections with
  | nil => rfl
  | cons c rest ih => simpa using ih

/-- The range-for loop of `applyCascadedBiquads` applies the sections from left to right. -/
theorem cascadeLoop_eq_foldl (sections : List (ButterworthCoeffs α)) (result : List α) :
    cascadeLoop result sections =
      sections.foldl (fun acc c => acc.bind (fun r => applyIIR r c)) (some result) := by
  induction sections generalizing result with
  | nil => rfl
  | cons c rest ih =>
    simp only [cascadeLoop, List.foldl_cons, Option.some_bind]
    cases h : applyIIR result c with
    | none => simp [foldl_bind_none]
    | some r => simp [ih]

/-- C25: `applyCascadedBiquads(x, [c1, ..., ck])` is
`applyIIR(... applyIIR(applyIIR(x, c1), c2) ..., ck)`: the sections are applied from left to
right, each to the complete output of the one before, each through its own call of `applyIIR`
(which starts from the zero state); for the empty list of sections the result is `x`. -/
theorem applyCascadedBiquads_eq_iterated (x : List α) (sections : List (ButterworthCoeffs α)) :
    applyCascadedBiquads x sections =
      sections.foldl (fun acc c => acc.bind (fun r => applyIIR r c)) (some x) ∧
    applyCascadedBiquads x ([] : List (ButterworthCoeffs α)) = some x ∧
    (∀ c1 c2 c3 : ButterworthCoeffs α,
      applyCascadedBiquads x [c1, c2, c3] =
        ((applyIIR x c1).bind (fun r => applyIIR r c2)).bind (fun r => applyIIR r c3)) := by
  have hmain : ∀ secs : List (ButterworthCoeffs α), applyCascadedBiquads x secs =
      secs.foldl (fun acc c => acc.bind (fun r => applyIIR r c)) (some x) := by
    intro secs
    unfold applyCascadedBiquads
    cases secs with
    | nil => rfl
    | cons c rest =>
      simp only [List.isEmpty_cons, Bool.false_eq_true, if_false]
      exact cascadeLoop_eq_foldl (c :: rest) x
  refine ⟨hmain sections, rfl, ?_⟩
  intro c1 c2 c3
  rw [hmain]
  rfl

/-- The recursion of the specification is linear in its input and its state. -/
theorem transposedRecursion_linear (b0 b1 b2 a1 a2 p q : α) (x : List α) :
    ∀ (z : List α) (s0 s1 t0 t1 : α),
      transposedRecursion b0 b1 b2 a1 a2 (p * s0 + q * t0) (p * s1 + q * t1)
          (List.zipWith (fun u v => p * u + q * v) x z) =
        List.zipWith (fun u v => p * u + q * v)
          (transposedRecursion b0 b1 b2 a1 a2 s0 s1 x)
          (transposedRecursion b0 b1 b2 a1 a2 t0 t1 z) := by
  induction x with
  | nil =>
    intro z s0 s1 t0 t1
    simp [transposedRecursion]
  | cons u rest ih =>
    intro z s0 s1 t0 t1
    cases z with
    | nil => simp [transposedRecursion]
    | cons v restz =>
      simp only [List.zipWith_cons_cons, transposedRecursion]
      have hy : b0 * (p * u + q * v) + (p * s0 + q * t0) =
          p * (b0 * u + s0) + q * (b0 * v + t0) := by ring
      have hs0 : p * s1 + q * t1 + b1 * (p * u + q * v) -
            a1 * (p * (b0 * u + s0) + q * (b0 * v + t0)) =
          p * (s1 + b1 * u - a1 * (b0 * u + s0)) +
            q * (t1 + b1 * v - a1 * (b0 * v + t0)) := by ring
      have hs1 : b2 * (p * u + q * v) - a2 * (p * (b0 * u + s0) + q * (b0 * v + t0)) =
          p * (b2 * u - a2 * (b0 * u + s0)) + q * (b2 * v - a2 * (b0 * v + t0)) := by ring
      rw [hy, hs0, hs1, ih]

/-- From the zero state the recursion of the specification maps zeros to zeros. -/
theorem transposedRecursion_zero (b0 b1 b2 a1 a2 : α) (n : Nat) :
    transposedRecursion b0 b1 b2 a1 a2 0 0 (List.replicate n 0) = List.replicate n 0 := by
  induction n with
  | zero => rfl
  | succ m ih => simp [List.replicate_succ, transposedRecursion, ih]

/-- C30: `applyIIR` is linear in its input.  For a biquad coefficient set, sequences `x` and
`z` of equal length and scalars `p` and `q`, the output for `p*x + q*z` is `p` times the output
for `x` plus `q` times the output for `z`, element by element; an all-zero input gives an
all-zero output. -/
theorem applyIIR_linear (b0 b1 b2 a0 a1 a2 p q : α) (x z : List α)
    (_hlen : x.length = z.length) :
    (∃ yx yz, applyIIR x { b := [b0, b1, b2], a := [a0, a1, a2] } = some yx ∧
      applyIIR z { b := [b0, b1, b2], a := [a0, a1, a2] } = some yz ∧
      applyIIR (List.zipWith (fun u v => p * u + q * v) x z)
          { b := [b0, b1, b2], a := [a0, a1, a2] } =
        some (List.zipWith (fun u v => p * u + q * v) yx yz)) ∧
    ∀ n : Nat, applyIIR (List.replicate n (0 : α)) { b := [b0, b1, b2], a := [a0, a1, a2] } =
      some (List.replicate n 0) := by
  constructor
  · refine ⟨_, _, applyIIR_eq_transposedRecursion b0 b1 b2 a0 a1 a2 x,
      applyIIR_eq_transposedRecursion b0 b1 b2 a0 a1 a2 z, ?_⟩
    rw [applyIIR_eq_transposedRecursion]
    have h := transposedRecursion_linear b0 b1 b2 a1 a2 p q x z 0 0 0 0
    simp only [mul_zero, add_zero] at h
    rw [h]
  · intro n
    rw [applyIIR_eq_transposedRecursion, transposedRecursion_zero]

/-- Witness for C30: `2 * [1, 2, 3] + 3 * [4, 5, 6]` through `b = (1, 2, 3)`,
`a = (1, 1/2, 1/3)`. -/
theorem applyIIR_linear_witness :
    ∃ yx yz, applyIIR ([1, 2, 3] : List ℚ) { b := [1, 2, 3], a := [1, 1 / 2, 1 / 3] } =
        some yx ∧
      applyIIR ([4, 5, 6] : List ℚ) { b := [1, 2, 3], a := [1, 1 / 2, 1 / 3] } = some yz ∧
      applyIIR (List.zipWith (fun u v : ℚ => 2 * u + 3 * v) [1, 2, 3] [4, 5, 6])
          { b := [1, 2, 3], a := [1, 1 / 2, 1 / 3] } =
        some (List.zipWith (fun u v : ℚ => 2 * u + 3 * v) yx yz) :=
  (applyIIR_linear (1 : ℚ) 2 3 1 (1 / 2) (1 / 3) 2 3 [1, 2, 3] [4, 5, 6] rfl).1

end DSPFilters

/-! ## Gain at zero frequency -/

namespace DSPFilters

/-- For a positive sample rate and a cutoff below half of it, the prewarped frequency computed
with the real tangent and pi is positive. -/
theorem prewarp_pos (sampleRate cutoff : ℝ) (hsr : 0 < sampleRate) (hc0 : 0 < cutoff)
    (hc1 : cutoff < sampleRate / 2) : 0 < Real.tan (Real.pi * cutoff / sampleRate) := by
  have hpi := Real.pi_pos
  apply Real.tan_pos_of_pos_of_lt_pi_div_two
  · positivity
  · rw [div_lt_iff₀ hsr]
    have : Real.pi * cutoff < Real.pi * (sampleRate / 2) := mul_lt_mul_of_pos_left hc1 hpi
    linarith

/-- The denominator sum `1 + a1 + a2` of both designs is `4 w^2 / a0`. -/
theorem denominator_sum (s w : ℝ) (ha0 : 1 + s * w + w * w ≠ 0) :
    1 + 2 * (w * w - 1) / (1 + s * w + w * w) + (1 - s * w + w * w) / (1 + s * w + w * w) =
      4 * (w * w) / (1 + s * w + w * w) := by
  field_simp
  ring

/-- C26: the highpass removes DC.  For a positive sample rate and a cutoff strictly between 0
and half the sample rate, with the real tangent, square root and pi, the coefficients
`(b0, b1, b2; 1, a1, a2)` returned by `designHighpass` satisfy `b0 + b1 + b2 = 0` and
`1 + a1 + a2 ≠ 0`. -/
theorem designHighpass_zero_dc_gain (sampleRate cutoff : ℝ) (order : Int) (hsr : 0 < sampleRate)
    (hc0 : 0 < cutoff) (hc1 : cutoff < sampleRate / 2) :
    ∃ b0 b1 b2 a1 a2 : ℝ,
      designHighpass (MathOps.mk Real.tan Real.sqrt Real.pi (fun _ => "")) sampleRate cutoff
          order = { b := [b0, b1, b2], a := [1, a1, a2] } ∧
      b0 + b1 + b2 = 0 ∧ 1 + a1 + a2 ≠ 0 := by
  have hw := prewarp_pos sampleRate cutoff hsr hc0 hc1
  have hs : 0 < Real.sqrt 2 := Real.sqrt_pos.mpr (by norm_num)
  have ha0 : 0 < 1 + Real.sqrt 2 * Real.tan (Real.pi * cutoff / sampleRate) +
      Real.tan (Real.pi * cutoff / sampleRate) * Real.tan (Real.pi * cutoff / sampleRate) := by
    have := mul_pos hs hw
    have := mul_pos hw hw
    linarith
  refine ⟨_, _, _, _, _, rfl, ?_, ?_⟩
  · simp only [prewarpFrequency]
    ring
  · simp only [prewarpFrequency]
    rw [denominator_sum _ _ (ne_of_gt ha0)]
    exact ne_of_gt (div_pos (mul_pos (by norm_num) (mul_pos hw hw)) ha0)

/-- Witness for C26: the parameters of the highpass test, sample rate 2000 and cutoff 5. -/
theorem designHighpass_zero_dc_gain_witness :
    ∃ b0 b1 b2 a1 a2 : ℝ,
      designHighpass (MathOps.mk Real.tan Real.sqrt Real.pi (fun _ => "")) 2000 5 2 =
        { b := [b0, b1, b2], a := [1, a1, a2] } ∧
      b0 + b1 + b2 = 0 ∧ 1 + a1 + a2 ≠ 0 :=
  designHighpass_zero_dc_gain 2000 5 2 (by norm_num) (by norm_num) (by norm_num)

/-- C27: the lowpass passes DC unchanged.  For a positive sample rate and a cutoff strictly
between 0 and half the sample rate, with the real tangent, square root and pi, the coefficients
`(b0, b1, b2; 1, a1, a2)` returned by `designLowpass` satisfy `b0 + b1 + b2 = 1 + a1 + a2`, and
both sides are different from 0. -/
theorem designLowpass_unit_dc_gain (sampleRate cutoff : ℝ) (order : Int) (hsr : 0 < sampleRate)
    (hc0 : 0 < cutoff) (hc1 : cutoff < sampleRate / 2) :
    ∃ b0 b1 b2 a1 a2 : ℝ,
      designLowpass (MathOps.mk Real.tan Real.sqrt Real.pi (fun _ => "")) sampleRate cutoff
          order = { b := [b0, b1, b2], a := [1, a1, a2] } ∧
      b0 + b1 + b2 = 1 + a1 + a2 ∧ b0 + b1 + b2 ≠ 0 ∧ 1 + a1 + a2 ≠ 0 := by
  have hw := prewarp_pos sampleRate cutoff hsr hc0 hc1
  have hs : 0 < Real.sqrt 2 := Real.sqrt_pos.mpr (by norm_num)
  have ha0 : 0 < 1 + Real.sqrt 2 * Real.tan (Real.pi * cutoff / sampleRate) +
      Real.tan (Real.pi * cutoff / sampleRate) * Real.tan (Real.pi * cutoff / sampleRate) := by
    have := mul_pos hs hw
    have := mul_pos hw hw
    linarith
  have hpos : 0 < 4 * (Real.tan (Real.pi * cutoff / sampleRate) *
      Real.tan (Real.pi * cutoff / sampleRate)) /
      (1 + Real.sqrt 2 * Real.tan (Real.pi * cutoff / sampleRate) +
        Real.tan (Real.pi * cutoff / sampleRate) * Real.tan (Real.pi * cutoff / sampleRate)) :=
    div_pos (mul_pos (by norm_num) (mul_pos hw hw)) ha0
  have hb : ∀ s w : ℝ, w * w / (1 + s * w + w * w) + 2 * (w * w) / (1 + s * w + w * w) +
      w * w / (1 + s * w + w * w) = 4 * (w * w) / (1 + s * w + w * w) := by
    intro s w
    ring
  refine ⟨_, _, _, _, _, rfl, ?_, ?_, ?_⟩
  · simp only [prewarpFrequency]
    rw [denominator_sum _ _ (ne_of_gt ha0), hb]
  · simp only [prewarpFrequency]
    rw [hb]
    exact ne_of_gt hpos
  · simp only [prewarpFrequency]
    rw [denominator_sum _ _ (ne_of_gt ha0)]
    exact ne_of_gt hpos

/-- Witness for C27: the parameters of the lowpass test, sample rate 2000 and cutoff 100. -/
theorem designLowpass_unit_dc_gain_witness :
    ∃ b0 b1 b2 a1 a2 : ℝ,
      designLowpass (MathOps.mk Real.tan Real.sqrt Real.pi (fun _ => "")) 2000 100 4 =
        { b := [b0, b1, b2], a := [1, a1, a2] } ∧
      b0 + b1 + b2 = 1 + a1 + a2 ∧ b0 + b1 + b2 ≠ 0 ∧ 1 + a1 + a2 ≠ 0 :=
  designLowpass_unit_dc_gain 2000 100 4 (by norm_num) (by norm_num) (by norm_num)

end DSPFilters

/-! ## The error slot on successful calls, and odd orders -/

namespace DSPFilters

variable {α : Type} [LinearOrderedField α]

/-- A lowpass or highpass request that passes the checks returns with `lastError` as it was,
and its result has the length of the input. -/
theorem applyFilter_primitive_keeps_error (ops : MathOps α) (e : String) (data : List α)
    (sampleRate : α) (type : FilterType) (freq1 freq2 : α) (order : Int)
    (hd : data ≠ []) (ho : ¬ (order ≤ 0 ∨ order > 8))
    (hv : (validateParameters ops e sampleRate freq1 freq2).1 = true)
    (ht : type = FilterType.LOWPASS ∨ type = FilterType.HIGHPASS) :
    ∃ out, applyFilter ops e data sampleRate type freq1 freq2 order = some (out, e) ∧
      out.length = data.length := by
  obtain ⟨out, hout, hlen⟩ :=
    applyCascadedBiquads_some_of_wellformed
      (designBiquadSections ops type sampleRate freq1 freq2 order)
      (designBiquadSections_wellformed ops type sampleRate freq1 freq2 order ht) data
  refine ⟨out, ?_, hlen⟩
  rw [applyFilter_primitive_of_valid ops e data sampleRate type freq1 freq2 order hd ho hv ht,
    hout]
  rfl

/-- A single frequency strictly between 0 and half the sample rate passes validation when no
second frequency is supplied. -/
theorem validateParameters_of_single (ops : MathOps α) (e : String) (sampleRate freq : α)
    (h0 : 0 < freq) (h1 : freq < sampleRate / 2) :
    (validateParameters ops e sampleRate freq 0).1 = true :=
  (validateParameters_eq_true_iff ops e sampleRate freq 0).mpr
    ⟨by linarith, h0, h1, Or.inl le_rfl⟩

/-- A bandpass request with `0 < freq1 < freq2 < sampleRate / 2` returns with `lastError` as it
was. -/
theorem applyFilter_bandpass_keeps_error (ops : MathOps α) (e : String) (data : List α)
    (sampleRate freq1 freq2 : α) (order : Int)
    (hd : data ≠ []) (ho : ¬ (order ≤ 0 ∨ order > 8))
    (h1 : 0 < freq1) (h12 : freq1 < freq2) (h2 : freq2 < sampleRate / 2) :
    ∃ out, applyFilter ops e data sampleRate FilterType.BANDPASS freq1 freq2 order =
        some (out, e) ∧ out.length = data.length := by
  have hv := validateParameters_of_band ops e sampleRate freq1 freq2 h1 h12 h2
  obtain ⟨temp, htemp, hlen1⟩ :=
    applyFilter_primitive_keeps_error ops e data sampleRate FilterType.HIGHPASS freq1 0 order
      hd ho (validateParameters_of_single ops e sampleRate freq1 h1 (lt_trans h12 h2))
      (Or.inr rfl)
  have htne : temp ≠ [] := by
    intro h
    rw [h] at hlen1
    exact hd (List.length_eq_zero.mp hlen1.symm)
  obtain ⟨out, hout, hlen2⟩ :=
    applyFilter_primitive_keeps_error ops e temp sampleRate FilterType.LOWPASS freq2 0 order
      htne ho (validateParameters_of_single ops e sampleRate freq2 (lt_trans h1 h12) h2)
      (Or.inl rfl)
  refine ⟨out, ?_, by rw [hlen2, hlen1]⟩
  rw [applyFilter_bandpass_of_valid ops e data sampleRate freq1 freq2 order hd ho hv,
    highpass_eq, htemp]
  simp only [Option.some_bind, lowpass_eq, hout]

/-- A notch request with `0 < freq1 < freq2 < sampleRate / 2` returns with `lastError` as it
was. -/
theorem applyFilter_notch_keeps_error (ops : MathOps α) (e : String) (data : List α)
    (sampleRate freq1 freq2 : α) (order : Int)
    (hd : data ≠ []) (ho : ¬ (order ≤ 0 ∨ order > 8))
    (h1 : 0 < freq1) (h12 : freq1 < freq2) (h2 : freq2 < sampleRate / 2) :
    ∃ out, applyFilter ops e data sampleRate FilterType.NOTCH freq1 freq2 order =
        some (out, e) := by
  have hv := validateParameters_of_band ops e sampleRate freq1 freq2 h1 h12 h2
  obtain ⟨bp, hbp, hlen⟩ :=
    applyFilter_bandpass_keeps_error ops e data sampleRate freq1 freq2 order hd ho h1 h12 h2
  have hlt : ¬ (bp.length < data.length) := by omega
  refine ⟨List.zipWith (fun d p => d - p) data bp, ?_⟩
  rw [applyFilter_notch_of_valid ops e data sampleRate freq1 freq2 order hd ho hv,
    bandpass_eq, hbp]
  simp only [Option.some_bind, if_neg hlt]

/-- C28 as stated fails: a lowpass request through `applyFilter` with a non-empty input, order
4, sample rate 1000 and `freq1 = 100` meets every condition of the claim, yet with
`freq2 = 50` the call overwrites the empty `lastError` with a message. -/
theorem applyFilter_lowpass_bad_freq2_sets_error :
    applyFilter (MathOps.mk Real.tan Real.sqrt Real.pi (fun _ => "")) ""
        [1] 1000 FilterType.LOWPASS 100 50 4 =
      some ([1], "High cutoff must be greater than low cutoff") ∧
    "High cutoff must be greater than low cutoff" ≠ "" := by
  refine ⟨?_, by decide⟩
  have ho : ¬ ((4 : Int) ≤ 0 ∨ (4 : Int) > 8) := by decide
  have h1 : ¬ ((1000 : ℝ) ≤ 0) := by norm_num
  have h2 : ¬ ((100 : ℝ) ≤ 0 ∨ (100 : ℝ) ≥ 1000 / 2) := by norm_num
  have h3 : ¬ ((50 : ℝ) > 0 ∧ ((50 : ℝ) ≤ 0 ∨ (50 : ℝ) ≥ 1000 / 2)) := by norm_num
  have h4 : (50 : ℝ) > 0 ∧ (50 : ℝ) ≤ 100 := by norm_num
  have hval : validateParameters (MathOps.mk Real.tan Real.sqrt Real.pi (fun _ => "")) ""
      (1000 : ℝ) 100 50 = (false, "High cutoff must be greater than low cutoff") := by
    unfold validateParameters
    simp only [if_neg h1, if_neg h2, if_neg h3, if_pos h4]
  rw [applyFilter_of_invalid _ "" [1] 1000 _ 100 50 4 (by simp) ho (by rw [hval]), hval]

/-- C28, amended: a call with a non-empty input, an order from 1 to 8 and
`0 < freq1 < sampleRate / 2` leaves `lastError` exactly as it was, whatever its prior value,
when in addition the second frequency is acceptable: for `applyFilter` with type lowpass or
highpass, `freq2 <= 0` or `freq1 < freq2 < sampleRate / 2`; for bandpass and notch,
`freq1 < freq2 < sampleRate / 2`.  The wrappers `lowpass` and `highpass` pass `freq2 = 0` and
need no further condition. -/
theorem successful_call_keeps_lastError (ops : MathOps α) (e : String) (data : List α)
    (sampleRate freq1 freq2 : α) (order : Int)
    (hd : data ≠ []) (ho1 : 1 ≤ order) (ho8 : order ≤ 8) (_hsr : 0 < sampleRate)
    (h1 : 0 < freq1) (h1n : freq1 < sampleRate / 2) :
    ((freq2 ≤ 0 ∨ (freq1 < freq2 ∧ freq2 < sampleRate / 2)) →
      (∃ out, applyFilter ops e data sampleRate FilterType.LOWPASS freq1 freq2 order =
        some (out, e)) ∧
      (∃ out, applyFilter ops e data sampleRate FilterType.HIGHPASS freq1 freq2 order =
        some (out, e))) ∧
    ((freq1 < freq2 ∧ freq2 < sampleRate / 2) →
      (∃ out, applyFilter ops e data sampleRate FilterType.BANDPASS freq1 freq2 order =
        some (out, e)) ∧
      (∃ out, applyFilter ops e data sampleRate FilterType.NOTCH freq1 freq2 order =
        some (out, e)) ∧
      (∃ out, bandpass ops e data sampleRate freq1 freq2 order = some (out, e)) ∧
      (∃ out, notch ops e data sampleRate freq1 freq2 order = some (out, e))) ∧
    (∃ out, lowpass ops e data sampleRate freq1 order = some (out, e)) ∧
    (∃ out, highpass ops e data sampleRate freq1 order = some (out, e)) := by
  have ho : ¬ (order ≤ 0 ∨ order > 8) := by omega
  refine ⟨?_, ?_, ?_, ?_⟩
  · intro h2
    have hv : (validateParameters ops e sampleRate freq1 freq2).1 = true :=
      (validateParameters_eq_true_iff ops e sampleRate freq1 freq2).mpr
        ⟨by linarith, h1, h1n, h2.imp id (fun h => ⟨h.2, h.1⟩)⟩
    constructor
    · obtain ⟨out, hout, -⟩ := applyFilter_primitive_keeps_error ops e data sampleRate
        FilterType.LOWPASS freq1 freq2 order hd ho hv (Or.inl rfl)
      exact ⟨out, hout⟩
    · obtain ⟨out, hout, -⟩ := applyFilter_primitive_keeps_error ops e data sampleRate
        FilterType.HIGHPASS freq1 freq2 order hd ho hv (Or.inr rfl)
      exact ⟨out, hout⟩
  · intro h2
    obtain ⟨bp, hbp, -⟩ := applyFilter_bandpass_keeps_error ops e data sampleRate freq1 freq2
      order hd ho h1 h2.1 h2.2
    obtain ⟨nt, hnt⟩ := applyFilter_notch_keeps_error ops e data sampleRate freq1 freq2
      order hd ho h1 h2.1 h2.2
    exact ⟨⟨bp, hbp⟩, ⟨nt, hnt⟩, ⟨bp, by rw [bandpass_eq, hbp]⟩, ⟨nt, by unfold notch; exact hnt⟩⟩
  · obtain ⟨out, hout, -⟩ := applyFilter_primitive_keeps_error ops e data sampleRate
      FilterType.LOWPASS freq1 0 order hd ho
      (validateParameters_of_single ops e sampleRate freq1 h1 h1n) (Or.inl rfl)
    exact ⟨out, by rw [lowpass_eq, hout]⟩
  · obtain ⟨out, hout, -⟩ := applyFilter_primitive_keeps_error ops e data sampleRate
      FilterType.HIGHPASS freq1 0 order hd ho
      (validateParameters_of_single ops e sampleRate freq1 h1 h1n) (Or.inr rfl)
    exact ⟨out, by rw [highpass_eq, hout]⟩

/-- Witness for the amended C28: after a failed call has left the message "Filter order must
be between 1 and 8", a notch and a bandpass from 100 Hz to 200 Hz and a lowpass at 100 Hz on
`[1, 2, 3]` at 1000 Hz all return with that message still in place. -/
theorem successful_call_keeps_lastError_witness :
    (∃ out, notch (MathOps.mk Real.tan Real.sqrt Real.pi (fun _ => ""))
        "Filter order must be between 1 and 8" [1, 2, 3] 1000 100 200 4 =
        some (out, "Filter order must be between 1 and 8")) ∧
    (∃ out, bandpass (MathOps.mk Real.tan Real.sqrt Real.pi (fun _ => ""))
        "Filter order must be between 1 and 8" [1, 2, 3] 1000 100 200 4 =
        some (out, "Filter order must be between 1 and 8")) ∧
    (∃ out, lowpass (MathOps.mk Real.tan Real.sqrt Real.pi (fun _ => ""))
        "Filter order must be between 1 and 8" [1, 2, 3] 1000 100 4 =
        some (out, "Filter order must be between 1 and 8")) :=
  ⟨((successful_call_keeps_lastError (MathOps.mk Real.tan Real.sqrt Real.pi (fun _ => ""))
      "Filter order must be between 1 and 8" [1, 2, 3] 1000 100 200 4 (by simp) (by decide)
      (by decide) (by norm_num) (by norm_num) (by norm_num)).2.1
      ⟨by norm_num, by norm_num⟩).2.2.2,
   ((successful_call_keeps_lastError (MathOps.mk Real.tan Real.sqrt Real.pi (fun _ => ""))
      "Filter order must be between 1 and 8" [1, 2, 3] 1000 100 200 4 (by simp) (by decide)
      (by decide) (by norm_num) (by norm_num) (by norm_num)).2.1
      ⟨by norm_num, by norm_num⟩).2.2.1,
   (successful_call_keeps_lastError (MathOps.mk Real.tan Real.sqrt Real.pi (fun _ => ""))
      "Filter order must be between 1 and 8" [1, 2, 3] 1000 100 200 4 (by simp) (by decide)
      (by decide) (by norm_num) (by norm_num) (by norm_num)).2.2.1⟩

end DSPFilters

namespace DSPFilters

variable {α : Type} [LinearOrderedField α]

/-- Two orders with the same number of sections give the same sections. -/
theorem designBiquadSections_order_congr (ops : MathOps α) (type : FilterType)
    (sampleRate freq1 freq2 : α) (o1 o2 : Int)
    (hn : Int.tdiv (o1 + 1) 2 = Int.tdiv (o2 + 1) 2) :
    designBiquadSections ops type sampleRate freq1 freq2 o1 =
      designBiquadSections ops type sampleRate freq1 freq2 o2 := by
  rw [designBiquadSections_eq_replicate, designBiquadSections_eq_replicate, hn]

/-- Lowpass and highpass requests agree for two accepted orders with the same number of
sections. -/
theorem applyFilter_primitive_order_congr (ops : MathOps α) (e : String) (data : List α)
    (sampleRate : α) (type : FilterType) (freq1 freq2 : α) (o1 o2 : Int)
    (h1 : ¬ (o1 ≤ 0 ∨ o1 > 8)) (h2 : ¬ (o2 ≤ 0 ∨ o2 > 8))
    (hn : Int.tdiv (o1 + 1) 2 = Int.tdiv (o2 + 1) 2)
    (ht : type = FilterType.LOWPASS ∨ type = FilterType.HIGHPASS) :
    applyFilter ops e data sampleRate type freq1 freq2 o1 =
      applyFilter ops e data sampleRate type freq1 freq2 o2 := by
  by_cases hd : data = []
  · subst hd
    rw [applyFilter_of_empty, applyFilter_of_empty]
  cases hv : (validateParameters ops e sampleRate freq1 freq2).1 with
  | false =>
    rw [applyFilter_of_invalid ops e data sampleRate type freq1 freq2 o1 hd h1 hv,
      applyFilter_of_invalid ops e data sampleRate type freq1 freq2 o2 hd h2 hv]
  | true =>
    rw [applyFilter_primitive_of_valid ops e data sampleRate type freq1 freq2 o1 hd h1 hv ht,
      applyFilter_primitive_of_valid ops e data sampleRate type freq1 freq2 o2 hd h2 hv ht,
      designBiquadSections_order_congr ops type sampleRate freq1 freq2 o1 o2 hn]

/-- Bandpass requests agree for two accepted orders with the same number of sections. -/
theorem applyFilter_bandpass_order_congr (ops : MathOps α) (e : String) (data : List α)
    (sampleRate freq1 freq2 : α) (o1 o2 : Int)
    (h1 : ¬ (o1 ≤ 0 ∨ o1 > 8)) (h2 : ¬ (o2 ≤ 0 ∨ o2 > 8))
    (hn : Int.tdiv (o1 + 1) 2 = Int.tdiv (o2 + 1) 2) :
    applyFilter ops e data sampleRate FilterType.BANDPASS freq1 freq2 o1 =
      applyFilter ops e data sampleRate FilterType.BANDPASS freq1 freq2 o2 := by
  by_cases hd : data = []
  · subst hd
    rw [applyFilter_of_empty, applyFilter_of_empty]
  cases hv : (validateParameters ops e sampleRate freq1 freq2).1 with
  | false =>
    rw [applyFilter_of_invalid ops e data sampleRate _ freq1 freq2 o1 hd h1 hv,
      applyFilter_of_invalid ops e data sampleRate _ freq1 freq2 o2 hd h2 hv]
  | true =>
    rw [applyFilter_bandpass_of_valid ops e data sampleRate freq1 freq2 o1 hd h1 hv,
      applyFilter_bandpass_of_valid ops e data sampleRate freq1 freq2 o2 hd h2 hv,
      highpass_eq, highpass_eq,
      applyFilter_primitive_order_congr ops e data sampleRate FilterType.HIGHPASS freq1 0 o1 o2
        h1 h2 hn (Or.inr rfl)]
    congr 1
    funext temp
    rw [lowpass_eq, lowpass_eq,
      applyFilter_primitive_order_congr ops temp.2 temp.1 sampleRate FilterType.LOWPASS freq2 0
        o1 o2 h1 h2 hn (Or.inl rfl)]

/-- Every request agrees for two accepted orders with the same number of sections. -/
theorem applyFilter_order_congr (ops : MathOps α) (e : String) (data : List α)
    (sampleRate : α) (type : FilterType) (freq1 freq2 : α) (o1 o2 : Int)
    (h1 : ¬ (o1 ≤ 0 ∨ o1 > 8)) (h2 : ¬ (o2 ≤ 0 ∨ o2 > 8))
    (hn : Int.tdiv (o1 + 1) 2 = Int.tdiv (o2 + 1) 2) :
    applyFilter ops e data sampleRate type freq1 freq2 o1 =
      applyFilter ops e data sampleRate type freq1 freq2 o2 := by
  cases type with
  | LOWPASS =>
    exact applyFilter_primitive_order_congr ops e data sampleRate _ freq1 freq2 o1 o2 h1 h2 hn
      (Or.inl rfl)
  | HIGHPASS =>
    exact applyFilter_primitive_order_congr ops e data sampleRate _ freq1 freq2 o1 o2 h1 h2 hn
      (Or.inr rfl)
  | BANDPASS =>
    exact applyFilter_bandpass_order_congr ops e data sampleRate freq1 freq2 o1 o2 h1 h2 hn
  | NOTCH =>
    by_cases hd : data = []
    · subst hd
      rw [applyFilter_of_empty, applyFilter_of_empty]
    cases hv : (validateParameters ops e sampleRate freq1 freq2).1 with
    | false =>
      rw [applyFilter_of_invalid ops e data sampleRate _ freq1 freq2 o1 hd h1 hv,
        applyFilter_of_invalid ops e data sampleRate _ freq1 freq2 o2 hd h2 hv]
    | true =>
      rw [applyFilter_notch_of_valid ops e data sampleRate freq1 freq2 o1 hd h1 hv,
        applyFilter_notch_of_valid ops e data sampleRate freq1 freq2 o2 hd h2 hv,
        bandpass_eq, bandpass_eq,
        applyFilter_bandpass_order_congr ops e data sampleRate freq1 freq2 o1 o2 h1 h2 hn]

/-- C29: an odd order behaves exactly like the next even order.  For `k` from 1 to 4, every
filter type, input, sample rate, pair of frequencies and prior `lastError`, `applyFilter` with
order `2k - 1` returns the same sequence and leaves the same `lastError` as with order `2k`. -/
theorem applyFilter_odd_order_eq_next_even (ops : MathOps α) (e : String) (data : List α)
    (sampleRate : α) (type : FilterType) (freq1 freq2 : α) (k : Int)
    (hk1 : 1 ≤ k) (hk4 : k ≤ 4) :
    applyFilter ops e data sampleRate type freq1 freq2 (2 * k - 1) =
      applyFilter ops e data sampleRate type freq1 freq2 (2 * k) := by
  apply applyFilter_order_congr
  · omega
  · omega
  · interval_cases k <;> decide

/-- Witness for C29: order 3 and order 4 for a notch from 100 Hz to 200 Hz on `[1, 2, 3]` at
1000 Hz, with the real tangent, square root and pi. -/
theorem applyFilter_odd_order_eq_next_even_witness :
    applyFilter (MathOps.mk Real.tan Real.sqrt Real.pi (fun _ => "")) "" [1, 2, 3] 1000
        FilterType.NOTCH 100 200 (2 * 2 - 1) =
      applyFilter (MathOps.mk Real.tan Real.sqrt Real.pi (fun _ => "")) "" [1, 2, 3] 1000
        FilterType.NOTCH 100 200 (2 * 2) :=
  applyFilter_odd_order_eq_next_even _ "" [1, 2, 3] 1000 FilterType.NOTCH 100 200 2
    (by decide) (by decide)

end DSPFilters

/-! ## The coefficient sets that reach `applyIIR` -/

namespace DSPFilters

variable {α : Type} [LinearOrderedField α]

/-- The loop of `applyCascadedBiquads` calls `applyIIR` with sections of its list only. -/
theorem cascadeCalls_subset (sections : List (ButterworthCoeffs α)) (result : List α)
    (c : ButterworthCoeffs α) (hc : c ∈ cascadeCalls result sections) : c ∈ sections := by
  induction sections generalizing result with
  | nil => simp [cascadeCalls] at hc
  | cons sec rest ih =>
    simp only [cascadeCalls, List.mem_cons] at hc
    rcases hc with rfl | hc
    · exact List.mem_cons_self _ _
    · cases h : applyIIR result sec with
      | none =>
        rw [h] at hc
        simp at hc
      | some r =>
        rw [h] at hc
        exact List.mem_cons_of_mem _ (ih r hc)

/-- On well-formed sections every call returns, so the loop calls `applyIIR` with every
section. -/
theorem cascadeCalls_eq_of_wellformed (sections : List (ButterworthCoeffs α))
    (h : ∀ c ∈ sections, 2 ≤ c.a.length ∧ c.a.length ≤ c.b.length) (result : List α) :
    cascadeCalls result sections = sections := by
  induction sections generalizing result with
  | nil => rfl
  | cons sec rest ih =>
    obtain ⟨r, hr, -⟩ := applyIIR_some_of_wellformed result sec
      (h sec (List.mem_cons_self _ _)).1 (h sec (List.mem_cons_self _ _)).2
    simp only [cascadeCalls, hr]
    rw [ih (fun d hd => h d (List.mem_cons_of_mem _ hd)) r]

/-- A designed lowpass or highpass section has three numerator coefficients, three denominator
coefficients, and leading denominator coefficient 1. -/
theorem designSection_shape (ops : MathOps α) (type : FilterType) (sampleRate freq1 : α)
    (ht : type = FilterType.LOWPASS ∨ type = FilterType.HIGHPASS) :
    (designSection ops type sampleRate freq1).b.length = 3 ∧
      (designSection ops type sampleRate freq1).a.length = 3 ∧
      (designSection ops type sampleRate freq1).a.head? = some 1 := by
  rcases ht with h | h <;> subst h <;> simp [designSection, designLowpass, designHighpass]

/-- A lowpass or highpass request calls `applyIIR` with designed sections only. -/
theorem iirCalls_primitive_mem (ops : MathOps α) (e : String) (data : List α)
    (sampleRate : α) (type : FilterType) (freq1 freq2 : α) (order : Int)
    (ht : type = FilterType.LOWPASS ∨ type = FilterType.HIGHPASS) (c : ButterworthCoeffs α)
    (hc : c ∈ iirCalls ops e data sampleRate type freq1 freq2 order) :
    c.b.length = 3 ∧ c.a.length = 3 ∧ c.a.head? = some 1 := by
  have hb : ¬ (type = FilterType.BANDPASS) := by
    rcases ht with h | h <;> rw [h] <;> decide
  have hn : ¬ (type = FilterType.NOTCH) := by
    rcases ht with h | h <;> rw [h] <;> decide
  rw [iirCalls] at hc
  by_cases h1 : data.isEmpty = true
  · rw [if_pos h1] at hc
    exact absurd hc (List.not_mem_nil _)
  rw [if_neg h1] at hc
  by_cases h2 : order ≤ 0 ∨ order > 8
  · rw [if_pos h2] at hc
    exact absurd hc (List.not_mem_nil _)
  rw [if_neg h2] at hc
  by_cases h3 : (validateParameters ops e sampleRate freq1 freq2).1 = false
  · rw [if_pos h3] at hc
    exact absurd hc (List.not_mem_nil _)
  rw [if_neg h3, dif_neg hb, dif_neg hn] at hc
  have hmem := cascadeCalls_subset _ _ _ hc
  rw [designBiquadSections_eq_replicate] at hmem
  rw [List.eq_of_mem_replicate hmem]
  exact designSection_shape ops type sampleRate freq1 ht

/-- A bandpass request calls `applyIIR` with designed sections only. -/
theorem iirCalls_bandpass_mem (ops : MathOps α) (e : String) (data : List α)
    (sampleRate freq1 freq2 : α) (order : Int) (c : ButterworthCoeffs α)
    (hc : c ∈ iirCalls ops e data sampleRate FilterType.BANDPASS freq1 freq2 order) :
    c.b.length = 3 ∧ c.a.length = 3 ∧ c.a.head? = some 1 := by
  rw [iirCalls] at hc
  by_cases h1 : data.isEmpty = true
  · rw [if_pos h1] at hc
    exact absurd hc (List.not_mem_nil _)
  rw [if_neg h1] at hc
  by_cases h2 : order ≤ 0 ∨ order > 8
  · rw [if_pos h2] at hc
    exact absurd hc (List.not_mem_nil _)
  rw [if_neg h2] at hc
  by_cases h3 : (validateParameters ops e sampleRate freq1 freq2).1 = false
  · rw [if_pos h3] at hc
    exact absurd hc (List.not_mem_nil _)
  rw [if_neg h3, dif_pos rfl, List.mem_append] at hc
  rcases hc with hc | hc
  · exact iirCalls_primitive_mem ops _ data sampleRate _ freq1 0 order (Or.inr rfl) c hc
  · cases hh : highpass ops (validateParameters ops e sampleRate freq1 freq2).2 data
        sampleRate freq1 order with
    | none =>
      rw [hh] at hc
      exact absurd hc (List.not_mem_nil _)
    | some temp =>
      rw [hh] at hc
      exact iirCalls_primitive_mem ops _ _ sampleRate _ freq2 0 order (Or.inl rfl) c hc

/-- Every request calls `applyIIR` with designed sections only. -/
theorem iirCalls_mem (ops : MathOps α) (e : String) (data : List α)
    (sampleRate : α) (type : FilterType) (freq1 freq2 : α) (order : Int)
    (c : ButterworthCoeffs α)
    (hc : c ∈ iirCalls ops e data sampleRate type freq1 freq2 order) :
    c.b.length = 3 ∧ c.a.length = 3 ∧ c.a.head? = some 1 := by
  cases type with
  | LOWPASS =>
    exact iirCalls_primitive_mem ops e data sampleRate _ freq1 freq2 order (Or.inl rfl) c hc
  | HIGHPASS =>
    exact iirCalls_primitive_mem ops e data sampleRate _ freq1 freq2 order (Or.inr rfl) c hc
  | BANDPASS => exact iirCalls_bandpass_mem ops e data sampleRate freq1 freq2 order c hc
  | NOTCH =>
    rw [iirCalls] at hc
    by_cases h1 : data.isEmpty = true
    · rw [if_pos h1] at hc
      exact absurd hc (List.not_mem_nil _)
    rw [if_neg h1] at hc
    by_cases h2 : order ≤ 0 ∨ order > 8
    · rw [if_pos h2] at hc
      exact absurd hc (List.not_mem_nil _)
    rw [if_neg h2] at hc
    by_cases h3 : (validateParameters ops e sampleRate freq1 freq2).1 = false
    · rw [if_pos h3] at hc
      exact absurd hc (List.not_mem_nil _)
    have hne : ¬ (FilterType.NOTCH = FilterType.BANDPASS) := by decide
    rw [if_neg h3, dif_neg hne, dif_pos rfl] at hc
    exact iirCalls_bandpass_mem ops _ data sampleRate freq1 freq2 order c hc

/-- A lowpass or highpass request that passes the checks calls `applyIIR` once with every
designed section. -/
theorem iirCalls_primitive_of_valid (ops : MathOps α) (e : String) (data : List α)
    (sampleRate : α) (type : FilterType) (freq1 freq2 : α) (order : Int)
    (hd : data ≠ []) (ho : ¬ (order ≤ 0 ∨ order > 8))
    (hv : (validateParameters ops e sampleRate freq1 freq2).1 = true)
    (ht : type = FilterType.LOWPASS ∨ type = FilterType.HIGHPASS) :
    iirCalls ops e data sampleRate type freq1 freq2 order =
      designBiquadSections ops type sampleRate freq1 freq2 order := by
  have hvf : ¬ (validateParameters ops e sampleRate freq1 freq2).1 = false := by
    rw [hv]; decide
  have hb : ¬ (type = FilterType.BANDPASS) := by
    rcases ht with h | h <;> rw [h] <;> decide
  have hn : ¬ (type = FilterType.NOTCH) := by
    rcases ht with h | h <;> rw [h] <;> decide
  rw [iirCalls]
  simp only [List.isEmpty_iff, if_neg hd, if_neg ho, if_neg hvf, dif_neg hb, dif_neg hn]
  exact cascadeCalls_eq_of_wellformed _
    (designBiquadSections_wellformed ops type sampleRate freq1 freq2 order ht) data

/-- C31: for every call of `applyFilter`, every coefficient set with which `applyIIR` is called
has exactly three numerator and three denominator coefficients with leading denominator
coefficient 1, so the state vector has two entries and `applyIIR` stays within bounds (it
returns) on every input.  The empty coefficient set, which is what `designBiquadSections`
pushes for the types bandpass and notch, is never among them. -/
theorem applyFilter_coefficients_in_bounds (ops : MathOps α) (e : String) (data : List α)
    (sampleRate : α) (type : FilterType) (freq1 freq2 : α) (order : Int) :
    (∀ c ∈ iirCalls ops e data sampleRate type freq1 freq2 order,
      c.b.length = 3 ∧ c.a.length = 3 ∧ c.a.head? = some 1 ∧ c.a.length - 1 = 2 ∧
      ∀ d : List α, ∃ out, applyIIR d c = some out) ∧
    ({ b := [], a := [] } : ButterworthCoeffs α) ∉
      iirCalls ops e data sampleRate type freq1 freq2 order ∧
    designSection ops FilterType.BANDPASS sampleRate freq1 = { b := [], a := [] } ∧
    designSection ops FilterType.NOTCH sampleRate freq1 = { b := [], a := [] } := by
  refine ⟨?_, ?_, rfl, rfl⟩
  · intro c hc
    obtain ⟨hb, ha, h1⟩ := iirCalls_mem ops e data sampleRate type freq1 freq2 order c hc
    refine ⟨hb, ha, h1, by omega, ?_⟩
    intro d
    obtain ⟨out, hout, -⟩ := applyIIR_some_of_wellformed d c (by omega) (by omega)
    exact ⟨out, hout⟩
  · intro hc
    have h := (iirCalls_mem ops e data sampleRate type freq1 freq2 order _ hc).1
    simp at h

/-- Witness for C31: a lowpass of order 4 at 100 Hz on `[1, 2, 3]` at 1000 Hz calls `applyIIR`
with the designed lowpass section, which has three and three coefficients. -/
theorem applyFilter_coefficients_in_bounds_witness :
    (designLowpass (MathOps.mk Real.tan Real.sqrt Real.pi (fun _ => "")) 1000 100 2) ∈
        iirCalls (MathOps.mk Real.tan Real.sqrt Real.pi (fun _ => "")) "" [1, 2, 3] 1000
          FilterType.LOWPASS 100 0 4 ∧
    (designLowpass (MathOps.mk Real.tan Real.sqrt Real.pi (fun _ => "")) 1000 100 2).b.length
        = 3 ∧
    (designLowpass (MathOps.mk Real.tan Real.sqrt Real.pi (fun _ => "")) 1000 100 2).a.length
        = 3 := by
  have hmem : (designLowpass (MathOps.mk Real.tan Real.sqrt Real.pi (fun _ => "")) 1000 100 2) ∈
      iirCalls (MathOps.mk Real.tan Real.sqrt Real.pi (fun _ => "")) "" [1, 2, 3] 1000
        FilterType.LOWPASS 100 0 4 := by
    rw [iirCalls_primitive_of_valid _ "" [1, 2, 3] 1000 FilterType.LOWPASS 100 0 4 (by simp)
      (by decide) (validateParameters_of_single _ "" 1000 100 (by norm_num) (by norm_num))
      (Or.inl rfl), designBiquadSections_eq_replicate]
    exact List.mem_replicate.mpr ⟨by decide, rfl⟩
  have h := (applyFilter_coefficients_in_bounds
    (MathOps.mk Real.tan Real.sqrt Real.pi (fun _ => "")) "" [1, 2, 3] 1000
    FilterType.LOWPASS 100 0 4).1 _ hmem
  exact ⟨hmem, h.1, h.2.1⟩

/-- C32: the normalising denominator of the filter design is never zero.  For every real `w`,
`1 + sqrt(2)*w + w^2` is at least `1/2`, hence positive; and whatever the tangent and the value
of pi, the coefficients returned by `designLowpass` and `designHighpass` are quotients by such
an `a0`. -/
theorem design_denominator_pos :
    (∀ w : ℝ, 1 / 2 ≤ 1 + Real.sqrt 2 * w + w ^ 2 ∧ 0 < 1 + Real.sqrt 2 * w + w ^ 2) ∧
    ∀ (tan : ℝ → ℝ) (pi : ℝ) (toStr : ℝ → String) (sampleRate cutoff : ℝ) (order : Int),
      ∃ w a0 : ℝ, w = prewarpFrequency (MathOps.mk tan Real.sqrt pi toStr) cutoff sampleRate ∧
        a0 = 1 + Real.sqrt 2 * w + w ^ 2 ∧ 1 / 2 ≤ a0 ∧ a0 ≠ 0 ∧
        designLowpass (MathOps.mk tan Real.sqrt pi toStr) sampleRate cutoff order =
          { b := [w ^ 2 / a0, 2 * w ^ 2 / a0, w ^ 2 / a0],
            a := [1, 2 * (w ^ 2 - 1) / a0, (1 - Real.sqrt 2 * w + w ^ 2) / a0] } ∧
        designHighpass (MathOps.mk tan Real.sqrt pi toStr) sampleRate cutoff order =
          { b := [1 / a0, -2 / a0, 1 / a0],
            a := [1, 2 * (w ^ 2 - 1) / a0, (1 - Real.sqrt 2 * w + w ^ 2) / a0] } := by
  have hmain : ∀ w : ℝ, 1 / 2 ≤ 1 + Real.sqrt 2 * w + w ^ 2 := by
    intro w
    have hs : Real.sqrt 2 * Real.sqrt 2 = 2 := Real.mul_self_sqrt (by norm_num)
    have hsq : 0 ≤ (w + Real.sqrt 2 / 2) ^ 2 := sq_nonneg _
    have hexp : (w + Real.sqrt 2 / 2) ^ 2 =
        w ^ 2 + Real.sqrt 2 * w + (Real.sqrt 2 * Real.sqrt 2) / 4 := by ring
    rw [hexp, hs] at hsq
    linarith
  refine ⟨fun w => ⟨hmain w, by linarith [hmain w]⟩, ?_⟩
  intro tan pi toStr sampleRate cutoff order
  have hw := hmain (prewarpFrequency (MathOps.mk tan Real.sqrt pi toStr) cutoff sampleRate)
  refine ⟨_, _, rfl, rfl, hw, by linarith, ?_, ?_⟩
  · simp only [designLowpass, pow_two]
  · simp only [designHighpass, pow_two]

end DSPFilters

/-! ## Order of the activity periods, and the identity of the statistics -/

namespace DataAnalyzer

variable {α : Type} [LinearOrderedField α]

/-- The periods of `detectActivity` are well-formed and separated: every end lies at or after
its start and at or below the last index, and a period ends strictly before every later one
starts. -/
theorem detectActivity_separated (x : List α) (threshold : α) :
    (∀ p ∈ detectActivity x threshold, p.1 ≤ p.2 ∧ p.2 ≤ x.length - 1) ∧
    (detectActivity x threshold).Pairwise (fun p q => p.2 < q.1) := by
  by_cases hx : x = []
  · subst hx
    have hd : detectActivity ([] : List α) threshold = [] := rfl
    rw [hd]
    exact ⟨by simp, List.Pairwise.nil⟩
  obtain ⟨active, start, periods, hinv, heq⟩ := detectActivity_eq x threshold hx
  obtain ⟨-, h2, h3, h4⟩ := hinv
  simp only at h2 h3 h4
  have hper : ∀ p ∈ periods, p.1 ≤ p.2 ∧ p.2 ≤ x.length - 1 := by
    intro p hp
    obtain ⟨hs, he, -⟩ := (h3 p.1 p.2).mp hp
    exact ⟨by omega, by omega⟩
  rw [heq]
  by_cases ha : active = true
  · obtain ⟨hs1, hs2, -⟩ := h2 ha
    rw [if_pos ha]
    constructor
    · intro p hp
      rcases List.mem_append.mp hp with hp | hp
      · exact hper p hp
      · rw [List.mem_singleton] at hp
        subst hp
        exact ⟨by show start ≤ x.length - 1; omega, le_rfl⟩
    · rw [List.pairwise_append]
      refine ⟨h4, List.pairwise_singleton _ _, ?_⟩
      intro p hp q hq
      rw [List.mem_singleton] at hq
      subst hq
      obtain ⟨-, he, -, hne, -⟩ := (h3 p.1 p.2).mp hp
      show p.2 < start
      by_contra hcon
      exact hne (hs2 p.2 (by omega) he)
  · rw [if_neg ha]
    exact ⟨hper, h4⟩

/-- C33: the list returned by `detectActivity` is ordered and non-overlapping.  Every period
`(s, e)` has `s <= e <= n - 1`, with `s < e` for every period other than the trailing one, and a
period ends strictly before the next one (and every later one) starts. -/
theorem detectActivity_ordered (x : List α) (threshold : α) :
    (∀ p ∈ detectActivity x threshold, p.1 ≤ p.2 ∧ p.2 ≤ x.length - 1) ∧
    (∀ p ∈ (if threshold < |x.getD (x.length - 1) 0| then (detectActivity x threshold).dropLast
        else detectActivity x threshold), p.1 < p.2) ∧
    (detectActivity x threshold).Chain' (fun p q => p.2 < q.1) ∧
    (detectActivity x threshold).Pairwise (fun p q => p.2 < q.1) := by
  obtain ⟨hall, hpair⟩ := detectActivity_separated x threshold
  refine ⟨hall, ?_, List.Pairwise.chain' hpair, hpair⟩
  by_cases hx : x = []
  · subst hx
    have hd : detectActivity ([] : List α) threshold = [] := rfl
    simp [hd]
  · obtain ⟨active, start, periods, hinv, heq⟩ := detectActivity_complete_eq x threshold hx
    rw [heq]
    intro p hp
    exact ((hinv.2.2.1 p.1 p.2).mp hp).1

/-- Witness for C33: on `[0, 2, 0, 3]` with threshold 1 the result is `[(1, 2), (3, 3)]`; the
first period ends before the second starts, and the trailing period has equal start and end. -/
theorem detectActivity_ordered_witness :
    detectActivity ([0, 2, 0, 3] : List ℚ) 1 = [(1, 2), (3, 3)] ∧
    (detectActivity ([0, 2, 0, 3] : List ℚ) 1).Pairwise (fun p q => p.2 < q.1) := by
  refine ⟨?_, (detectActivity_ordered ([0, 2, 0, 3] : List ℚ) 1).2.2.2⟩
  have h2 : |(2 : ℚ)| = 2 := abs_of_pos two_pos
  have h3 : |(3 : ℚ)| = 3 := abs_of_pos three_pos
  have h0 : |(0 : ℚ)| = 0 := abs_zero
  have h10 : ¬ ((1 : ℚ) < 0) := by norm_num
  simp [detectActivity, activityLoop, h2, h3, h0, h10]

/-- C34: the result of `detectActivity` does not determine which samples were active.  With
threshold 1 the sequences `[0, 2, 0]` and `[0, 2, 2]` both give `[(1, 2)]`, although index 2 is
inactive in the first and active in the second. -/
theorem detectActivity_not_injective :
    detectActivity ([0, 2, 0] : List ℚ) 1 = [(1, 2)] ∧
    detectActivity ([0, 2, 2] : List ℚ) 1 = [(1, 2)] ∧
    ([0, 2, 0] : List ℚ).length = ([0, 2, 2] : List ℚ).length ∧
    ¬ ((1 : ℚ) < |([0, 2, 0] : List ℚ).getD 2 0|) ∧
    (1 : ℚ) < |([0, 2, 2] : List ℚ).getD 2 0| := by
  have h2 : |(2 : ℚ)| = 2 := abs_of_pos two_pos
  have h0 : |(0 : ℚ)| = 0 := abs_zero
  have h10 : ¬ ((1 : ℚ) < 0) := by norm_num
  refine ⟨?_, ?_, rfl, ?_, ?_⟩
  · simp [detectActivity, activityLoop, h2, h0, h10]
  · simp [detectActivity, activityLoop, h2, h0, h10]
  · simp [h0]
  · simp [h2]

/-- The sum of the squared deviations from `m`, expanded. -/
theorem sum_sq_sub (x : List α) (m : α) :
    (x.map (fun v => (v - m) ^ 2)).sum =
      (x.map (fun v => v ^ 2)).sum - 2 * m * x.sum + (x.length : α) * m ^ 2 := by
  induction x with
  | nil => simp
  | cons v rest ih =>
    simp only [List.map_cons, List.sum_cons, List.length_cons, Nat.cast_add, Nat.cast_one, ih]
    ring

/-- A sum of squares is not negative. -/
theorem sum_sq_nonneg (x : List α) (g : α → α) : 0 ≤ (x.map (fun v => g v ^ 2)).sum := by
  apply List.sum_nonneg
  intro y hy
  rw [List.mem_map] at hy
  obtain ⟨v, -, rfl⟩ := hy
  exact sq_nonneg _

/-- C39: for every sequence, empty or not, the statistics of `calculateStatistics` satisfy
`std^2 + mean^2 = rms^2`, for a square root whose square gives back every non-negative
argument. -/
theorem calculateStatistics_pythagoras (sqrt : α → α) (nthElement : List α → Nat → List α)
    (hsqrt : ∀ v : α, 0 ≤ v → sqrt v ^ 2 = v) (x : List α) :
    (calculateStatistics sqrt nthElement x).std ^ 2 +
        (calculateStatistics sqrt nthElement x).mean ^ 2 =
      (calculateStatistics sqrt nthElement x).rms ^ 2 := by
  by_cases hx : x = []
  · subst hx
    have h0 : calculateStatistics sqrt nthElement ([] : List α) =
        { min := 0, max := 0, mean := 0, std := 0, rms := 0, median := 0 } := rfl
    rw [h0]
    simp
  · rw [calculateStatistics_of_ne_nil sqrt nthElement x hx]
    have hn : (0 : α) < (x.length : α) := by
      exact_mod_cast List.length_pos.mpr hx
    have hv : 0 ≤ (x.map (fun v => (v - x.sum / (x.length : α)) ^ 2)).sum / (x.length : α) :=
      div_nonneg (sum_sq_nonneg x (fun v => v - x.sum / (x.length : α))) (le_of_lt hn)
    have hs : 0 ≤ (x.map (fun v => v ^ 2)).sum / (x.length : α) :=
      div_nonneg (sum_sq_nonneg x (fun v => v)) (le_of_lt hn)
    simp only
    rw [hsqrt _ hv, hsqrt _ hs, sum_sq_sub]
    field_simp
    ring

/-- Witness for C39: the sequence `[3, 1, 2]` with the real square root. -/
theorem calculateStatistics_pythagoras_witness :
    (calculateStatistics Real.sqrt Cpp.sortingNthElement [3, 1, 2]).std ^ 2 +
        (calculateStatistics Real.sqrt Cpp.sortingNthElement [3, 1, 2]).mean ^ 2 =
      (calculateStatistics Real.sqrt Cpp.sortingNthElement [3, 1, 2]).rms ^ 2 :=
  calculateStatistics_pythagoras Real.sqrt Cpp.sortingNthElement
    (fun _ hv => Real.sq_sqrt hv) [3, 1, 2]

end DataAnalyzer

/-! ## Peaks are isolated; normalisation is idempotent -/

namespace SignalProcessor

variable {α : Type} [LinearOrderedField α]

/-- An index returned by `findPeaks` is an interior index whose sample exceeds the threshold
and both neighbours. -/
theorem findPeaks_mem (x : List α) (threshold : α) (i : Nat)
    (hi : i ∈ findPeaks x threshold) :
    1 ≤ i ∧ i ≤ x.length - 2 ∧ x.getD i 0 > threshold ∧
      x.getD i 0 > x.getD (i - 1) 0 ∧ x.getD i 0 > x.getD (i + 1) 0 := by
  by_cases h3 : x.length < 3
  · unfold findPeaks at hi
    rw [if_pos h3] at hi
    exact absurd hi (List.not_mem_nil _)
  · rw [findPeaks_eq_filter x threshold h3, List.mem_filter, List.mem_range'_1] at hi
    simp only [decide_eq_true_eq] at hi
    exact ⟨hi.1.1, by omega, hi.2⟩

/-- The indices returned by `findPeaks` are strictly increasing. -/
theorem findPeaks_sorted (x : List α) (threshold : α) :
    (findPeaks x threshold).Pairwise (· < ·) := by
  by_cases h3 : x.length < 3
  · unfold findPeaks
    rw [if_pos h3]
    exact List.Pairwise.nil
  · rw [findPeaks_eq_filter x threshold h3]
    exact List.Pairwise.filter _ (List.pairwise_lt_range' 1 _)

/-- Two neighbouring indices are never both returned by `findPeaks`. -/
theorem findPeaks_not_adjacent (x : List α) (threshold : α) (i : Nat)
    (hi : i ∈ findPeaks x threshold) : i + 1 ∉ findPeaks x threshold := by
  intro hj
  obtain ⟨-, -, -, -, h1⟩ := findPeaks_mem x threshold i hi
  obtain ⟨-, -, -, h2, -⟩ := findPeaks_mem x threshold (i + 1) hj
  simp only [Nat.add_sub_cancel] at h2
  exact lt_asymm h1 h2

/-- C35: the indices returned by `findPeaks` are strictly increasing, and no two of them are
adjacent: if `i` is returned then `i + 1` is not, so between two returned indices there is at
least one index that is not returned. -/
theorem findPeaks_isolated (x : List α) (threshold : α) :
    (findPeaks x threshold).Sorted (· < ·) ∧
    (∀ i ∈ findPeaks x threshold, i + 1 ∉ findPeaks x threshold) ∧
    (findPeaks x threshold).Pairwise (fun i j => i + 1 < j) := by
  refine ⟨findPeaks_sorted x threshold, findPeaks_not_adjacent x threshold, ?_⟩
  refine List.Pairwise.imp_of_mem ?_ (findPeaks_sorted x threshold)
  intro i j hi hj hlt
  have hne : j ≠ i + 1 := by
    intro h
    rw [h] at hj
    exact findPeaks_not_adjacent x threshold i hi hj
  omega

/-- Witness for C35: `[1, 3, 1, 4, 1, 1]` with threshold 0 has the peaks 1 and 3; index 2
between them is not returned. -/
theorem findPeaks_isolated_witness :
    findPeaks ([1, 3, 1, 4, 1, 1] : List ℚ) 0 = [1, 3] ∧
    (1 + 1) ∉ findPeaks ([1, 3, 1, 4, 1, 1] : List ℚ) 0 := by
  have heval : findPeaks ([1, 3, 1, 4, 1, 1] : List ℚ) 0 = [1, 3] := by
    simp [findPeaks, List.range']
  exact ⟨heval, (findPeaks_isolated ([1, 3, 1, 4, 1, 1] : List ℚ) 0).2.1 1 (by rw [heval]; simp)⟩

/-- On a non-empty sequence whose extremes coincide `normalize` returns as many copies of
`1/2` as there are samples. -/
theorem normalize_of_range_zero (x : List α) (hx : x ≠ [])
    (hr : (Cpp.minmaxElement x).2 - (Cpp.minmaxElement x).1 = 0) :
    normalize x = List.replicate x.length (1 / 2) := by
  have he : ¬ (x.isEmpty = true) := by simpa using hx
  unfold normalize
  simp only [if_neg he, if_pos hr]

/-- C36: `normalize` is idempotent: for every sequence, empty, constant or not,
`normalize (normalize x) = normalize x`. -/
theorem normalize_idempotent (x : List α) : normalize (normalize x) = normalize x := by
  by_cases hx : x = []
  · subst hx
    rfl
  obtain ⟨hmin, hmax⟩ := Cpp.minmaxElement_spec x hx
  by_cases hr : (Cpp.minmaxElement x).2 - (Cpp.minmaxElement x).1 = 0
  · rw [normalize_of_range_zero x hx hr]
    have hpos : 0 < x.length := List.length_pos.mpr hx
    have hne : List.replicate x.length ((1 : α) / 2) ≠ [] := by
      intro h
      have := congrArg List.length h
      rw [List.length_replicate, List.length_nil] at this
      omega
    obtain ⟨hmin2, hmax2⟩ := Cpp.minmaxElement_spec _ hne
    have e1 := List.eq_of_mem_replicate hmin2.1
    have e2 := List.eq_of_mem_replicate hmax2.1
    rw [normalize_of_range_zero _ hne (by rw [e1, e2, sub_self]), List.length_replicate]
  · have hlt : (Cpp.minmaxElement x).1 < (Cpp.minmaxElement x).2 :=
      lt_of_le_of_ne (hmin.2 _ hmax.1) (fun h => hr (by rw [h, sub_self]))
    have hpos : 0 < (Cpp.minmaxElement x).2 - (Cpp.minmaxElement x).1 := sub_pos.mpr hlt
    have hnorm := normalize_eq_map x hx hr
    have hyne : normalize x ≠ [] := by
      rw [hnorm]
      simpa using hx
    obtain ⟨hmin2, hmax2⟩ := Cpp.minmaxElement_spec (normalize x) hyne
    have hzero : (0 : α) ∈ normalize x ∧ ∀ y ∈ normalize x, (0 : α) ≤ y := by
      constructor
      · rw [hnorm, List.mem_map]
        exact ⟨_, hmin.1, by rw [sub_self, zero_div]⟩
      · intro y hy
        rw [hnorm, List.mem_map] at hy
        obtain ⟨v, hv, rfl⟩ := hy
        exact div_nonneg (sub_nonneg.mpr (hmin.2 v hv)) (le_of_lt hpos)
    have hone : (1 : α) ∈ normalize x ∧ ∀ y ∈ normalize x, y ≤ (1 : α) := by
      constructor
      · rw [hnorm, List.mem_map]
        exact ⟨_, hmax.1, div_self (ne_of_gt hpos)⟩
      · intro y hy
        rw [hnorm, List.mem_map] at hy
        obtain ⟨v, hv, rfl⟩ := hy
        rw [div_le_one hpos]
        exact sub_le_sub_right (hmax.2 v hv) _
    have e1 : (Cpp.minmaxElement (normalize x)).1 = 0 :=
      least_unique (normalize x) _ _ hmin2 hzero
    have e2 : (Cpp.minmaxElement (normalize x)).2 = 1 :=
      le_antisymm (hone.2 _ hmax2.1) (hmax2.2 _ hone.1)
    rw [normalize_eq_map (normalize x) hyne (by rw [e1, e2]; norm_num), e1, e2]
    simp

/-- The list of the entries of `l` at the indices `0, 1, ..., length - 1` is `l`. -/
theorem map_range_getD {β : Type} (l : List β) (d : β) :
    (List.range l.length).map (fun k => l.getD k d) = l := by
  apply List.ext_getElem
  · simp
  · intro i h1 h2
    simp [List.getD_eq_getElem?_getD, List.getElem?_eq_getElem h2]

/-- Strides of width `a` followed by strides of width `b` count like strides of width
`a * b`. -/
theorem stride_count_comp (n a b : Nat) (ha : 0 < a) (hb : 0 < b) :
    ((n + a - 1) / a + b - 1) / b = (n + a * b - 1) / (a * b) := by
  rcases Nat.eq_zero_or_pos n with hn | hn
  · subst hn
    have hab : 0 < a * b := Nat.mul_pos ha hb
    rw [Nat.div_eq_of_lt (by omega : 0 + a - 1 < a), Nat.div_eq_of_lt (by omega : 0 + b - 1 < b),
      Nat.div_eq_of_lt (by omega : 0 + a * b - 1 < a * b)]
  · have h1 : n + a - 1 = (n - 1) + a := by omega
    have h2 : n + a * b - 1 = (n - 1) + a * b := by
      have := Nat.mul_pos ha hb
      omega
    rw [h1, Nat.add_div_right _ ha, h2, ← Nat.div_div_eq_div_mul, Nat.add_mul_div_left _ _ ha]
    have h3 : ∀ q : Nat, q.succ + b - 1 = q + b := by
      intro q
      omega
    rw [h3]

/-- C37: downsampling composes multiplicatively.  For factors `a >= 1` and `b >= 1`,
`downsample (downsample x a) b = downsample x (a * b)`, and `downsample x 1 = x`. -/
theorem downsample_compose (x : List α) (a b : Int) (ha : 1 ≤ a) (hb : 1 ≤ b) :
    downsample (downsample x a) b = downsample x (a * b) ∧ downsample x 1 = x := by
  constructor
  · have hab : 1 ≤ a * b := by nlinarith
    have hA : 0 < a.toNat := by omega
    have hB : 0 < b.toNat := by omega
    have hmul : (a * b).toNat = a.toNat * b.toNat := by
      have h1 : ((a.toNat * b.toNat : Nat) : Int) = a * b := by
        rw [Nat.cast_mul, Int.toNat_of_nonneg (by omega), Int.toNat_of_nonneg (by omega)]
      rw [← h1, Int.toNat_natCast]
    have hlen : (downsample x a).length = (x.length + a.toNat - 1) / a.toNat := by
      rw [downsample_eq_map x a ha]
      simp
    rw [downsample_eq_map (downsample x a) b hb, downsample_eq_map x (a * b) hab, hlen, hmul,
      stride_count_comp x.length a.toNat b.toNat hA hB]
    apply List.map_congr_left
    intro j hj
    rw [List.mem_range, ← stride_count_comp x.length a.toNat b.toNat hA hB] at hj
    have hjb : j * b.toNat < (x.length + a.toNat - 1) / a.toNat := by
      have h1 : (j + 1) * b.toNat ≤
          ((x.length + a.toNat - 1) / a.toNat + b.toNat - 1) / b.toNat * b.toNat :=
        Nat.mul_le_mul_right _ hj
      have h2 := Nat.div_mul_le_self ((x.length + a.toNat - 1) / a.toNat + b.toNat - 1) b.toNat
      rw [Nat.add_mul, Nat.one_mul] at h1
      omega
    rw [downsample_eq_map x a ha, List.getD_eq_getElem?_getD, List.getElem?_map,
      List.getElem?_range hjb]
    simp only [Option.map_some', Option.getD_some]
    congr 1
    rw [Nat.mul_assoc, Nat.mul_comm b.toNat a.toNat]
  · rw [downsample_eq_map x 1 (by decide)]
    have h1 : (1 : Int).toNat = 1 := rfl
    rw [h1]
    simp only [Nat.add_sub_cancel, Nat.div_one, Nat.mul_one]
    exact map_range_getD x 0

/-- Witness for C37: `[5, 1, 3, 5, 7, 8, 9]` downsampled by 2 and then by 3, and by 6. -/
theorem downsample_compose_witness :
    downsample (downsample ([5, 1, 3, 5, 7, 8, 9] : List ℚ) 2) 3 =
        downsample ([5, 1, 3, 5, 7, 8, 9] : List ℚ) (2 * 3) ∧
      downsample ([5, 1, 3, 5, 7, 8, 9] : List ℚ) 1 = [5, 1, 3, 5, 7, 8, 9] :=
  downsample_compose ([5, 1, 3, 5, 7, 8, 9] : List ℚ) 2 3 (by decide) (by decide)

/-- C38: an even window size behaves exactly like the next odd one.  For `k >= 1`,
`movingAverage x (2k) = movingAverage x (2k + 1)`, and at every interior index `i` (with
`k <= i` and `i + k + 1 <= n`) the entry is the sum of the `2k + 1` samples from `i - k` to
`i + k`, divided by `2k + 1`. -/
theorem movingAverage_even_eq_next_odd (x : List α) (k : Int) (hk : 1 ≤ k) :
    movingAverage x (2 * k) = movingAverage x (2 * k + 1) ∧
    ∀ i : Nat, k.toNat ≤ i → i + k.toNat + 1 ≤ x.length →
      (movingAverage x (2 * k)).getD i 0 =
        (∑ j in Finset.Ico (i - k.toNat) (i + k.toNat + 1), x.getD j 0) /
          ((2 * k + 1 : Int) : α) := by
  have he : Int.tdiv (2 * k) 2 = k := by
    rw [Int.tdiv_eq_ediv (by omega) (by decide)]
    omega
  have ho : Int.tdiv (2 * k + 1) 2 = k := by
    rw [Int.tdiv_eq_ediv (by omega) (by decide)]
    omega
  constructor
  · rw [movingAverage_eq_map x (2 * k) (by omega), movingAverage_eq_map x (2 * k + 1) (by omega),
      he, ho]
  · intro i hi1 hi2
    have hi : i < x.length := by omega
    rw [movingAverage_eq_map x (2 * k) (by omega), List.getD_eq_getElem?_getD,
      List.getElem?_map, List.getElem?_range hi, he]
    simp only [Option.map_some', Option.getD_some]
    have hmin : min (i + k.toNat + 1) x.length = i + k.toNat + 1 := min_eq_left hi2
    have hcnt : ((i + k.toNat + 1 - (i - k.toNat) : Nat) : Int) = 2 * k + 1 := by omega
    rw [hmin, ← hcnt, Int.cast_natCast]

/-- Witness for C38: `[5, 1, 3, 5, 7, 8]` with window sizes 2 and 3. -/
theorem movingAverage_even_eq_next_odd_witness :
    movingAverage ([5, 1, 3, 5, 7, 8] : List ℚ) (2 * 1) =
      movingAverage ([5, 1, 3, 5, 7, 8] : List ℚ) (2 * 1 + 1) :=
  (movingAverage_even_eq_next_odd ([5, 1, 3, 5, 7, 8] : List ℚ) 1 (by decide)).1

end SignalProcessor
